import Mathlib

/-!
Verification of the ptree red-black tree (src/src/ptree.c) against its
specification.  The C code is shallowly embedded: the node arena is a pair of
function-arrays (`nodes : Nat → Nat` for the `ptree_node **nodes` slot table,
`heap : Nat → Node α` for the malloc'd node bodies, keyed by a stable
allocation id), the shared mutable sentinel `_leaf` is a dedicated `leafN`
field, machine words are `Nat` with explicit masking/truncation where the C
types force it, `abort()` and undefined memory accesses are `Option.none`,
and every C loop becomes a fuel-indexed recursive function (fuel exhaustion,
which cannot happen on well-formed trees with the fuel the public entry
points pass, is also `none`).

The width parameter `wd` is 32 for the default build and 64 for the
PTREE_STORAGE_64BIT build: `ptree_size_int` is a `wd`-bit unsigned word,
`red_flag` is its top bit, `max_nodes` is `2 ^ (wd - 1) - 1`.
-/

set_option maxHeartbeats 1600000
set_option linter.unusedSectionVars false
set_option linter.unreachableTactic false
set_option linter.unusedTactic false
set_option linter.unnecessarySeqFocus false

namespace Ptree

/-- References between nodes: the C pointer values that occur in the tree are
NULL, the address of the shared sentinel `_leaf` (ptree.c:84), or the address
of an arena-owned node body (identified by a stable allocation id). -/
inductive Ref where
  | null : Ref
  | leaf : Ref
  | node : Nat → Ref
deriving DecidableEq

/-- ptree.c:56 `ptree_node` — the handle, the two child links `links[2]`, the
parent link, and the flags word packing the color bit with the slot index. -/
structure Node (α : Type) where
  ptr : α
  link0 : Ref
  link1 : Ref
  parent : Ref
  flags : Nat
deriving DecidableEq

/-- ptree.c:77/80 `red_flag` — the top bit of the `wd`-bit flags word. -/
def redFlag (wd : Nat) : Nat := 2 ^ (wd - 1)

/-- ptree.c:78/81 `max_nodes` — the largest representable index,
`2 ^ 31 - 1` in the default build, `2 ^ 63 - 1` with PTREE_STORAGE_64BIT. -/
def maxNodes (wd : Nat) : Nat := 2 ^ (wd - 1) - 1

/-- a zeroed node body, as `memset(node, 0, sizeof(ptree_node))` leaves it
(ptree.c:187): all pointers NULL, flags 0; the NULL handle is modelled by
`default`. -/
def zeroNode (α : Type) [Inhabited α] : Node α := ⟨default, .null, .null, .null, 0⟩

/-- ptree.c:88 `is_red`. -/
def is_red (wd : Nat) (n : Node α) : Bool := n.flags &&& redFlag wd != 0

/-- ptree.c:89 `is_black`. -/
def is_black (wd : Nat) (n : Node α) : Bool := n.flags &&& redFlag wd == 0

/-- ptree.c:91 `paint_red` — `flags |= red_flag`. -/
def paint_red (wd : Nat) (n : Node α) : Node α :=
  { n with flags := n.flags ||| redFlag wd }

/-- ptree.c:92 `paint_black` — `flags &= ~red_flag`; the complement of the
top bit in a `wd`-bit word is `2 ^ (wd - 1) - 1`. -/
def paint_black (wd : Nat) (n : Node α) : Node α :=
  { n with flags := n.flags &&& (redFlag wd - 1) }

/-- ptree.c:97 `get_node_index` — `flags & ~red_flag`. -/
def get_node_index (wd : Nat) (n : Node α) : Nat := n.flags &&& (redFlag wd - 1)

/-- ptree.c:98 `set_node_index` — `flags = index | (flags & red_flag)`. -/
def set_node_index (wd : Nat) (n : Node α) (index : Nat) : Node α :=
  { n with flags := index ||| (n.flags &&& redFlag wd) }

/-- ptree.c:101 `copy_color`. -/
def copy_color (wd : Nat) (dst src : Node α) : Node α :=
  if is_red wd src then paint_red wd dst else paint_black wd dst

/-- links[d] of a node, d being the C direction 0 or 1. -/
def Node.link (n : Node α) (d : Bool) : Ref := if d then n.link1 else n.link0

/-- write links[d]. -/
def Node.setLink (n : Node α) (d : Bool) (r : Ref) : Node α :=
  if d then { n with link1 := r } else { n with link0 := r }

/-- ptree.c:94 `has_child` — `node->links[dir] != leaf`. -/
def has_child (n : Node α) (d : Bool) : Bool := n.link d != .leaf

/-- pointwise update of a function-array, modelling one store. -/
def upd (f : Nat → β) (i : Nat) (b : β) : Nat → β := fun j => if j = i then b else f j

/-- ptree.c:63 `struct ptree` together with the memory it owns.  `nodes` is
the slot-pointer array (position ↦ body id) whose allocated length `arenaLen`
is what `realloc` was last asked for; `heap` holds every node body ever
malloc'd, keyed by a stable id (`nextId` is the next fresh one); `leafN` is
this model's copy of the shared sentinel `_leaf` (ptree.c:84), which remove
mutates through `x->parent`.  The comparators, stored in the C struct, are
passed as parameters instead since they are fixed at creation. -/
structure State (α : Type) where
  root : Ref
  nodes_num : Nat
  allocated_nodes_num : Nat
  nodes : Nat → Nat
  arenaLen : Nat
  heap : Nat → Node α
  nextId : Nat
  leafN : Node α

variable {α : Type} [Inhabited α]

/-- dereference a Ref.  Dereferencing NULL is undefined behaviour in C; the
model returns a junk zeroed node (no execution reached from a well-formed
tree does this). -/
def getN (s : State α) (r : Ref) : Node α :=
  match r with
  | .null => zeroNode α
  | .leaf => s.leafN
  | .node id => s.heap id

/-- write through a Ref.  A store through NULL (undefined behaviour, never
reached from well-formed trees) is modelled as a no-op. -/
def modifyRef (s : State α) (r : Ref) (f : Node α → Node α) : State α :=
  match r with
  | .null => s
  | .leaf => { s with leafN := f s.leafN }
  | .node id => { s with heap := upd s.heap id (f (s.heap id)) }

/-- ptree.c:95 `is_child` — `node->parent->links[dir] == node`. -/
def is_child (s : State α) (r : Ref) (d : Bool) : Bool :=
  (getN s (getN s r).parent).link d == r

/-- two's-complement value of a `uint`-to-`int32_t` conversion, as gcc/clang
define it: reduce mod 2^32, then values ≥ 2^31 go negative. -/
def toInt32 (n : Nat) : Int :=
  if n % 2 ^ 32 < 2 ^ 31 then ((n % 2 ^ 32 : Nat) : Int)
  else ((n % 2 ^ 32 : Nat) : Int) - 2 ^ 32

/-- conversion of an integer back to a `wd`-bit unsigned word (C unsigned
conversion: reduction mod 2^wd). -/
def intToWord (wd : Nat) (i : Int) : Nat := (i % (2 ^ wd : Nat)).toNat

/-! ## Iteration (ptree.c:109-154) -/

/-- ptree.c:117 — the `while (node->links[0] != leaf) node = node->links[0]`
descent to the leftmost node under `r` (also the loop of `ptree_min`,
ptree.c:331). -/
def leftmost (s : State α) : Nat → Ref → Option Ref
  | 0, _ => none
  | fuel + 1, r =>
    if (getN s r).link0 != .leaf then leftmost s fuel ((getN s r).link0) else some r

/-- ptree.c:134 — the mirror descent to the rightmost node under `r` (also
the loop of `ptree_max`, ptree.c:342). -/
def rightmost (s : State α) : Nat → Ref → Option Ref
  | 0, _ => none
  | fuel + 1, r =>
    if (getN s r).link1 != .leaf then rightmost s fuel ((getN s r).link1) else some r

/-- ptree.c:122-127 — ascend while the current node is a right child; return
the first ancestor reached from the left, or NULL past the root. -/
def next_ascend (s : State α) : Nat → Ref → Ref → Option Ref
  | 0, _, _ => none
  | fuel + 1, nd, it =>
    if it != .leaf && (getN s it).link1 == nd then
      next_ascend s fuel it (getN s it).parent
    else some (if it != .leaf then it else .null)

/-- ptree.c:139-144 — mirror ascent for the predecessor. -/
def prev_ascend (s : State α) : Nat → Ref → Ref → Option Ref
  | 0, _, _ => none
  | fuel + 1, nd, it =>
    if it != .leaf && (getN s it).link0 == nd then
      prev_ascend s fuel it (getN s it).parent
    else some (if it != .leaf then it else .null)

/-- ptree.c:113 `get_next_node` — in-order successor via parent links;
`some .null` is the C NULL result, `none` is fuel exhaustion. -/
def get_next_node (s : State α) (fuel : Nat) (r : Ref) : Option Ref :=
  if (getN s r).link1 != .leaf then leftmost s fuel ((getN s r).link1)
  else next_ascend s fuel r (getN s r).parent

/-- ptree.c:130 `get_prev_node`. -/
def get_prev_node (s : State α) (fuel : Nat) (r : Ref) : Option Ref :=
  if (getN s r).link0 != .leaf then rightmost s fuel ((getN s r).link0)
  else prev_ascend s fuel r (getN s r).parent

/-! ## Node management (ptree.c:156-235) -/

/-- ptree.c:181-190 — the allocation loop body, repeated `count` times from
position `i`: `nodes[i] = malloc(...)`, zero it, give it index `i`, paint it
black.  Malloc failure (environment-dependent) is not modelled: each malloc
succeeds and yields the next stable id. -/
def alloc_loop (wd : Nat) (s : State α) : Nat → Nat → State α
  | _, 0 => s
  | i, count + 1 =>
    alloc_loop wd
      { s with
        nodes := upd s.nodes i s.nextId,
        heap := upd s.heap s.nextId (paint_black wd (set_node_index wd (zeroNode α) i)),
        nextId := s.nextId + 1 }
      (i + 1) count

/-- ptree.c:170 `ptree_allocate_nodes`.  The C computes
`ptree_size_int nodes_to_reallocate = tree->allocated_nodes_num + num_nodes`:
the `size_t` sum is truncated to the `wd`-bit `ptree_size_int` before the
`max_nodes` overflow check.  `none` is `oom()`/abort; `realloc` success is
assumed (its failure is an environment event, also `oom()`). -/
def ptree_allocate_nodes (wd : Nat) (s : State α) (num_nodes : Nat) : Option (State α) :=
  let nodes_to_reallocate := (s.allocated_nodes_num + num_nodes) % 2 ^ wd
  if nodes_to_reallocate > maxNodes wd then none
  else
    let s1 := { s with arenaLen := nodes_to_reallocate }
    let s2 := alloc_loop wd s1 s.allocated_nodes_num (nodes_to_reallocate - s.allocated_nodes_num)
    some { s2 with allocated_nodes_num := nodes_to_reallocate }

/-- ptree.c:195-203 — the growth step of `add_node`: when no free slot
remains, grow by the current capacity (at least 1), capped by the
process-wide `max_nodes_to_auto_allocate` (`maxAuto`, ptree.c:160) when that
is set and exceeded. -/
def add_node_grow (wd maxAuto : Nat) (s : State α) : Option (State α) :=
  if s.nodes_num ≥ s.allocated_nodes_num then
    let nodes_to_allocate :=
      if s.allocated_nodes_num > 1 then s.allocated_nodes_num else 1
    let nodes_to_allocate :=
      if maxAuto != 0 && s.allocated_nodes_num > maxAuto then maxAuto
      else nodes_to_allocate
    ptree_allocate_nodes wd s nodes_to_allocate
  else some s

/-- ptree.c:194 `add_node`.  After the optional growth the C reads
`tree->nodes[tree->nodes_num]`; if that position is outside the allocation
the read is undefined (`none`) — reachable after `ptree_shrink`, which
forgets to lower `allocated_nodes_num`.  The fresh node gets the handle,
leaf children and parent, and is painted black then red (ptree.c:206-211),
keeping its stored index. -/
def add_node (wd maxAuto : Nat) (s : State α) (p : α) : Option (Nat × State α) := do
  let s ← add_node_grow wd maxAuto s
  if s.nodes_num < s.arenaLen then
    let id := s.nodes s.nodes_num
    let s := { s with nodes_num := s.nodes_num + 1 }
    let s := modifyRef s (.node id) fun n =>
      { paint_red wd (paint_black wd { n with ptr := p }) with
        parent := .leaf, link0 := .leaf, link1 := .leaf }
    some (id, s)
  else none

/-- ptree.c:215 `release_node`.  The C stores the released node's index into
an `int32_t` (`int32_t node_index = get_node_index(node)`), truncating it in
the 64-bit build; the swap then uses that truncated value both as the new
stored index of the last active node and as the position written.  A
negative or out-of-allocation array index is undefined (`none`), as is the
`--nodes_num` underflow when no node is active. -/
def release_node (wd : Nat) (s : State α) (id : Nat) : Option (State α) :=
  if s.nodes_num = 0 then none
  else
    let nn := s.nodes_num - 1
    if nn < s.arenaLen then
      let lastId := s.nodes nn
      let node_index : Int := toInt32 (get_node_index wd (s.heap id))
      let s1 :=
        { s with
          nodes_num := nn,
          heap := upd s.heap lastId
            (set_node_index wd (s.heap lastId) (intToWord wd node_index)) }
      let s2 := { s1 with heap := upd s1.heap id (set_node_index wd (s1.heap id) nn) }
      if 0 ≤ node_index ∧ node_index < (s.arenaLen : Int) then
        let s3 := { s2 with nodes := upd s2.nodes node_index.toNat lastId }
        some { s3 with nodes := upd s3.nodes nn id }
      else none
    else none

/-- ptree.c:225 `ptree_shrink` — frees the bodies beyond the active count
and reallocates the slot array down to `nodes_num` entries, leaving
`allocated_nodes_num` untouched (the C never updates it).  The free loop
itself reads slots up to `allocated_nodes_num`; if an earlier shrink already
cut the allocation below that, those reads are undefined (`none`). -/
def ptree_shrink (s : State α) : Option (State α) :=
  if s.nodes_num < s.allocated_nodes_num ∧ s.arenaLen < s.allocated_nodes_num then none
  else some { s with arenaLen := s.nodes_num }

/-- ptree.c:241 `ptree_new` — zero the struct, root := leaf, then
preallocate.  Each tree gets a fresh sentinel state (in C the sentinel is a
single process-wide object; per-tree modelling is equivalent because the only
cross-operation information it carries — color 0 and NULL children — is the
same for every tree). -/
def ptree_new (wd : Nat) (α : Type) [Inhabited α] (preallocated_nodes : Nat) :
    Option (State α) :=
  ptree_allocate_nodes wd
    { root := .leaf, nodes_num := 0, allocated_nodes_num := 0,
      nodes := fun _ => 0, arenaLen := 0, heap := fun _ => zeroNode α,
      nextId := 0, leafN := zeroNode α }
    preallocated_nodes

/-- ptree.c:264 `ptree_empty`. -/
def ptree_empty (s : State α) : State α := { s with root := .leaf, nodes_num := 0 }

/-! ## Getters (ptree.c:269-348) -/

/-- ptree.c:274-286 — the descent loop of `ptree_get_it`, driven by the key
comparator; `some .null` is the NULL result. -/
def get_it_loop (cmp_key : κ → α → Int) (s : State α) (key : κ) :
    Nat → Ref → Option Ref
  | 0, _ => none
  | fuel + 1, it =>
    if it != .leaf then
      let diff := cmp_key key (getN s it).ptr
      if diff = 0 then some it
      else
        let dir : Bool := diff > 0
        if has_child (getN s it) dir then get_it_loop cmp_key s key fuel ((getN s it).link dir)
        else some .null
    else some .null

/-- ptree.c:273 `ptree_get_it`. -/
def ptree_get_it (cmp_key : κ → α → Int) (s : State α) (key : κ) (fuel : Nat) :
    Option Ref :=
  get_it_loop cmp_key s key fuel s.root

/-- ptree.c:290 `ptree_get` — the inner `Option` is the C result, `none`
standing for the NULL return when the key is absent. -/
def ptree_get (cmp_key : κ → α → Int) (s : State α) (key : κ) (fuel : Nat) :
    Option (Option α) := do
  let it ← ptree_get_it cmp_key s key fuel
  if it != .null then some (some (getN s it).ptr) else some none

/-- ptree.c:303-314 — the descent loop of `ptree_search`, driven by the
element comparator; `some .null` models the NULL (not found) result. -/
def search_loop (cmp : α → α → Int) (s : State α) (p : α) : Nat → Ref → Option Ref
  | 0, _ => none
  | fuel + 1, z =>
    if z != .leaf then
      let diff := cmp p (getN s z).ptr
      if diff = 0 then some z
      else
        let dir : Bool := diff > 0
        if has_child (getN s z) dir then search_loop cmp s p fuel ((getN s z).link dir)
        else some .null
    else some z

/-- ptree.c:298 `ptree_search`. -/
def ptree_search (cmp : α → α → Int) (s : State α) (p : α) (fuel : Nat) : Option Ref :=
  if s.root == .leaf then some .null
  else search_loop cmp s p fuel s.root

/-- ptree.c:326 `ptree_min` — `some .null` is the NULL result on an empty
tree. -/
def ptree_min (s : State α) (fuel : Nat) : Option Ref :=
  if s.root == .leaf then some .null else leftmost s fuel s.root

/-- ptree.c:337 `ptree_max`. -/
def ptree_max (s : State α) (fuel : Nat) : Option Ref :=
  if s.root == .leaf then some .null else rightmost s fuel s.root

/-- ptree.c:348 `ptree_size` — returns `tree->nodes_num` through the
`int32_t` return type (a truncating conversion in the 64-bit build). -/
def ptree_size (s : State α) : Int := toInt32 s.nodes_num

/-- ptree.c:318 `ptree_has` — `some .null` models the NULL (absent)
result. -/
def ptree_has (cmp : α → α → Int) (s : State α) (p : α) (fuel : Nat) : Option Ref :=
  ptree_search cmp s p fuel

/-! ## Rotation (ptree.c:350-369) -/

/-- ptree.c:350 `rotate` — single rotation about the edge from `x` to its
`!dir` child, line by line; every dereference reads the state produced by
the previous store, exactly as the C sequence does. -/
def rotate (s : State α) (x : Ref) (dir : Bool) : State α :=
  let y := (getN s x).link !dir
  let s1 := modifyRef s x fun n => n.setLink (!dir) ((getN s y).link dir)
  let s2 :=
    if (getN s1 y).link dir != .leaf then
      modifyRef s1 ((getN s1 y).link dir) fun n => { n with parent := x }
    else s1
  let s3 := modifyRef s2 y fun n => { n with parent := (getN s2 x).parent }
  let s4 :=
    if (getN s3 x).parent == .leaf then { s3 with root := y }
    else if (getN s3 (getN s3 x).parent).link0 == x then
      modifyRef s3 ((getN s3 x).parent) fun n => n.setLink false y
    else
      modifyRef s3 ((getN s3 x).parent) fun n => n.setLink true y
  let s5 := modifyRef s4 y fun n => n.setLink dir x
  modifyRef s5 x fun n => { n with parent := y }

/-! ## Insertion (ptree.c:371-416) -/

/-- ptree.c:396-413 — the insert rebalancing loop.  `lefty` is
`is_child(x->parent, 0)`, `y` the uncle; the red-uncle case recolors and
moves two levels up, the black-uncle case rotates (first at the parent when
`x` is an inner child) and recolors.  The loop guard is then re-evaluated;
`none` is fuel exhaustion (the C loop not terminating). -/
def insert_fixup (wd : Nat) (s : State α) (x : Ref) : Nat → Option (State α)
  | 0 => none
  | fuel + 1 =>
    if x != s.root && is_red wd (getN s (getN s x).parent) then
      let lefty : Bool := is_child s ((getN s x).parent) false
      let y := (getN s (getN s ((getN s x).parent)).parent).link lefty
      if is_red wd (getN s y) then
        let s1 := modifyRef s ((getN s x).parent) (paint_black wd)
        let s2 := modifyRef s1 y (paint_black wd)
        let gp := (getN s2 ((getN s2 x).parent)).parent
        let s3 := modifyRef s2 gp (paint_red wd)
        insert_fixup wd s3 gp fuel
      else
        let xs :=
          if is_child s x lefty then
            ((getN s x).parent, rotate s ((getN s x).parent) !lefty)
          else (x, s)
        let x := xs.1
        let s := xs.2
        let s1 := modifyRef s ((getN s x).parent) (paint_black wd)
        let s2 := modifyRef s1 ((getN s1 ((getN s1 x).parent)).parent) (paint_red wd)
        let s3 := rotate s2 ((getN s2 ((getN s2 x).parent)).parent) lefty
        insert_fixup wd s3 x fuel
    else some s

/-- ptree.c:378-394 — the insertion descent: compare, stop on an equal
match (returning false with the tree untouched), otherwise descend, and on
reaching a missing child attach a fresh red node there and hand it to the
rebalancing loop; ptree.c:414 finally paints the root black. -/
def insert_walk (wd maxAuto : Nat) (cmp : α → α → Int) (s : State α) (p : α) :
    Nat → Ref → Option (Bool × State α)
  | 0, _ => none
  | fuel + 1, x =>
    let c := cmp p (getN s x).ptr
    if c = 0 then some (false, s)
    else
      let dir : Bool := c > 0
      if has_child (getN s x) dir then
        insert_walk wd maxAuto cmp s p fuel ((getN s x).link dir)
      else do
        let (id, s1) ← add_node wd maxAuto s p
        let s2 := modifyRef s1 x fun n => n.setLink dir (.node id)
        let s3 := modifyRef s2 (.node id) fun n => { n with parent := x }
        let s4 ← insert_fixup wd s3 (.node id) fuel
        some (true, modifyRef s4 s4.root (paint_black wd))

/-- ptree.c:371 `ptree_insert`. -/
def ptree_insert (wd maxAuto : Nat) (cmp : α → α → Int) (s : State α) (p : α)
    (fuel : Nat) : Option (Bool × State α) :=
  if s.root == .leaf then do
    let (id, s1) ← add_node wd maxAuto s p
    let s2 := { s1 with root := .node id }
    some (true, modifyRef s2 s2.root (paint_black wd))
  else insert_walk wd maxAuto cmp s p fuel s.root

/-! ## Removal (ptree.c:418-494) -/

/-- ptree.c:437-465 — the remove rebalancing loop over the
possibly-absent replacing child `x`.  `XL` is `is_child(x, 0)`, `w` the
sibling; red sibling → rotate at the parent and recompute, both nephews
black → recolor and ascend, near nephew red → rotate at the sibling and
recompute, far nephew red → recolor, rotate at the parent and break.
Returns the final `(state, x)` for the closing `paint_black(x)`. -/
def remove_fixup (wd : Nat) (s : State α) (x : Ref) : Nat → Option (State α × Ref)
  | 0 => none
  | fuel + 1 =>
    if x != s.root && is_black wd (getN s x) then
      let XL : Bool := is_child s x false
      let w := (getN s (getN s x).parent).link XL
      let sw :=
        if is_red wd (getN s w) then
          let s1 := modifyRef s w (paint_black wd)
          let s2 := modifyRef s1 ((getN s1 x).parent) (paint_red wd)
          let s3 := rotate s2 ((getN s2 x).parent) !XL
          (s3, (getN s3 (getN s3 x).parent).link XL)
        else (s, w)
      let s := sw.1
      let w := sw.2
      if is_black wd (getN s ((getN s w).link false)) &&
          is_black wd (getN s ((getN s w).link true)) then
        let s1 := modifyRef s w (paint_red wd)
        remove_fixup wd s1 ((getN s1 x).parent) fuel
      else
        let sw2 :=
          if is_black wd (getN s ((getN s w).link XL)) then
            let s1 := modifyRef s ((getN s w).link !XL) (paint_black wd)
            let s2 := modifyRef s1 w (paint_red wd)
            let s3 := rotate s2 w XL
            (s3, (getN s3 (getN s3 x).parent).link XL)
          else (s, w)
        let s := sw2.1
        let w := sw2.2
        let s1 := modifyRef s w fun n => copy_color wd n (getN s (getN s x).parent)
        let s2 := modifyRef s1 ((getN s1 x).parent) (paint_black wd)
        let s3 := modifyRef s2 ((getN s2 w).link XL) (paint_black wd)
        let s4 := rotate s3 ((getN s3 x).parent) !XL
        some (s4, x)
    else some (s, x)

/-- ptree.c:419-424 — the choice of the physically detached node: the
target itself when it lacks a child, otherwise its in-order successor. -/
def remove_pick_y (s : State α) (z : Ref) (fuel : Nat) : Option Ref :=
  if !has_child (getN s z) false || !has_child (getN s z) true then some z
  else get_next_node s fuel z

/-- ptree.c:436-466 — run the rebalancing loop exactly when the detached
node was black. -/
def remove_balance (wd : Nat) (s : State α) (x y : Ref) (fuel : Nat) :
    Option (State α × Ref) :=
  if is_black wd (getN s y) then remove_fixup wd s x fuel
  else some (s, x)

/-- ptree.c:467-469 — paint the replacing child black and return the
detached body's slot to the arena. -/
def remove_finish (wd : Nat) (sx : State α × Ref) (y : Ref) : Option (Bool × State α) :=
  let s4 := modifyRef sx.1 sx.2 (paint_black wd)
  match y with
  | .node yid => do
    let s5 ← release_node wd s4 yid
    some (true, s5)
  | _ => none

/-- ptree.c:425-434 — the detach step: `x` is `y`'s (possibly absent)
single child; relink `x` under `y`'s former parent (transiently writing the
sentinel's parent when `x` is absent), update the parent's child link or the
root, and copy the successor's handle into `z` in place when `y` is not `z`
itself.  Returns the spliced state and `x`. -/
def remove_detach (s : State α) (y z : Ref) : State α × Ref :=
  let x := (getN s y).link !(has_child (getN s y) false)
  let s1 := modifyRef s x fun n => { n with parent := (getN s y).parent }
  let s2 :=
    if (getN s1 y).parent == .leaf then { s1 with root := x }
    else modifyRef s1 ((getN s1 y).parent) fun n => n.setLink (is_child s1 y true) x
  let s3 :=
    if y != z then modifyRef s2 z fun n => { n with ptr := (getN s2 y).ptr }
    else s2
  (s3, x)

/-- ptree.c:418 `ptree_remove_node` — pick the physically detached node `y`
(the target itself, or its in-order successor when both children are
present), splice `y` out, rebalance if `y` was black, paint the replacing
child black and return `y`'s slot to the arena. -/
def ptree_remove_node (wd : Nat) (s : State α) (z : Ref) (fuel : Nat) :
    Option (Bool × State α) := do
  let y ← remove_pick_y s z fuel
  let sx2 := remove_detach s y z
  let sx ← remove_balance wd sx2.1 sx2.2 y fuel
  remove_finish wd sx y

/-- ptree.c:472 `ptree_remove`. -/
def ptree_remove (wd : Nat) (cmp : α → α → Int) (s : State α) (p : α)
    (fuel : Nat) : Option (Bool × State α) :=
  if s.root == .leaf then some (false, s)
  else do
    let z ← ptree_search cmp s p fuel
    if z == .null then some (false, s)
    else ptree_remove_node wd s z fuel

/-- ptree.c:483 `ptree_remove_by_it`. -/
def ptree_remove_by_it (wd : Nat) (s : State α) (it : Ref) (fuel : Nat) :
    Option (Bool × State α) :=
  ptree_remove_node wd s it fuel

/-- ptree.c:487 `ptree_remove_by_key`. -/
def ptree_remove_by_key (wd : Nat) (cmp_key : κ → α → Int) (s : State α) (key : κ)
    (fuel : Nat) : Option (Bool × State α) := do
  let it ← ptree_get_it cmp_key s key fuel
  if it != .null then ptree_remove_node wd s it fuel
  else some (false, s)

/-! ## Operation histories

The testable-properties section of the spec quantifies over finite sequences
of insert/remove calls against a freshly created tree; `runOps` executes one,
counting the successful (result 1) inserts and removes.  The fuel passed to
each call, `nodes_num + 2`, bounds every internal loop of that call on any
well-formed tree (each loop steps through distinct nodes, or ascends a
strictly shorter path). -/

/-- one public mutating call of a history. -/
inductive Op (α : Type) where
  | ins (p : α)
  | del (p : α)

/-- execute one operation with the canonical sufficient fuel. -/
def stepOp (wd maxAuto : Nat) (cmp : α → α → Int) (s : State α) :
    Op α → Option (Bool × State α)
  | .ins p => ptree_insert wd maxAuto cmp s p (s.nodes_num + 2)
  | .del p => ptree_remove wd cmp s p (s.nodes_num + 2)

/-- run a history, counting successful inserts and removes. -/
def runOps (wd maxAuto : Nat) (cmp : α → α → Int) :
    State α → List (Op α) → Option (State α × Nat × Nat)
  | s, [] => some (s, 0, 0)
  | s, op :: ops => do
    let (b, s1) ← stepOp wd maxAuto cmp s op
    let (s2, i, d) ← runOps wd maxAuto cmp s1 ops
    match op, b with
    | .ins _, true => some (s2, i + 1, d)
    | .del _, true => some (s2, i, d + 1)
    | _, _ => some (s2, i, d)

/-- collect the handles of `ptree_it_next` steps starting from iterator `it`
(ptree.c:148 `ptree_it_next` is `get_next_node`), stopping at the NULL
iterator: the in-order traversal idiom of the README and example.c. -/
def traverseFrom (s : State α) (fuel : Nat) : Nat → Ref → Option (List α)
  | 0, _ => none
  | steps + 1, it =>
    if it == .null then some []
    else do
      let nxt ← get_next_node s fuel it
      let rest ← traverseFrom s fuel steps nxt
      some ((getN s it).ptr :: rest)

/-- the full in-order traversal: `ptree_min`, then `ptree_it_next` until
NULL. -/
def traverse (s : State α) : Option (List α) := do
  let it ← ptree_min s (s.nodes_num + 2)
  traverseFrom s (s.nodes_num + 2) (s.nodes_num + 1) it

/-- a freshly created tree (`ptree_new`) followed by a history. -/
def runHistory (wd maxAuto : Nat) (cmp : α → α → Int) (preallocated : Nat)
    (ops : List (Op α)) : Option (State α × Nat × Nat) := do
  let s ← ptree_new wd α preallocated
  runOps wd maxAuto cmp s ops

/-! ## Concrete data used to exercise the model -/

/-- an integer comparator with the `memcmp` contract of the README:
negative, zero or positive as `a` is below, equal to or above `b`. -/
def cmpI (a b : Int) : Int := a - b

/-- a well-formed PTREE_STORAGE_64BIT arena of `2 ^ 32 + 2` active nodes in
which slot `i` holds a black body whose stored index is `i` (the identity
layout every freshly reserved arena has).  Tree links are irrelevant to the
slot-swap of `release_node`, so all bodies are roots of nothing. -/
def bigArena : State Int :=
  { root := .leaf,
    nodes_num := 2 ^ 32 + 2,
    allocated_nodes_num := 2 ^ 32 + 2,
    nodes := fun p => p,
    arenaLen := 2 ^ 32 + 2,
    heap := fun i => { ptr := 0, link0 := .leaf, link1 := .leaf, parent := .leaf, flags := i },
    nextId := 2 ^ 32 + 2,
    leafN := zeroNode Int }

/-- a well-formed three-node red-black tree over the arena ids 0, 1, 2:
the black root (id 0, handle 2) has red children id 1 (handle 1) and id 2
(handle 3) — the state `ptree_insert` produces for the history 2, 1, 3. -/
def splice3 : State Int :=
  { root := .node 0,
    nodes_num := 3,
    allocated_nodes_num := 3,
    nodes := fun p => p,
    arenaLen := 3,
    heap := fun i =>
      if i = 0 then { ptr := 2, link0 := .node 1, link1 := .node 2, parent := .leaf, flags := 0 }
      else if i = 1 then { ptr := 1, link0 := .leaf, link1 := .leaf, parent := .node 0, flags := 2 ^ 31 + 1 }
      else if i = 2 then { ptr := 3, link0 := .leaf, link1 := .leaf, parent := .node 0, flags := 2 ^ 31 + 2 }
      else zeroNode Int,
    nextId := 3,
    leafN := zeroNode Int }

/-- counters of the default build stay consistent and within `max_nodes`:
the slot array length is what `allocated_nodes_num` says (no shrink in the
history), and the active count never exceeds it. -/
def Arena32 (s : State α) : Prop :=
  s.arenaLen = s.allocated_nodes_num ∧ s.nodes_num ≤ s.allocated_nodes_num ∧
    s.allocated_nodes_num ≤ maxNodes 32

/-! ## Abstraction: materialized trees, zippers and the structural invariant

The pointer graph of a well-formed ptree is the unfolding of an inductive
binary tree of arena ids and colors; parent pointers are the zipper contexts
of that tree.  Everything the red-black claims speak about is phrased over
this abstraction, which is tied to the heap by the `Repr` relation. -/

/-- the abstract shape of a tree hanging in the heap: ids and colors. -/
inductive T where
  | nil : T
  | node (id : Nat) (red : Bool) (l r : T)
deriving DecidableEq

/-- in-order list of arena ids. -/
def T.ids : T → List Nat
  | .nil => []
  | .node id _ l r => l.ids ++ id :: r.ids

/-- color of the root, absence reading as black. -/
def T.isRed : T → Bool
  | .nil => false
  | .node _ red _ _ => red

/-- in-order list of the handles of a tree, read from the heap. -/
def ptrsOf (s : State α) (t : T) : List α := t.ids.map fun id => (s.heap id).ptr

/-- `Repr wd s pr r t`: from reference `r`, whose node's parent field is
`pr`, the heap unfolds to exactly the finite tree `t`. -/
inductive Repr (wd : Nat) (s : State α) : Ref → Ref → T → Prop where
  | nil : ∀ pr, Repr wd s pr .leaf .nil
  | node : ∀ pr id tl tr,
      (s.heap id).parent = pr →
      Repr wd s (.node id) ((s.heap id).link0) tl →
      Repr wd s (.node id) ((s.heap id).link1) tr →
      Repr wd s pr (.node id) (.node id (is_red wd (s.heap id)) tl tr)

/-- one zipper frame: the hole is the `d`-child of node `id` (color `red`),
whose other child is `sib`. -/
inductive Frame where
  | F (d : Bool) (id : Nat) (red : Bool) (sib : T)

/-- rebuild one level around the hole. -/
def plugF : Frame → T → T
  | .F false id red sib, u => .node id red u sib
  | .F true id red sib, u => .node id red sib u

/-- rebuild the whole tree around the hole. -/
def plug : List Frame → T → T
  | [], u => u
  | f :: c, u => plug c (plugF f u)

/-- `Zip wd s c pr r`: descending from the root through the frames of `c`
(innermost first) reaches reference `r`, hanging under parent `pr`. -/
inductive Zip (wd : Nat) (s : State α) : List Frame → Ref → Ref → Prop where
  | top : Zip wd s [] .leaf s.root
  | frame : ∀ (d : Bool) (id : Nat) (sib : T) (c : List Frame) (pr : Ref),
      Zip wd s c pr (.node id) →
      (s.heap id).parent = pr →
      Repr wd s (.node id) ((s.heap id).link !d) sib →
      Zip wd s (.F d id (is_red wd (s.heap id)) sib :: c) (.node id) ((s.heap id).link d)

/-- ids strictly to the left of the hole contributed by one frame. -/
def leftF : Frame → List Nat
  | .F false _ _ _ => []
  | .F true id _ sib => sib.ids ++ [id]

/-- ids strictly to the right of the hole contributed by one frame. -/
def rightF : Frame → List Nat
  | .F false id _ sib => id :: sib.ids
  | .F true _ _ _ => []

/-- everything in the context left of the hole, in tree order. -/
def leftOf : List Frame → List Nat
  | [] => []
  | f :: c => leftOf c ++ leftF f

/-- everything in the context right of the hole, in tree order. -/
def rightOf : List Frame → List Nat
  | [] => []
  | f :: c => rightF f ++ rightOf c

/-- all ids owned by a context. -/
def ctxIds (c : List Frame) : List Nat := leftOf c ++ rightOf c

/-- no red node has a red child. -/
def noRR : T → Prop
  | .nil => True
  | .node _ red l r =>
    (red = true → l.isRed = false ∧ r.isRed = false) ∧ noRR l ∧ noRR r

/-- every path from the root to an absence marker crosses `n` black
nodes. -/
def bhOk : T → Nat → Prop
  | .nil, n => n = 0
  | .node _ red l r, n =>
    ∃ m, bhOk l m ∧ bhOk r m ∧ n = m + (if red then 0 else 1)

/-- the red-black balance invariant of the spec: black root, no red-red
edge, equal black-heights. -/
def RBinv (t : T) : Prop := t.isRed = false ∧ noRR t ∧ ∃ n, bhOk t n

/-- optional strict bounds for the BST order. -/
def loLt (cmp : α → α → Int) (lo : Option α) (v : α) : Prop :=
  match lo with
  | none => True
  | some a => cmp a v < 0

/-- upper-side mirror of `loLt`. -/
def ltHi (cmp : α → α → Int) (v : α) (hi : Option α) : Prop :=
  match hi with
  | none => True
  | some b => cmp v b < 0

/-- the BST order invariant: every handle lies strictly between the
bounds, with the node handle separating its subtrees. -/
def Bnd (cmp : α → α → Int) (s : State α) : T → Option α → Option α → Prop
  | .nil, _, _ => True
  | .node id _ l r, lo, hi =>
    loLt cmp lo ((s.heap id).ptr) ∧ ltHi cmp ((s.heap id).ptr) hi ∧
      Bnd cmp s l lo (some ((s.heap id).ptr)) ∧
      Bnd cmp s r (some ((s.heap id).ptr)) hi

/-- comparator contract of the README (`memcmp`-like total preorder whose
equivalence is compatible with the order): antisymmetric signs, transitive
strict order, and 0-results substitutable on either side. -/
structure CmpOk (cmp : α → α → Int) : Prop where
  asym : ∀ a b, 0 < cmp a b ↔ cmp b a < 0
  trans : ∀ a b c, cmp a b < 0 → cmp b c < 0 → cmp a c < 0
  eq_l : ∀ a b c, cmp a b = 0 → cmp a c = cmp b c
  eq_r : ∀ a b c, cmp a b = 0 → cmp c a = cmp c b

/-- the structural invariant of a live default-build tree: the heap unfolds
from the root to `t` with coherent parents; slot-array entries up to the
capacity are distinct bodies, each storing its own position in its flags
word with the flags in 32-bit range and the body id below `nextId`; the ids
of `t` are exactly the active slots; the counters are consistent
(`Arena32`); and the shared sentinel is black with absent children. -/
def Inv (s : State α) (t : T) : Prop :=
  Repr 32 s .leaf s.root t ∧
  ((List.range s.allocated_nodes_num).map s.nodes).Nodup ∧
  (∀ i, i < s.allocated_nodes_num →
    get_node_index 32 (s.heap (s.nodes i)) = i ∧
    (s.heap (s.nodes i)).flags < 2 ^ 32 ∧ s.nodes i < s.nextId) ∧
  t.ids.Perm ((List.range s.nodes_num).map s.nodes) ∧
  Arena32 s ∧
  s.leafN.flags = 0 ∧ s.leafN.link0 = .null ∧ s.leafN.link1 = .null

/-- a live tree: some abstract tree represents it and satisfies the
red-black invariant. -/
def Good (s : State α) : Prop := ∃ t, Inv s t ∧ RBinv t

/-! # Theorems

State-projection lemmas: none of the rebalancing primitives touch the arena
counters, and none of the arena primitives touch the tree root. -/

@[simp]
theorem modifyRef_nodes_num (s : State α) (r : Ref) (f : Node α → Node α) :
    (modifyRef s r f).nodes_num = s.nodes_num := by
  cases r <;> rfl

@[simp]
theorem modifyRef_allocated (s : State α) (r : Ref) (f : Node α → Node α) :
    (modifyRef s r f).allocated_nodes_num = s.allocated_nodes_num := by
  cases r <;> rfl

@[simp]
theorem modifyRef_arenaLen (s : State α) (r : Ref) (f : Node α → Node α) :
    (modifyRef s r f).arenaLen = s.arenaLen := by
  cases r <;> rfl

@[simp]
theorem modifyRef_root (s : State α) (r : Ref) (f : Node α → Node α) :
    (modifyRef s r f).root = s.root := by
  cases r <;> rfl

@[simp]
theorem modifyRef_nodes (s : State α) (r : Ref) (f : Node α → Node α) :
    (modifyRef s r f).nodes = s.nodes := by
  cases r <;> rfl

@[simp]
theorem modifyRef_nextId (s : State α) (r : Ref) (f : Node α → Node α) :
    (modifyRef s r f).nextId = s.nextId := by
  cases r <;> rfl

@[simp]
theorem rotate_nodes_num (s : State α) (x : Ref) (d : Bool) :
    (rotate s x d).nodes_num = s.nodes_num := by
  unfold rotate
  dsimp only
  split_ifs <;> simp

@[simp]
theorem rotate_allocated (s : State α) (x : Ref) (d : Bool) :
    (rotate s x d).allocated_nodes_num = s.allocated_nodes_num := by
  unfold rotate
  dsimp only
  split_ifs <;> simp

@[simp]
theorem rotate_arenaLen (s : State α) (x : Ref) (d : Bool) :
    (rotate s x d).arenaLen = s.arenaLen := by
  unfold rotate
  dsimp only
  split_ifs <;> simp

@[simp]
theorem rotate_nodes (s : State α) (x : Ref) (d : Bool) :
    (rotate s x d).nodes = s.nodes := by
  unfold rotate
  dsimp only
  split_ifs <;> simp

/-! ## Flag-word arithmetic -/

theorem and_mask_eq_self (i k : Nat) (h : i < 2 ^ k) : i &&& (2 ^ k - 1) = i := by
  rw [Nat.and_pow_two_sub_one_eq_mod, Nat.mod_eq_of_lt h]

theorem lor_and_mask (f i k : Nat) (h : i < 2 ^ k) :
    (i ||| (f &&& 2 ^ k)) &&& (2 ^ k - 1) = i := by
  apply Nat.eq_of_testBit_eq
  intro b
  simp only [Nat.testBit_land, Nat.testBit_lor, Nat.testBit_two_pow,
    Nat.testBit_two_pow_sub_one]
  rcases lt_or_ge b k with hb | hb
  · simp [hb, Nat.ne_of_gt hb]
  · simp [Nat.not_lt.mpr hb, Nat.testBit_lt_two_pow (lt_of_lt_of_le h (Nat.pow_le_pow_right (by norm_num) hb))]

theorem lor_flag_and_flag (f i k : Nat) (h : i < 2 ^ k) :
    (i ||| (f &&& 2 ^ k)) &&& 2 ^ k = f &&& 2 ^ k := by
  apply Nat.eq_of_testBit_eq
  intro b
  simp only [Nat.testBit_land, Nat.testBit_lor, Nat.testBit_two_pow]
  rcases eq_or_ne k b with hb | hb
  · subst hb
    simp [Nat.testBit_lt_two_pow h]
  · simp [hb]

theorem paint_red_flag_and (f k : Nat) : (f ||| 2 ^ k) &&& (2 ^ k - 1) = f &&& (2 ^ k - 1) := by
  apply Nat.eq_of_testBit_eq
  intro b
  simp only [Nat.testBit_land, Nat.testBit_lor, Nat.testBit_two_pow,
    Nat.testBit_two_pow_sub_one]
  rcases eq_or_ne k b with hb | hb
  · simp [hb]
  · simp [hb]

theorem get_node_index_paint_red (wd : Nat) (n : Node α) :
    get_node_index wd (paint_red wd n) = get_node_index wd n := by
  simp only [get_node_index, paint_red, redFlag]
  exact paint_red_flag_and _ _

theorem get_node_index_paint_black (wd : Nat) (n : Node α) :
    get_node_index wd (paint_black wd n) = get_node_index wd n := by
  simp only [get_node_index, paint_black, redFlag]
  apply Nat.eq_of_testBit_eq
  intro b
  simp [Nat.testBit_land, Bool.and_assoc]

theorem get_node_index_set (wd : Nat) (n : Node α) (i : Nat) (h : i < redFlag wd) :
    get_node_index wd (set_node_index wd n i) = i := by
  simp only [get_node_index, set_node_index, redFlag] at *
  exact lor_and_mask _ _ _ h

theorem is_red_set_node_index (wd : Nat) (n : Node α) (i : Nat) (h : i < redFlag wd) :
    is_red wd (set_node_index wd n i) = is_red wd n := by
  simp only [is_red, set_node_index, redFlag] at *
  rw [lor_flag_and_flag _ _ _ h]

/-! ## C7 — `ptree_allocate_nodes` overflow handling.

The spec requires a fatal abort whenever the resulting capacity would exceed
`max_nodes`.  The C computes the new capacity as
`ptree_size_int nodes_to_reallocate = tree->allocated_nodes_num + num_nodes`
(ptree.c:171), truncating the `size_t` request mod 2^32 in the default build
before the `max_nodes` comparison, so a request of `2^32 + 1` slots on an
empty tree passes the check as `1`, returns normally, and grows the
capacity by one slot instead of aborting. -/

/-- C7: on a freshly created (empty, capacity 0) default-build tree a
reservation of `2^32 + 1` slots — whose resulting capacity exceeds
`max_nodes = 2^31 - 1` and so, per the claim, must abort — instead returns
normally with the capacity and allocation grown to exactly 1. -/
theorem allocate_nodes_request_truncated_not_fatal :
    ∃ s0 : State Int, ptree_new 32 Int 0 = some s0 ∧
      ∃ s1, ptree_allocate_nodes 32 s0 (2 ^ 32 + 1) = some s1 ∧
        s1.allocated_nodes_num = 1 ∧ s1.arenaLen = 1 :=
  ⟨_, rfl, _, rfl, rfl, rfl⟩

/-! ## C3 — `ptree_shrink` and subsequent use.

`ptree_shrink` (ptree.c:225) frees every body beyond the active count and
reallocates the slot array down to `nodes_num` entries, but never lowers
`tree->allocated_nodes_num`.  The next `add_node` therefore believes free
slots remain (`nodes_num >= allocated_nodes_num` is false), skips growing,
and reads `tree->nodes[tree->nodes_num]` — past the end of the shrunken
allocation, into freed storage. -/

/-- C3: create a tree with one preallocated slot (active count 0), shrink —
the capacity correctly drops to the active count 0, but
`allocated_nodes_num` stays 1 — and the next insert dereferences the freed
slot array out of bounds (undefined behaviour, `none`) instead of
succeeding. -/
theorem shrink_then_insert_reads_freed_slot :
    ∃ s0 : State Int, ptree_new 32 Int 1 = some s0 ∧
      ∃ s1, ptree_shrink s0 = some s1 ∧
        s1.arenaLen = 0 ∧ s1.allocated_nodes_num = 1 ∧
        ptree_insert 32 0 cmpI s1 5 10 = none :=
  ⟨_, rfl, _, rfl, rfl, rfl, rfl⟩

/-! ## C4 — arena density under `release_node`.

`release_node` (ptree.c:218) funnels the released node's stored index
through `int32_t node_index = get_node_index(node)`.  In the
PTREE_STORAGE_64BIT build indices up to `2^63 - 1` are legal, and an index
of `2^32` truncates to 0: the swap then pairs the *first* slot with the
last active one, leaving the released body parked inside the active region
with a stale stored index. -/

/-- C4: `bigArena` satisfies the density invariant (every active slot `i`
holds a body whose stored index is `i`), yet releasing the node stored at
position `2^32` in the 64-bit build leaves active position `2^32` (the new
active count is `2^32 + 1`) holding the released body, whose stored index
is now `2^32 + 1` — stored index ≠ array position, so the invariant is not
preserved by remove's slot release. -/
theorem release_node_64bit_breaks_density :
    (∀ i, i < bigArena.nodes_num →
      get_node_index 64 (bigArena.heap (bigArena.nodes i)) = i) ∧
    ∃ s1, release_node 64 bigArena (2 ^ 32) = some s1 ∧
      s1.nodes_num = 2 ^ 32 + 1 ∧
      s1.nodes (2 ^ 32) = 2 ^ 32 ∧
      get_node_index 64 (s1.heap (s1.nodes (2 ^ 32))) = 2 ^ 32 + 1 := by
  constructor
  · intro i hi
    have hlt : i < 2 ^ 63 := lt_of_lt_of_le hi (by norm_num [bigArena])
    show (bigArena.heap (bigArena.nodes i)).flags &&& (redFlag 64 - 1) = i
    have : (bigArena.heap (bigArena.nodes i)).flags = i := rfl
    rw [this]
    show i &&& (2 ^ 63 - 1) = i
    exact and_mask_eq_self i 63 hlt
  · exact ⟨_, rfl, rfl, by decide, by decide⟩

/-! ## C6 — element count bookkeeping.

`nodes_num` is incremented exactly once by `add_node` on every successful
insert, decremented exactly once by `release_node` on every successful
remove, and untouched by every rebalancing step, so after any history it
equals successful inserts minus successful removes.  `Arena32` is the
bookkeeping invariant of the default build that keeps the count within
`int32_t` range, so the `ptree_size` return conversion is lossless. -/

theorem alloc_loop_nodes_num (wd : Nat) :
    ∀ (count : Nat) (s : State α) (i : Nat),
      (alloc_loop wd s i count).nodes_num = s.nodes_num := by
  intro count
  induction count with
  | zero => intro s i; rfl
  | succ c ih => intro s i; rw [alloc_loop, ih]

theorem alloc_loop_arenaLen (wd : Nat) :
    ∀ (count : Nat) (s : State α) (i : Nat),
      (alloc_loop wd s i count).arenaLen = s.arenaLen := by
  intro count
  induction count with
  | zero => intro s i; rfl
  | succ c ih => intro s i; rw [alloc_loop, ih]

theorem alloc_loop_allocated (wd : Nat) :
    ∀ (count : Nat) (s : State α) (i : Nat),
      (alloc_loop wd s i count).allocated_nodes_num = s.allocated_nodes_num := by
  intro count
  induction count with
  | zero => intro s i; rfl
  | succ c ih => intro s i; rw [alloc_loop, ih]

theorem allocate_nodes_facts (wd : Nat) (s : State α) (k : Nat) (s' : State α)
    (h : ptree_allocate_nodes wd s k = some s') :
    s'.arenaLen = s'.allocated_nodes_num ∧ s'.allocated_nodes_num ≤ maxNodes wd ∧
      s'.nodes_num = s.nodes_num := by
  unfold ptree_allocate_nodes at h
  dsimp only at h
  split at h
  · exact absurd h (by simp)
  · next hle =>
    injection h with h
    subst h
    refine ⟨?_, ?_, ?_⟩
    · simp [alloc_loop_arenaLen]
    · exact Nat.not_lt.mp (by simpa using hle)
    · simp [alloc_loop_nodes_num]

theorem add_node_facts (maxAuto : Nat) (s : State α) (p : α) (id : Nat) (s' : State α)
    (hA : Arena32 s) (h : add_node 32 maxAuto s p = some (id, s')) :
    Arena32 s' ∧ s'.nodes_num = s.nodes_num + 1 := by
  unfold add_node at h
  simp only [Bind.bind, Option.bind_eq_some] at h
  obtain ⟨s1, hmid, h⟩ := h
  have h1 : s1.arenaLen = s1.allocated_nodes_num ∧
      s1.allocated_nodes_num ≤ maxNodes 32 ∧ s1.nodes_num = s.nodes_num := by
    unfold add_node_grow at hmid
    split at hmid
    · exact allocate_nodes_facts 32 s _ s1 hmid
    · injection hmid with hmid
      subst hmid
      exact ⟨hA.1, hA.2.2, rfl⟩
  split at h
  · next hlt =>
    injection h with h
    injection h with hid hs'
    subst hid
    subst hs'
    refine ⟨⟨?_, ?_, ?_⟩, ?_⟩
    · simpa using h1.1
    · simp only [modifyRef_nodes_num, modifyRef_allocated]
      calc s1.nodes_num + 1 ≤ s1.arenaLen := hlt
        _ = s1.allocated_nodes_num := h1.1
    · simpa using h1.2.1
    · simpa using h1.2.2
  · exact absurd h (by simp)

/-- destructuring principle for the `Option` bind produced by `do`
sequencing. -/
theorem optBind_eq_some {β γ : Type} {o : Option β} {f : β → Option γ} {c : γ} :
    (o >>= f) = some c ↔ ∃ a, o = some a ∧ f a = some c := by
  cases o <;> simp

theorem insert_fixup_counters (wd : Nat) :
    ∀ (fuel : Nat) (s : State α) (x : Ref) (s' : State α),
      insert_fixup wd s x fuel = some s' →
      s'.nodes_num = s.nodes_num ∧ s'.allocated_nodes_num = s.allocated_nodes_num ∧
        s'.arenaLen = s.arenaLen := by
  intro fuel
  induction fuel with
  | zero => intro s x s' h; simp [insert_fixup] at h
  | succ f ih =>
    intro s x s' h
    rw [insert_fixup] at h
    dsimp only at h
    split at h
    · split at h
      · have := ih _ _ _ h
        simpa using this
      · have := ih _ _ _ h
        split at this <;> simpa using this
    · injection h with h
      subst h
      exact ⟨rfl, rfl, rfl⟩

theorem insert_walk_counters (maxAuto : Nat) (cmp : α → α → Int) (p : α) :
    ∀ (fuel : Nat) (s : State α) (x : Ref) (b : Bool) (s' : State α),
      Arena32 s → insert_walk 32 maxAuto cmp s p fuel x = some (b, s') →
      (b = false → s' = s) ∧
        (b = true → Arena32 s' ∧ s'.nodes_num = s.nodes_num + 1) := by
  intro fuel
  induction fuel with
  | zero => intro s x b s' _ h; simp [insert_walk] at h
  | succ f ih =>
    intro s x b s' hA h
    rw [insert_walk] at h
    dsimp only at h
    split at h
    · injection h with h
      injection h with h1 h2
      subst h1
      subst h2
      exact ⟨fun _ => rfl, fun hb => by cases hb⟩
    · split at h
      · exact ih s _ b s' hA h
      · rw [optBind_eq_some] at h
        obtain ⟨pr, hpr, h⟩ := h
        obtain ⟨nid, s1⟩ := pr
        dsimp only at h
        rw [optBind_eq_some] at h
        obtain ⟨s4, hs4, h⟩ := h
        injection h with h
        injection h with h1 h2
        subst h1
        subst h2
        refine ⟨(fun hb => nomatch hb), fun _ => ?_⟩
        obtain ⟨hA1, hn1⟩ := add_node_facts maxAuto s p nid s1 hA hpr
        have h4 := insert_fixup_counters 32 f _ _ _ hs4
        simp only [modifyRef_nodes_num, modifyRef_allocated, modifyRef_arenaLen] at h4
        refine ⟨⟨?_, ?_, ?_⟩, ?_⟩
        · simp only [modifyRef_arenaLen, modifyRef_allocated]
          rw [h4.2.2, h4.2.1]
          exact hA1.1
        · simp only [modifyRef_nodes_num, modifyRef_allocated]
          rw [h4.1, h4.2.1]
          exact hA1.2.1
        · simp only [modifyRef_allocated]
          rw [h4.2.1]
          exact hA1.2.2
        · simp only [modifyRef_nodes_num]
          rw [h4.1]
          exact hn1

theorem ptree_insert_counters (maxAuto : Nat) (cmp : α → α → Int) (s : State α)
    (p : α) (fuel : Nat) (b : Bool) (s' : State α)
    (hA : Arena32 s) (h : ptree_insert 32 maxAuto cmp s p fuel = some (b, s')) :
    (b = false → s' = s) ∧
      (b = true → Arena32 s' ∧ s'.nodes_num = s.nodes_num + 1) := by
  unfold ptree_insert at h
  split at h
  · rw [optBind_eq_some] at h
    obtain ⟨pr, hpr, h⟩ := h
    obtain ⟨nid, s1⟩ := pr
    dsimp only at h
    injection h with h
    injection h with h1 h2
    subst h1
    subst h2
    refine ⟨(fun hb => nomatch hb), fun _ => ?_⟩
    obtain ⟨hA1, hn1⟩ := add_node_facts maxAuto s p nid s1 hA hpr
    refine ⟨⟨?_, ?_, ?_⟩, ?_⟩
    · simpa using hA1.1
    · simpa using hA1.2.1
    · simpa using hA1.2.2
    · simpa using hn1
  · exact insert_walk_counters maxAuto cmp p fuel s s.root b s' hA h

theorem release_node_counters (wd : Nat) (s : State α) (id : Nat) (s' : State α)
    (h : release_node wd s id = some s') :
    s'.nodes_num + 1 = s.nodes_num ∧
      s'.allocated_nodes_num = s.allocated_nodes_num ∧ s'.arenaLen = s.arenaLen := by
  unfold release_node at h
  split at h
  · simp at h
  · next hnz =>
    dsimp only at h
    split at h
    · split at h
      · injection h with h
        subst h
        exact ⟨Nat.succ_pred_eq_of_pos (Nat.pos_of_ne_zero hnz), rfl, rfl⟩
      · simp at h
    · simp at h

theorem remove_fixup_counters (wd : Nat) :
    ∀ (fuel : Nat) (s : State α) (x : Ref) (r : State α × Ref),
      remove_fixup wd s x fuel = some r →
      r.1.nodes_num = s.nodes_num ∧ r.1.allocated_nodes_num = s.allocated_nodes_num ∧
        r.1.arenaLen = s.arenaLen := by
  intro fuel
  induction fuel with
  | zero => intro s x r h; simp [remove_fixup] at h
  | succ f ih =>
    intro s x r h
    rw [remove_fixup] at h
    dsimp only at h
    split at h
    · split at h <;> split at h <;>
        first
          | (injection h with h; subst h;
             refine ⟨?_, ?_, ?_⟩ <;> (split_ifs <;> simp))
          | (have h2 := ih _ _ _ h; split at h2 <;> simpa using h2)
          | (have h2 := ih _ _ _ h; simpa using h2)
    · injection h with h
      subst h
      exact ⟨rfl, rfl, rfl⟩

theorem remove_balance_counters (wd : Nat) (s : State α) (x y : Ref) (fuel : Nat)
    (r : State α × Ref) (h : remove_balance wd s x y fuel = some r) :
    r.1.nodes_num = s.nodes_num ∧ r.1.allocated_nodes_num = s.allocated_nodes_num ∧
      r.1.arenaLen = s.arenaLen := by
  unfold remove_balance at h
  split at h
  · exact remove_fixup_counters wd fuel s x r h
  · injection h with h
    subst h
    exact ⟨rfl, rfl, rfl⟩

theorem remove_finish_counters (sx : State α × Ref) (y : Ref) (b : Bool) (s' : State α)
    (h : remove_finish 32 sx y = some (b, s')) :
    b = true ∧ s'.nodes_num + 1 = sx.1.nodes_num ∧
      s'.allocated_nodes_num = sx.1.allocated_nodes_num ∧ s'.arenaLen = sx.1.arenaLen := by
  unfold remove_finish at h
  dsimp only at h
  split at h
  · rw [optBind_eq_some] at h
    obtain ⟨s5, h5, h⟩ := h
    injection h with h
    injection h with h1 h2
    subst h2
    have := release_node_counters 32 _ _ s5 h5
    simp only [modifyRef_nodes_num, modifyRef_allocated, modifyRef_arenaLen] at this
    exact ⟨h1.symm, this.1, this.2.1, this.2.2⟩
  · simp at h

theorem remove_node_counters (s : State α) (z : Ref) (fuel : Nat) (b : Bool)
    (s' : State α) (hA : Arena32 s)
    (h : ptree_remove_node 32 s z fuel = some (b, s')) :
    b = true ∧ Arena32 s' ∧ s'.nodes_num + 1 = s.nodes_num := by
  unfold ptree_remove_node at h
  rw [optBind_eq_some] at h
  obtain ⟨y, hy, h⟩ := h
  dsimp only at h
  rw [optBind_eq_some] at h
  obtain ⟨sx, hsx, h⟩ := h
  have hbal := remove_balance_counters 32 _ _ _ _ _ hsx
  have hdet : ∀ (y1 z1 : Ref), (remove_detach s y1 z1).1.nodes_num = s.nodes_num ∧
      (remove_detach s y1 z1).1.allocated_nodes_num = s.allocated_nodes_num ∧
      (remove_detach s y1 z1).1.arenaLen = s.arenaLen := by
    intro y1 z1
    unfold remove_detach
    dsimp only
    refine ⟨?_, ?_, ?_⟩ <;> (split_ifs <;> simp)
  have hmid : sx.1.nodes_num = s.nodes_num ∧
      sx.1.allocated_nodes_num = s.allocated_nodes_num ∧
      sx.1.arenaLen = s.arenaLen := by
    refine ⟨?_, ?_, ?_⟩
    · rw [hbal.1, (hdet _ _).1]
    · rw [hbal.2.1, (hdet _ _).2.1]
    · rw [hbal.2.2, (hdet _ _).2.2]
  have hfin := remove_finish_counters sx y b s' h
  have hAa := hA.1
  have hAb := hA.2.1
  have hAc := hA.2.2
  refine ⟨hfin.1, ⟨?_, ?_, ?_⟩, ?_⟩ <;> omega

theorem ptree_remove_counters (cmp : α → α → Int) (s : State α) (p : α)
    (fuel : Nat) (b : Bool) (s' : State α) (hA : Arena32 s)
    (h : ptree_remove 32 cmp s p fuel = some (b, s')) :
    (b = false → s' = s) ∧ (b = true → Arena32 s' ∧ s'.nodes_num + 1 = s.nodes_num) := by
  unfold ptree_remove at h
  split at h
  · injection h with h
    injection h with h1 h2
    subst h1
    subst h2
    exact ⟨fun _ => rfl, fun hb => by cases hb⟩
  · rw [optBind_eq_some] at h
    obtain ⟨z, hz, h⟩ := h
    split at h
    · injection h with h
      injection h with h1 h2
      subst h1
      subst h2
      exact ⟨fun _ => rfl, fun hb => by cases hb⟩
    · have := remove_node_counters s z fuel b s' hA h
      exact ⟨(fun hb => absurd this.1 (by rw [hb]; exact Bool.false_ne_true)), fun _ => this.2⟩

theorem runOps_counters (maxAuto : Nat) (cmp : α → α → Int) :
    ∀ (ops : List (Op α)) (s : State α) (s' : State α) (i d : Nat),
      Arena32 s → runOps 32 maxAuto cmp s ops = some (s', i, d) →
      Arena32 s' ∧ s'.nodes_num + d = s.nodes_num + i := by
  intro ops
  induction ops with
  | nil =>
    intro s s' i d hA h
    rw [runOps] at h
    injection h with h
    injection h with h1 h2
    injection h2 with h2 h3
    subst h1
    subst h2
    subst h3
    exact ⟨hA, rfl⟩
  | cons op ops ih =>
    intro s s' i d hA h
    rw [runOps] at h
    rw [optBind_eq_some] at h
    obtain ⟨bs, hbs, h⟩ := h
    obtain ⟨b1, s1⟩ := bs
    dsimp only at h
    rw [optBind_eq_some] at h
    obtain ⟨sid, hsid, h⟩ := h
    obtain ⟨s2, i2, d2⟩ := sid
    dsimp only at h
    cases op with
    | ins p =>
      have hins := ptree_insert_counters maxAuto cmp s p (s.nodes_num + 2) b1 s1 hA
        (by simpa [stepOp] using hbs)
      cases b1 with
      | false =>
        injection h with h
        injection h with h1 h2
        injection h2 with h2 h3
        subst h1
        subst h2
        subst h3
        have hs1 : s1 = s := hins.1 rfl
        subst hs1
        have hrec := ih s1 s2 i2 d2 hA hsid
        exact ⟨hrec.1, hrec.2⟩
      | true =>
        injection h with h
        injection h with h1 h2
        injection h2 with h2 h3
        subst h1
        subst h2
        subst h3
        obtain ⟨hA1, hn1⟩ := hins.2 rfl
        have hrec := ih s1 s2 i2 d2 hA1 hsid
        refine ⟨hrec.1, ?_⟩
        have := hrec.2
        omega
    | del p =>
      have hdel := ptree_remove_counters cmp s p (s.nodes_num + 2) b1 s1 hA
        (by simpa [stepOp] using hbs)
      cases b1 with
      | false =>
        injection h with h
        injection h with h1 h2
        injection h2 with h2 h3
        subst h1
        subst h2
        subst h3
        have hs1 : s1 = s := hdel.1 rfl
        subst hs1
        exact ih s1 s2 i2 d2 hA hsid
      | true =>
        injection h with h
        injection h with h1 h2
        injection h2 with h2 h3
        subst h1
        subst h2
        subst h3
        obtain ⟨hA1, hn1⟩ := hdel.2 rfl
        have hrec := ih s1 s2 i2 d2 hA1 hsid
        refine ⟨hrec.1, ?_⟩
        have := hrec.2
        omega

/-- toInt32 is lossless below 2^31. -/
theorem toInt32_small (n : Nat) (h : n < 2 ^ 31) : toInt32 n = n := by
  unfold toInt32
  rw [Nat.mod_eq_of_lt (lt_trans h (by norm_num))]
  have h2 : n < 2147483648 := lt_of_lt_of_eq h (by norm_num)
  simp [h2]

/-- C6: after every finite sequence of insert/remove operations on a freshly
created default-build tree (any preallocation, growth cap and comparator),
`ptree_size` returns exactly the number of successful inserts (those that
returned 1) minus the number of successful removes (those that returned 1);
`runHistory` returning `some` is the run in which no allocation aborted. -/
theorem ptree_size_eq_inserts_minus_removes (maxAuto pre : Nat)
    (cmp : α → α → Int) (ops : List (Op α)) (s : State α) (i d : Nat)
    (h : runHistory 32 maxAuto cmp pre ops = some (s, i, d)) :
    ptree_size s = (i : Int) - (d : Int) := by
  unfold runHistory at h
  rw [optBind_eq_some] at h
  obtain ⟨s0, hs0, h⟩ := h
  have hf := allocate_nodes_facts 32 _ pre s0 hs0
  have h0 : Arena32 s0 := ⟨hf.1, by rw [hf.2.2]; exact Nat.zero_le _, hf.2.1⟩
  have hr := runOps_counters maxAuto cmp ops s0 s i d h0 h
  have hz : s0.nodes_num = 0 := hf.2.2
  have hbound : s.nodes_num < 2 ^ 31 := by
    have h1 := hr.1.2.1
    have h2 := hr.1.2.2
    have : maxNodes 32 = 2 ^ 31 - 1 := by norm_num [maxNodes]
    omega
  unfold ptree_size
  rw [toInt32_small _ hbound]
  have := hr.2
  omega

/-- witness for C6: the history insert 5, insert 3, duplicate insert 5,
remove 3, failed remove 9 ends with 2 successful inserts, 1 successful
remove, and size 1. -/
theorem ptree_size_eq_inserts_minus_removes_witness :
    ∃ s, runHistory 32 0 cmpI 0 [Op.ins 5, Op.ins 3, Op.ins 5, Op.del 3, Op.del 9] =
        some (s, 2, 1) ∧ ptree_size s = (2 : Int) - (1 : Int) := by
  obtain ⟨s, hs⟩ : ∃ s, runHistory 32 0 cmpI 0
      [Op.ins 5, Op.ins 3, Op.ins 5, Op.del 3, Op.del 9] = some (s, 2, 1) := ⟨_, rfl⟩
  exact ⟨s, hs, ptree_size_eq_inserts_minus_removes 0 0 cmpI _ s 2 1 hs⟩
/-! ## C9 — two-child removal splices the successor in place.

None of the rebalancing or arena steps of a removal ever writes a `ptr`
field; the only handle write is ptree.c:433 `z->ptr = y->ptr`.  Together
with the exit condition of the leftmost descent this settles the claim. -/

theorem setLink_ptr (n : Node α) (d : Bool) (r : Ref) : (n.setLink d r).ptr = n.ptr := by
  unfold Node.setLink
  split <;> rfl

theorem paint_red_ptr (wd : Nat) (n : Node α) : (paint_red wd n).ptr = n.ptr := rfl

theorem paint_black_ptr (wd : Nat) (n : Node α) : (paint_black wd n).ptr = n.ptr := rfl

theorem copy_color_ptr (wd : Nat) (dst src : Node α) :
    (copy_color wd dst src).ptr = dst.ptr := by
  unfold copy_color
  split <;> rfl

theorem set_node_index_ptr (wd : Nat) (n : Node α) (i : Nat) :
    (set_node_index wd n i).ptr = n.ptr := rfl

theorem modifyRef_heap_ptr (s : State α) (r : Ref) (f : Node α → Node α)
    (hf : ∀ n, (f n).ptr = n.ptr) (id : Nat) :
    ((modifyRef s r f).heap id).ptr = (s.heap id).ptr := by
  cases r with
  | null => rfl
  | leaf => rfl
  | node j =>
    simp only [modifyRef, upd]
    split
    · next hj => rw [hj, hf]
    · rfl

theorem rotate_heap_ptr (s : State α) (x : Ref) (d : Bool) (id : Nat) :
    ((rotate s x d).heap id).ptr = (s.heap id).ptr := by
  unfold rotate
  dsimp only
  split_ifs <;>
    simp only [modifyRef_heap_ptr, setLink_ptr, implies_true] <;> rfl

theorem remove_fixup_heap_ptr (wd : Nat) :
    ∀ (fuel : Nat) (s : State α) (x : Ref) (r : State α × Ref),
      remove_fixup wd s x fuel = some r →
      ∀ id, ((r.1.heap id)).ptr = (s.heap id).ptr := by
  intro fuel
  induction fuel with
  | zero => intro s x r h; simp [remove_fixup] at h
  | succ f ih =>
    intro s x r h
    rw [remove_fixup] at h
    dsimp only at h
    split at h
    · split at h <;> split at h <;>
        first
          | (injection h with h; subst h; intro id; dsimp only;
             (try split_ifs) <;>
               simp [modifyRef_heap_ptr, rotate_heap_ptr, setLink_ptr,
                 copy_color_ptr, paint_red_ptr, paint_black_ptr])
          | (intro id
             rw [ih _ _ _ h id]
             (try split_ifs) <;>
               simp [modifyRef_heap_ptr, rotate_heap_ptr, setLink_ptr,
                 copy_color_ptr, paint_red_ptr, paint_black_ptr])
    · injection h with h
      subst h
      intro id
      rfl

theorem release_node_effects (wd : Nat) (s : State α) (id : Nat) (s' : State α)
    (h : release_node wd s id = some s') :
    s'.nodes s'.nodes_num = id ∧ ∀ j, (s'.heap j).ptr = (s.heap j).ptr := by
  unfold release_node at h
  split at h
  · simp at h
  · dsimp only at h
    split at h
    · split at h
      · injection h with h
        subst h
        constructor
        · simp [upd]
        · intro j
          simp only [upd]
          split_ifs <;> simp_all [set_node_index_ptr]
      · simp at h
    · simp at h

theorem remove_balance_heap_ptr (wd : Nat) (s : State α) (x y : Ref) (fuel : Nat)
    (r : State α × Ref) (h : remove_balance wd s x y fuel = some r) (id : Nat) :
    ((r.1.heap id)).ptr = (s.heap id).ptr := by
  unfold remove_balance at h
  split at h
  · exact remove_fixup_heap_ptr wd fuel s x r h id
  · injection h with h
    subst h
    rfl

theorem remove_finish_effects (sx : State α × Ref) (yid : Nat) (b : Bool)
    (s' : State α) (h : remove_finish 32 sx (.node yid) = some (b, s')) :
    b = true ∧ (∀ j, (s'.heap j).ptr = (sx.1.heap j).ptr) ∧
      s'.nodes s'.nodes_num = yid := by
  unfold remove_finish at h
  dsimp only at h
  rw [optBind_eq_some] at h
  obtain ⟨s5, h5, h⟩ := h
  injection h with h
  injection h with h1 h2
  subst h2
  have he := release_node_effects 32 _ yid s5 h5
  refine ⟨h1.symm, ?_, he.1⟩
  intro j
  rw [he.2 j]
  exact modifyRef_heap_ptr _ _ _ (fun n => paint_black_ptr 32 n) j

theorem leftmost_no_left (s : State α) :
    ∀ (fuel : Nat) (r r' : Ref), leftmost s fuel r = some r' →
      (getN s r').link0 = .leaf := by
  intro fuel
  induction fuel with
  | zero => intro r r' h; simp [leftmost] at h
  | succ f ih =>
    intro r r' h
    rw [leftmost] at h
    split at h
    · exact ih _ _ h
    · next hstop =>
      injection h with h
      subst h
      simpa using hstop

theorem modifyRef_heap_self (s : State α) (id : Nat) (f : Node α → Node α) :
    ((modifyRef s (.node id) f).heap id) = f (s.heap id) := by
  simp [modifyRef, upd]

theorem remove_detach_zptr (s : State α) (yid zid : Nat) (hne : yid ≠ zid) :
    ((remove_detach s (.node yid) (.node zid)).1.heap zid).ptr = (s.heap yid).ptr := by
  unfold remove_detach
  dsimp only
  rw [if_pos (show ((Ref.node yid != Ref.node zid)) = true by simp [bne_iff_ne, hne])]
  rw [modifyRef_heap_self]
  dsimp only [getN]
  split_ifs <;>
    simp [modifyRef_heap_ptr, setLink_ptr]

/-- C9: removing a node `z` that has two children copies the in-order
successor `y`'s handle into `z`'s node object in place and physically
detaches `y` — a node with no left child, hence at most one child — whose
slot (not `z`'s) is the one returned to the arena, so a reference to `z`'s
node object observes the successor's handle afterwards instead of becoming
invalid. -/
theorem remove_two_children_splices_successor (s : State Int) (zid yid : Nat)
    (fuel : Nat) (b : Bool) (s' : State Int)
    (hl : has_child (getN s (.node zid)) false = true)
    (hr : has_child (getN s (.node zid)) true = true)
    (hy : get_next_node s fuel (.node zid) = some (.node yid))
    (hne : yid ≠ zid)
    (h : ptree_remove_node 32 s (.node zid) fuel = some (b, s')) :
    b = true ∧
      (s'.heap zid).ptr = (s.heap yid).ptr ∧
      (s.heap yid).link0 = .leaf ∧
      s'.nodes s'.nodes_num = yid := by
  have hyleaf : (s.heap yid).link0 = Ref.leaf := by
    unfold get_next_node at hy
    rw [if_pos (by simpa [has_child] using hr)] at hy
    have := leftmost_no_left s fuel _ _ hy
    simpa [getN] using this
  unfold ptree_remove_node at h
  rw [optBind_eq_some] at h
  obtain ⟨y, hy', h⟩ := h
  have hyy : y = Ref.node yid := by
    unfold remove_pick_y at hy'
    rw [if_neg (by simp [hl, hr])] at hy'
    rw [hy] at hy'
    exact (Option.some_inj.mp hy').symm
  subst hyy
  dsimp only at h
  rw [optBind_eq_some] at h
  obtain ⟨sx, hsx, h⟩ := h
  have hfin := remove_finish_effects sx yid b s' h
  have hbal := remove_balance_heap_ptr 32 _ _ _ _ _ hsx zid
  have hdet := remove_detach_zptr s yid zid hne
  refine ⟨hfin.1, ?_, hyleaf, hfin.2.2⟩
  rw [hfin.2.1 zid, hbal, hdet]

/-- witness for C9: in the three-node tree `splice3` the root (id 0, handle
2) has two children; removing it moves the successor handle 3 (id 2) into
the root's node object and releases slot id 2. -/
theorem remove_two_children_splices_successor_witness :
    ∃ b s', ptree_remove_node 32 splice3 (.node 0) 5 = some (b, s') ∧
      b = true ∧ (s'.heap 0).ptr = (splice3.heap 2).ptr ∧
      (splice3.heap 2).link0 = .leaf ∧ s'.nodes s'.nodes_num = 2 := by
  obtain ⟨bs, hbs⟩ : ∃ bs, ptree_remove_node 32 splice3 (.node 0) 5 = some bs := ⟨_, rfl⟩
  obtain ⟨b, s'⟩ := bs
  have hc := remove_two_children_splices_successor splice3 0 2 5 b s'
    (by decide) (by decide) (by decide) (by decide) hbs
  exact ⟨b, s', hbs, hc.1, hc.2.1, hc.2.2.1, hc.2.2.2⟩

/-! ## Heap-access and color lemmas -/

theorem heap_modifyRef (s : State α) (r : Ref) (f : Node α → Node α) (j : Nat) :
    (modifyRef s r f).heap j = if r = .node j then f (s.heap j) else s.heap j := by
  cases r with
  | null => simp [modifyRef]
  | leaf => simp [modifyRef]
  | node i =>
    simp only [modifyRef, upd]
    by_cases hij : j = i
    · subst hij; simp
    · have : Ref.node i ≠ Ref.node j := fun h => hij (by injection h; omega)
      simp [hij, this]

theorem leafN_modifyRef (s : State α) (r : Ref) (f : Node α → Node α) :
    (modifyRef s r f).leafN = if r = .leaf then f s.leafN else s.leafN := by
  cases r <;> simp [modifyRef]

theorem is_red_paint_red (wd : Nat) (n : Node α) : is_red wd (paint_red wd n) = true := by
  simp only [is_red, paint_red, redFlag, bne_iff_ne, ne_eq, decide_eq_true_eq]
  intro hcon
  have := congrArg (Nat.testBit · (wd - 1)) hcon
  simp [Nat.testBit_land, Nat.testBit_lor, Nat.testBit_two_pow] at this

theorem is_red_paint_black (wd : Nat) (n : Node α) : is_red wd (paint_black wd n) = false := by
  simp only [is_red, paint_black, redFlag, bne_iff_ne, ne_eq, not_not,
    Bool.not_eq_true, bne_eq_false_iff_eq]
  apply Nat.eq_of_testBit_eq
  intro b
  simp only [Nat.testBit_land, Nat.testBit_two_pow, Nat.testBit_two_pow_sub_one,
    Nat.zero_testBit]
  rcases eq_or_ne (wd - 1) b with hb | hb
  · subst hb; simp
  · simp [hb]

theorem is_red_copy_color (wd : Nat) (dst src : Node α) :
    is_red wd (copy_color wd dst src) = is_red wd src := by
  unfold copy_color
  split
  · next h => rw [is_red_paint_red, h]
  · next h => rw [is_red_paint_black, Bool.eq_false_iff.mpr h]

theorem paint_red_link0 (wd : Nat) (n : Node α) : (paint_red wd n).link0 = n.link0 := rfl

theorem paint_red_link1 (wd : Nat) (n : Node α) : (paint_red wd n).link1 = n.link1 := rfl

theorem paint_red_parent (wd : Nat) (n : Node α) : (paint_red wd n).parent = n.parent := rfl

theorem paint_black_link0 (wd : Nat) (n : Node α) : (paint_black wd n).link0 = n.link0 := rfl

theorem paint_black_link1 (wd : Nat) (n : Node α) : (paint_black wd n).link1 = n.link1 := rfl

theorem paint_black_parent (wd : Nat) (n : Node α) : (paint_black wd n).parent = n.parent := rfl

theorem copy_color_link0 (wd : Nat) (dst src : Node α) :
    (copy_color wd dst src).link0 = dst.link0 := by
  unfold copy_color
  split <;> rfl

theorem copy_color_link1 (wd : Nat) (dst src : Node α) :
    (copy_color wd dst src).link1 = dst.link1 := by
  unfold copy_color
  split <;> rfl

theorem copy_color_parent (wd : Nat) (dst src : Node α) :
    (copy_color wd dst src).parent = dst.parent := by
  unfold copy_color
  split <;> rfl

theorem set_node_index_link0 (wd : Nat) (n : Node α) (i : Nat) :
    (set_node_index wd n i).link0 = n.link0 := rfl

theorem set_node_index_link1 (wd : Nat) (n : Node α) (i : Nat) :
    (set_node_index wd n i).link1 = n.link1 := rfl

theorem set_node_index_parent (wd : Nat) (n : Node α) (i : Nat) :
    (set_node_index wd n i).parent = n.parent := rfl

theorem setLink_parent (n : Node α) (d : Bool) (r : Ref) :
    (n.setLink d r).parent = n.parent := by
  unfold Node.setLink
  split <;> rfl

theorem setLink_flags (n : Node α) (d : Bool) (r : Ref) :
    (n.setLink d r).flags = n.flags := by
  unfold Node.setLink
  split <;> rfl

theorem setLink_link_same (n : Node α) (d : Bool) (r : Ref) :
    (n.setLink d r).link d = r := by
  cases d <;> simp [Node.setLink, Node.link]

theorem setLink_link_other (n : Node α) (d : Bool) (r : Ref) :
    (n.setLink d r).link (!d) = n.link (!d) := by
  cases d <;> simp [Node.setLink, Node.link]

/-! ## Plugging and framing -/

theorem plug_ids (u : T) : ∀ c : List Frame,
    (plug c u).ids = leftOf c ++ u.ids ++ rightOf c := by
  intro c
  induction c generalizing u with
  | nil => simp [plug, leftOf, rightOf]
  | cons f c ih =>
    cases f with
    | F d id red sib =>
      cases d <;>
        simp [plug, plugF, ih, leftOf, rightOf, leftF, rightF, T.ids,
          List.append_assoc]

theorem plug_ids_congr (c : List Frame) (u v : T) (h : u.ids = v.ids) :
    (plug c u).ids = (plug c v).ids := by
  rw [plug_ids, plug_ids, h]

theorem Repr_congr_heap (wd : Nat) (s s' : State α) {pr r : Ref} {t : T}
    (h : Repr wd s pr r t) (hagree : ∀ id ∈ t.ids, s'.heap id = s.heap id) :
    Repr wd s' pr r t := by
  induction h with
  | nil pr => exact .nil pr
  | node pr id tl tr hpar hl hr ihl ihr =>
    have hid : s'.heap id = s.heap id := hagree id (by simp [T.ids])
    have hl' := ihl fun j hj => hagree j (by simp [T.ids, hj])
    have hr' := ihr fun j hj => hagree j (by simp [T.ids, hj])
    have hpar2 : (s'.heap id).parent = pr := by rw [hid, hpar]
    have hl2 : Repr wd s' (.node id) ((s'.heap id).link0) tl := by
      rw [hid]; exact hl'
    have hr2 : Repr wd s' (.node id) ((s'.heap id).link1) tr := by
      rw [hid]; exact hr'
    have hres := Repr.node pr id tl tr hpar2 hl2 hr2
    rwa [hid] at hres

theorem Zip_congr_heap (wd : Nat) (s s' : State α) {c : List Frame} {pr r : Ref}
    (h : Zip wd s c pr r) (hroot : s'.root = s.root)
    (hagree : ∀ id ∈ ctxIds c, s'.heap id = s.heap id) :
    Zip wd s' c pr r := by
  induction h with
  | top => rw [← hroot]; exact .top
  | frame d id sib c pr hz hpar hsib ih =>
    have hmem : ∀ j, j ∈ ctxIds c → j ∈ ctxIds (Frame.F d id (is_red wd (s.heap id)) sib :: c) := by
      intro j hj
      simp only [ctxIds, List.mem_append] at hj ⊢
      cases d <;> rcases hj with hj | hj <;>
        simp [leftOf, rightOf, leftF, rightF, hj]
    have hid : s'.heap id = s.heap id := by
      apply hagree
      simp only [ctxIds, List.mem_append]
      cases d <;> simp [leftOf, rightOf, leftF, rightF]
    have hsib' : Repr wd s' (.node id) ((s'.heap id).link !d) sib := by
      rw [hid]
      refine Repr_congr_heap wd s s' hsib fun j hj => hagree j ?_
      simp only [ctxIds, List.mem_append]
      cases d <;> simp [leftOf, rightOf, leftF, rightF, hj]
    have hres := Zip.frame d id sib c pr
      (ih fun j hj => hagree j (hmem j hj)) (by rw [hid, hpar]) hsib'
    rwa [hid] at hres

theorem Zip_plug (wd : Nat) (s : State α) :
    ∀ {c : List Frame} {pr r : Ref} {u : T},
      Zip wd s c pr r → Repr wd s pr r u →
      Repr wd s .leaf s.root (plug c u) := by
  intro c pr r u hz
  induction hz generalizing u with
  | top => intro hr; exact hr
  | frame d id sib c pr hzc hpar hsib ih =>
    intro hr
    apply ih
    cases d with
    | false =>
      exact Repr.node pr id _ sib hpar hr (by simpa using hsib)
    | true =>
      exact Repr.node pr id sib _ hpar (by simpa using hsib) hr

/-! ## Inversion and nodup utilities -/

theorem Repr_node_inv {wd : Nat} {s : State α} {pr r : Ref} {yid : Nat}
    {yc : Bool} {ta tb : T} (h : Repr wd s pr r (.node yid yc ta tb)) :
    r = .node yid ∧ (s.heap yid).parent = pr ∧ yc = is_red wd (s.heap yid) ∧
      Repr wd s (.node yid) ((s.heap yid).link0) ta ∧
      Repr wd s (.node yid) ((s.heap yid).link1) tb := by
  cases h with
  | node pr id tl tr hpar hl hr => exact ⟨rfl, hpar, rfl, hl, hr⟩

theorem Repr_nil_inv {wd : Nat} {s : State α} {pr r : Ref}
    (h : Repr wd s pr r .nil) : r = .leaf := by
  cases h
  rfl

theorem nodup_plug_parts (c : List Frame) (u : T) (h : (plug c u).ids.Nodup) :
    u.ids.Nodup ∧ (ctxIds c).Nodup ∧ ∀ j ∈ u.ids, j ∉ ctxIds c := by
  rw [plug_ids] at h
  simp only [List.nodup_append, List.disjoint_append_right,
    List.disjoint_append_left] at h
  obtain ⟨⟨hL, hU, hLU⟩, hR, hLR, hUR⟩ := h
  refine ⟨hU, ?_, ?_⟩
  · simp only [ctxIds, List.nodup_append]
    exact ⟨hL, hR, hLR⟩
  · intro j hj
    simp only [ctxIds, List.mem_append]
    rintro (hmem | hmem)
    · exact hLU hmem hj
    · exact hUR hj hmem

theorem rotate_true_heap (s : State α) (xid yid : Nat) (b pr : Ref)
    (hx0 : (s.heap xid).link0 = Ref.node yid)
    (hxpar : (s.heap xid).parent = pr)
    (hb : (s.heap yid).link1 = b)
    (hxy : xid ≠ yid)
    (hbshape : b = .leaf ∨ ∃ bid, b = .node bid)
    (hprshape : pr = .leaf ∨ ∃ pid, pr = .node pid)
    (hbx : b ≠ .node xid) (hby : b ≠ .node yid)
    (hprx : pr ≠ .node xid) (hpry : pr ≠ .node yid)
    (hprb : ∀ bid, b = .node bid → pr ≠ .node bid) :
    (rotate s (.node xid) true).heap xid
        = { s.heap xid with link0 := b, parent := .node yid } ∧
      (rotate s (.node xid) true).heap yid
        = { s.heap yid with link1 := .node xid, parent := pr } ∧
      (∀ bid, b = .node bid →
        (rotate s (.node xid) true).heap bid = { s.heap bid with parent := .node xid }) ∧
      (∀ j, j ≠ xid → j ≠ yid → b ≠ .node j → pr ≠ .node j →
        (rotate s (.node xid) true).heap j = s.heap j) ∧
      (rotate s (.node xid) true).leafN = s.leafN ∧
      (pr = .leaf → (rotate s (.node xid) true).root = .node yid) ∧
      (∀ pid, pr = .node pid →
        (((s.heap pid).link0 = .node xid →
          (rotate s (.node xid) true).heap pid = { s.heap pid with link0 := .node yid }) ∧
         ((s.heap pid).link0 ≠ .node xid →
          (rotate s (.node xid) true).heap pid = { s.heap pid with link1 := .node yid }) ∧
         (rotate s (.node xid) true).root = s.root)) := by
  have e_y : (getN s (Ref.node xid)).link (!true) = Ref.node yid := by
    simpa [getN, Node.link] using hx0
  have hyx : yid ≠ xid := Ne.symm hxy
  rcases hbshape with rfl | ⟨bid, rfl⟩ <;> rcases hprshape with rfl | ⟨pid, rfl⟩
  · unfold rotate
    rw [e_y]
    refine ⟨?_, ?_, ?_, ?_, ?_, ?_, ?_⟩ <;>
      try (simp [getN, heap_modifyRef, leafN_modifyRef, Node.link, Node.setLink,
        hx0, hxpar, hb, hxy, hyx])
    intro j hjx hjy
    have h1 : xid ≠ j := Ne.symm hjx
    have h2 : yid ≠ j := Ne.symm hjy
    simp [getN, heap_modifyRef, leafN_modifyRef, Node.link, Node.setLink,
      hx0, hxpar, hb, hxy, hyx, h1, h2]
  · have hpx : pid ≠ xid := by
      intro h
      exact hprx (by rw [h])
    have hpy : pid ≠ yid := by
      intro h
      exact hpry (by rw [h])
    by_cases hlp : (s.heap pid).link0 = Ref.node xid <;>
      (unfold rotate
       rw [e_y]
       refine ⟨?_, ?_, ?_, ?_, ?_, ?_, ?_⟩ <;>
         try (simp [getN, heap_modifyRef, leafN_modifyRef, Node.link, Node.setLink,
           hx0, hxpar, hb, hxy, hyx, hpx, hpy, Ne.symm hpx, Ne.symm hpy, hlp])
       intro j hjx hjy hjp
       have h1 : xid ≠ j := Ne.symm hjx
       have h2 : yid ≠ j := Ne.symm hjy
       have h3 : pid ≠ j := by
         intro h
         exact hjp (by rw [h])
       simp [getN, heap_modifyRef, leafN_modifyRef, Node.link, Node.setLink,
         hx0, hxpar, hb, hxy, hyx, h1, h2, h3, hpx, hpy, hlp])
  · have hbx' : bid ≠ xid := by
      intro h
      exact hbx (by rw [h])
    have hby' : bid ≠ yid := by
      intro h
      exact hby (by rw [h])
    unfold rotate
    rw [e_y]
    refine ⟨?_, ?_, ?_, ?_, ?_, ?_, ?_⟩ <;>
      try (simp [getN, heap_modifyRef, leafN_modifyRef, Node.link, Node.setLink,
        hx0, hxpar, hb, hxy, hyx, hbx', hby', Ne.symm hbx', Ne.symm hby'])
    intro j hjx hjy hjb
    have h1 : xid ≠ j := Ne.symm hjx
    have h2 : yid ≠ j := Ne.symm hjy
    have h3 : bid ≠ j := by
      intro h
      exact hjb (by rw [h])
    simp [getN, heap_modifyRef, leafN_modifyRef, Node.link, Node.setLink,
      hx0, hxpar, hb, hxy, hyx, h1, h2, h3, hbx', hby']
  · have hbx' : bid ≠ xid := by
      intro h
      exact hbx (by rw [h])
    have hby' : bid ≠ yid := by
      intro h
      exact hby (by rw [h])
    have hpx : pid ≠ xid := by
      intro h
      exact hprx (by rw [h])
    have hpy : pid ≠ yid := by
      intro h
      exact hpry (by rw [h])
    have hpb : pid ≠ bid := by
      intro h
      exact hprb bid rfl (by rw [h])
    by_cases hlp : (s.heap pid).link0 = Ref.node xid <;>
      (unfold rotate
       rw [e_y]
       refine ⟨?_, ?_, ?_, ?_, ?_, ?_, ?_⟩ <;>
         try (simp [getN, heap_modifyRef, leafN_modifyRef, Node.link, Node.setLink,
           hx0, hxpar, hb, hxy, hyx, hbx', hby', hpx, hpy, hpb,
           Ne.symm hbx', Ne.symm hby', Ne.symm hpx, Ne.symm hpy, Ne.symm hpb, hlp])
       intro j hjx hjy hjb hjp
       have h1 : xid ≠ j := Ne.symm hjx
       have h2 : yid ≠ j := Ne.symm hjy
       have h3 : bid ≠ j := by
         intro h
         exact hjb (by rw [h])
       have h4 : pid ≠ j := by
         intro h
         exact hjp (by rw [h])
       simp [getN, heap_modifyRef, leafN_modifyRef, Node.link, Node.setLink,
         hx0, hxpar, hb, hxy, hyx, h1, h2, h3, h4, hbx', hby', hpx, hpy, hpb, hlp])

theorem rotate_false_heap (s : State α) (xid yid : Nat) (b pr : Ref)
    (hx1 : (s.heap xid).link1 = Ref.node yid)
    (hxpar : (s.heap xid).parent = pr)
    (hb : (s.heap yid).link0 = b)
    (hxy : xid ≠ yid)
    (hbshape : b = .leaf ∨ ∃ bid, b = .node bid)
    (hprshape : pr = .leaf ∨ ∃ pid, pr = .node pid)
    (hbx : b ≠ .node xid) (hby : b ≠ .node yid)
    (hprx : pr ≠ .node xid) (hpry : pr ≠ .node yid)
    (hprb : ∀ bid, b = .node bid → pr ≠ .node bid) :
    (rotate s (.node xid) false).heap xid
        = { s.heap xid with link1 := b, parent := .node yid } ∧
      (rotate s (.node xid) false).heap yid
        = { s.heap yid with link0 := .node xid, parent := pr } ∧
      (∀ bid, b = .node bid →
        (rotate s (.node xid) false).heap bid = { s.heap bid with parent := .node xid }) ∧
      (∀ j, j ≠ xid → j ≠ yid → b ≠ .node j → pr ≠ .node j →
        (rotate s (.node xid) false).heap j = s.heap j) ∧
      (rotate s (.node xid) false).leafN = s.leafN ∧
      (pr = .leaf → (rotate s (.node xid) false).root = .node yid) ∧
      (∀ pid, pr = .node pid →
        (((s.heap pid).link0 = .node xid →
          (rotate s (.node xid) false).heap pid = { s.heap pid with link0 := .node yid }) ∧
         ((s.heap pid).link0 ≠ .node xid →
          (rotate s (.node xid) false).heap pid = { s.heap pid with link1 := .node yid }) ∧
         (rotate s (.node xid) false).root = s.root)) := by
  have e_y : (getN s (Ref.node xid)).link (!false) = Ref.node yid := by
    simpa [getN, Node.link] using hx1
  have hyx : yid ≠ xid := Ne.symm hxy
  rcases hbshape with rfl | ⟨bid, rfl⟩ <;> rcases hprshape with rfl | ⟨pid, rfl⟩
  · unfold rotate
    rw [e_y]
    refine ⟨?_, ?_, ?_, ?_, ?_, ?_, ?_⟩ <;>
      try (simp [getN, heap_modifyRef, leafN_modifyRef, Node.link, Node.setLink,
        hx1, hxpar, hb, hxy, hyx])
    intro j hjx hjy
    have h1 : xid ≠ j := Ne.symm hjx
    have h2 : yid ≠ j := Ne.symm hjy
    simp [getN, heap_modifyRef, leafN_modifyRef, Node.link, Node.setLink,
      hx1, hxpar, hb, hxy, hyx, h1, h2]
  · have hpx : pid ≠ xid := by
      intro h
      exact hprx (by rw [h])
    have hpy : pid ≠ yid := by
      intro h
      exact hpry (by rw [h])
    by_cases hlp : (s.heap pid).link0 = Ref.node xid <;>
      (unfold rotate
       rw [e_y]
       refine ⟨?_, ?_, ?_, ?_, ?_, ?_, ?_⟩ <;>
         try (simp [getN, heap_modifyRef, leafN_modifyRef, Node.link, Node.setLink,
           hx1, hxpar, hb, hxy, hyx, hpx, hpy, Ne.symm hpx, Ne.symm hpy, hlp])
       intro j hjx hjy hjp
       have h1 : xid ≠ j := Ne.symm hjx
       have h2 : yid ≠ j := Ne.symm hjy
       have h3 : pid ≠ j := by
         intro h
         exact hjp (by rw [h])
       simp [getN, heap_modifyRef, leafN_modifyRef, Node.link, Node.setLink,
         hx1, hxpar, hb, hxy, hyx, h1, h2, h3, hpx, hpy, hlp])
  · have hbx' : bid ≠ xid := by
      intro h
      exact hbx (by rw [h])
    have hby' : bid ≠ yid := by
      intro h
      exact hby (by rw [h])
    unfold rotate
    rw [e_y]
    refine ⟨?_, ?_, ?_, ?_, ?_, ?_, ?_⟩ <;>
      try (simp [getN, heap_modifyRef, leafN_modifyRef, Node.link, Node.setLink,
        hx1, hxpar, hb, hxy, hyx, hbx', hby', Ne.symm hbx', Ne.symm hby'])
    intro j hjx hjy hjb
    have h1 : xid ≠ j := Ne.symm hjx
    have h2 : yid ≠ j := Ne.symm hjy
    have h3 : bid ≠ j := by
      intro h
      exact hjb (by rw [h])
    simp [getN, heap_modifyRef, leafN_modifyRef, Node.link, Node.setLink,
      hx1, hxpar, hb, hxy, hyx, h1, h2, h3, hbx', hby']
  · have hbx' : bid ≠ xid := by
      intro h
      exact hbx (by rw [h])
    have hby' : bid ≠ yid := by
      intro h
      exact hby (by rw [h])
    have hpx : pid ≠ xid := by
      intro h
      exact hprx (by rw [h])
    have hpy : pid ≠ yid := by
      intro h
      exact hpry (by rw [h])
    have hpb : pid ≠ bid := by
      intro h
      exact hprb bid rfl (by rw [h])
    by_cases hlp : (s.heap pid).link0 = Ref.node xid <;>
      (unfold rotate
       rw [e_y]
       refine ⟨?_, ?_, ?_, ?_, ?_, ?_, ?_⟩ <;>
         try (simp [getN, heap_modifyRef, leafN_modifyRef, Node.link, Node.setLink,
           hx1, hxpar, hb, hxy, hyx, hbx', hby', hpx, hpy, hpb,
           Ne.symm hbx', Ne.symm hby', Ne.symm hpx, Ne.symm hpy, Ne.symm hpb, hlp])
       intro j hjx hjy hjb hjp
       have h1 : xid ≠ j := Ne.symm hjx
       have h2 : yid ≠ j := Ne.symm hjy
       have h3 : bid ≠ j := by
         intro h
         exact hjb (by rw [h])
       have h4 : pid ≠ j := by
         intro h
         exact hjp (by rw [h])
       simp [getN, heap_modifyRef, leafN_modifyRef, Node.link, Node.setLink,
         hx1, hxpar, hb, hxy, hyx, h1, h2, h3, h4, hbx', hby', hpx, hpy, hpb, hlp])

theorem mem_ctxIds_cons (j : Nat) (d : Bool) (id : Nat) (red : Bool) (sib : T)
    (c : List Frame) :
    j ∈ ctxIds (.F d id red sib :: c) ↔ j = id ∨ j ∈ sib.ids ∨ j ∈ ctxIds c := by
  cases d <;>
    (simp only [ctxIds, leftOf, rightOf, leftF, rightF, List.mem_append,
       List.mem_cons, List.mem_singleton, List.append_nil, List.nil_append]
     tauto)

theorem nodup_ctxIds_cons (d : Bool) (id : Nat) (red : Bool) (sib : T)
    (c : List Frame) (h : (ctxIds (.F d id red sib :: c)).Nodup) :
    (ctxIds c).Nodup ∧ id ∉ ctxIds c ∧ (∀ j ∈ sib.ids, j ∉ ctxIds c) ∧
      id ∉ sib.ids := by
  cases d with
  | false =>
    simp only [ctxIds, leftOf, rightOf, leftF, rightF, List.append_nil,
      List.nil_append, List.nodup_append, List.nodup_cons, List.mem_append,
      List.mem_cons, List.not_mem_nil, or_false, false_or, List.nodup_nil,
      List.mem_singleton, List.nodup_singleton, List.Disjoint] at h ⊢
    obtain ⟨hL, ⟨⟨hidsib, hsib⟩, hR, hdisj2⟩, hdisj1⟩ := h
    refine ⟨⟨hL, hR, ?_⟩, ?_, ?_, hidsib⟩
    · intro a ha har
      exact hdisj1 ha (Or.inr har)
    · rintro (hid | hid)
      · exact hdisj1 hid (Or.inl (Or.inl rfl))
      · exact hdisj2 (Or.inl rfl) hid
    · intro j hj
      rintro (hjm | hjm)
      · exact hdisj1 hjm (Or.inl (Or.inr hj))
      · exact hdisj2 (Or.inr hj) hjm
  | true =>
    simp only [ctxIds, leftOf, rightOf, leftF, rightF, List.append_nil,
      List.nil_append, List.nodup_append, List.nodup_cons, List.mem_append,
      List.mem_cons, List.not_mem_nil, or_false, false_or, List.nodup_nil,
      List.mem_singleton, List.nodup_singleton, List.Disjoint] at h ⊢
    obtain ⟨⟨hL, ⟨hsib, hone, hdisjsi⟩, hdisjL⟩, hR, hdisj⟩ := h
    refine ⟨⟨hL, hR, ?_⟩, ?_, ?_, fun hmem => hdisjsi hmem rfl⟩
    · intro a ha har
      exact hdisj (Or.inl ha) har
    · rintro (hid | hid)
      · exact hdisjL hid (Or.inr rfl)
      · exact hdisj (Or.inr (Or.inr rfl)) hid
    · intro j hj
      rintro (hjm | hjm)
      · exact hdisjL hjm (Or.inl hj)
      · exact hdisj (Or.inr (Or.inl hj)) hjm

theorem Repr_node_mem {wd : Nat} {s : State α} {pr : Ref} {i : Nat} {t : T}
    (h : Repr wd s pr (.node i) t) : i ∈ t.ids := by
  cases h
  simp [T.ids]

theorem Repr_ref_shape {wd : Nat} {s : State α} {pr r : Ref} {t : T}
    (h : Repr wd s pr r t) :
    r = .leaf ∨ ∃ i, r = .node i ∧ i ∈ t.ids := by
  cases h with
  | nil => exact Or.inl rfl
  | node pr id tl tr hpar hl hr =>
    exact Or.inr ⟨id, rfl, by simp [T.ids]⟩

theorem Zip_pr_shape {wd : Nat} {s : State α} {c : List Frame} {pr r : Ref}
    (h : Zip wd s c pr r) :
    (pr = .leaf ∧ c = []) ∨
      ∃ d pid red sib c', pr = .node pid ∧ c = .F d pid red sib :: c' := by
  cases h with
  | top => exact Or.inl ⟨rfl, rfl⟩
  | frame d id sib c pr hz hpar hsib =>
    exact Or.inr ⟨d, id, _, sib, c, rfl, rfl⟩

/-- a zipper over the empty context sits at the root. -/
theorem Zip_nil_inv {wd : Nat} {s : State α} {pr r : Ref}
    (h : Zip wd s [] pr r) : pr = .leaf ∧ r = s.root := by
  cases h
  exact ⟨rfl, rfl⟩

/-- unfold one frame of a zipper. -/
theorem Zip_cons_inv {wd : Nat} {s : State α} {d : Bool} {id : Nat} {red : Bool}
    {sib : T} {c : List Frame} {pr r : Ref}
    (h : Zip wd s (.F d id red sib :: c) pr r) :
    pr = .node id ∧ red = is_red wd (s.heap id) ∧ r = (s.heap id).link d ∧
      Zip wd s c ((s.heap id).parent) (.node id) ∧
      Repr wd s (.node id) ((s.heap id).link !d) sib := by
  cases h with
  | frame d id sib c pr hz hpar hsib =>
    exact ⟨rfl, rfl, rfl, by rw [hpar]; exact hz, hsib⟩

theorem rotate_true_spec (wd : Nat) (s : State α) (c : List Frame) (pr : Ref)
    (xid yid : Nat) (xc yc : Bool) (ta tb tr : T)
    (hz : Zip wd s c pr (.node xid))
    (hx : Repr wd s pr (.node xid) (.node xid xc (.node yid yc ta tb) tr))
    (hnd : (plug c (T.node xid xc (T.node yid yc ta tb) tr)).ids.Nodup) :
    Zip wd (rotate s (.node xid) true) c pr (.node yid) ∧
      Repr wd (rotate s (.node xid) true) pr (.node yid)
        (.node yid yc ta (.node xid xc tb tr)) ∧
      (rotate s (.node xid) true).leafN = s.leafN := by
  obtain ⟨-, hxpar, hxc, hxl, hxr⟩ := Repr_node_inv hx
  obtain ⟨hx0, hypar, hyc, hyl, hyr⟩ := Repr_node_inv hxl
  obtain ⟨hU, hC, hUC⟩ := nodup_plug_parts _ _ hnd
  -- distinctness inside the rotated subtree
  simp only [T.ids, List.nodup_append, List.nodup_cons, List.mem_append,
    List.mem_cons, List.Disjoint] at hU
  obtain ⟨⟨hta, ⟨hytb, htb⟩, hdta⟩, ⟨hxtr, htr⟩, hdA⟩ := hU
  have hxy : xid ≠ yid := fun h => hdA (Or.inr (Or.inl rfl)) (Or.inl h.symm)
  have hytr : yid ∉ tr.ids := fun h => hdA (Or.inr (Or.inl rfl)) (Or.inr h)
  have hxta : xid ∉ ta.ids := fun h => hdA (Or.inl h) (Or.inl rfl)
  have hxtb : xid ∉ tb.ids := fun h => hdA (Or.inr (Or.inr h)) (Or.inl rfl)
  have hyta : yid ∉ ta.ids := fun h => hdta h (Or.inl rfl)
  have htatb : ∀ j ∈ tb.ids, j ∉ ta.ids := fun j hj h => hdta h (Or.inr hj)
  have htbtr : ∀ j ∈ tb.ids, j ∉ tr.ids := fun j hj h => hdA (Or.inr (Or.inr hj)) (Or.inr h)
  -- membership of the subtree ids in the whole rotated subtree
  have humem : ∀ j, (j = xid ∨ j = yid ∨ j ∈ ta.ids ∨ j ∈ tb.ids ∨ j ∈ tr.ids) →
      j ∈ (T.node xid xc (T.node yid yc ta tb) tr).ids := by
    intro j hj
    simp only [T.ids, List.mem_append, List.mem_cons]
    tauto
  have hxctx : xid ∉ ctxIds c := hUC xid (humem xid (Or.inl rfl))
  have hyctx : yid ∉ ctxIds c := hUC yid (humem yid (Or.inr (Or.inl rfl)))
  -- the b child reference
  have hbshape := Repr_ref_shape hyr
  have hbx : (s.heap yid).link1 ≠ .node xid := by
    intro h
    rw [h] at hyr
    exact hxtb (Repr_node_mem hyr)
  have hby : (s.heap yid).link1 ≠ .node yid := by
    intro h
    rw [h] at hyr
    exact hytb (Repr_node_mem hyr)
  -- the parent reference
  have hprshape : pr = .leaf ∨ ∃ pid, pr = .node pid := by
    rcases Zip_pr_shape hz with ⟨h1, -⟩ | ⟨d, pid, red, sib, c', h1, -⟩
    · exact Or.inl h1
    · exact Or.inr ⟨pid, h1⟩
  have hprmem : ∀ pid, pr = .node pid → pid ∈ ctxIds c := by
    intro pid hpr
    rcases Zip_pr_shape hz with ⟨h1, -⟩ | ⟨d, pid', red, sib, c', h1, h2⟩
    · rw [h1] at hpr
      cases hpr
    · rw [h1] at hpr
      injection hpr with h3
      subst h3
      rw [h2, mem_ctxIds_cons]
      exact Or.inl rfl
  have hpru : ∀ j, j ∈ (T.node xid xc (T.node yid yc ta tb) tr).ids → pr ≠ .node j := by
    intro j hj hpr
    exact hUC j hj (hprmem j hpr)
  have hprx : pr ≠ .node xid := hpru xid (humem xid (Or.inl rfl))
  have hpry : pr ≠ .node yid := hpru yid (humem yid (Or.inr (Or.inl rfl)))
  have hprb : ∀ bid, (s.heap yid).link1 = .node bid → pr ≠ .node bid := by
    intro bid hb1
    rw [hb1] at hyr
    exact hpru bid (humem bid (Or.inr (Or.inr (Or.inr (Or.inl (Repr_node_mem hyr))))))
  have hbshape' : (s.heap yid).link1 = .leaf ∨ ∃ bid, (s.heap yid).link1 = .node bid := by
    rcases hbshape with h1 | ⟨bid, h1, -⟩
    · exact Or.inl h1
    · exact Or.inr ⟨bid, h1⟩
  obtain ⟨hhx, hhy, hhb, hhE, hhleaf, hhroot, hhpid⟩ :=
    rotate_true_heap s xid yid ((s.heap yid).link1) pr hx0 hxpar rfl hxy
      hbshape' hprshape hbx hby hprx hpry hprb
  -- frame rule specialized to the subtree ids
  have hfr : ∀ j, (j ∈ ta.ids ∨ j ∈ tb.ids ∨ j ∈ tr.ids) → j ≠ xid → j ≠ yid →
      (∀ bid, (s.heap yid).link1 = .node bid → j ≠ bid) →
      (rotate s (.node xid) true).heap j = s.heap j := by
    intro j hj hjx hjy hjb
    refine hhE j hjx hjy ?_ ?_
    · intro hcon
      exact hjb j hcon rfl
    · exact fun hcon => hpru j (humem j (Or.inr (Or.inr hj))) hcon
  have agree_ta : ∀ j ∈ ta.ids, (rotate s (.node xid) true).heap j = s.heap j := by
    intro j hj
    refine hfr j (Or.inl hj) (fun h => hxta (h ▸ hj)) (fun h => hyta (h ▸ hj)) ?_
    intro bid hb1 hjb
    rw [hb1] at hyr
    exact htatb bid (Repr_node_mem hyr) (hjb ▸ hj)
  have agree_tr : ∀ j ∈ tr.ids, (rotate s (.node xid) true).heap j = s.heap j := by
    intro j hj
    refine hfr j (Or.inr (Or.inr hj)) (fun h => hxtr (h ▸ hj)) (fun h => hytr (h ▸ hj)) ?_
    intro bid hb1 hjb
    rw [hb1] at hyr
    exact htbtr bid (Repr_node_mem hyr) (hjb ▸ hj)
  have hcy : yc = is_red wd ((rotate s (.node xid) true).heap yid) := by
    rw [hhy]
    exact hyc
  have hcx : xc = is_red wd ((rotate s (.node xid) true).heap xid) := by
    rw [hhx]
    exact hxc
  have hrepr : Repr wd (rotate s (.node xid) true) pr (.node yid)
      (.node yid yc ta (.node xid xc tb tr)) := by
    rw [hcy, hcx]
    have hl0 : ((rotate s (.node xid) true).heap yid).link0 = (s.heap yid).link0 := by
      rw [hhy]
    have hl1 : ((rotate s (.node xid) true).heap yid).link1 = Ref.node xid := by
      rw [hhy]
    have hxl0 : ((rotate s (.node xid) true).heap xid).link0 = (s.heap yid).link1 := by
      rw [hhx]
    have hxl1 : ((rotate s (.node xid) true).heap xid).link1 = (s.heap xid).link1 := by
      rw [hhx]
    refine Repr.node pr yid ta (T.node xid (is_red wd ((rotate s (.node xid) true).heap xid)) tb tr)
      (by rw [hhy]) ?_ ?_
    · rw [hl0]
      exact Repr_congr_heap wd s _ hyl agree_ta
    · rw [hl1]
      refine Repr.node (.node yid) xid tb tr (by rw [hhx]) ?_ ?_
      · rw [hxl0]
        rcases tb with _ | ⟨bid0, bc, bl, br⟩
        · rw [Repr_nil_inv hyr]
          exact Repr.nil _
        · obtain ⟨hb1, hbpar, hbc, hbl, hbr⟩ := Repr_node_inv hyr
          rw [hb1]
          have hsb := hhb bid0 hb1
          simp only [T.ids, List.nodup_append, List.nodup_cons, List.mem_append,
            List.mem_cons, List.Disjoint] at htb
          obtain ⟨hblnd, ⟨hbid_br, hbrnd⟩, hdisjb⟩ := htb
          have hbid_bl : bid0 ∉ bl.ids := fun h => hdisjb h (Or.inl rfl)
          have hbmem : bid0 ∈ (T.node bid0 bc bl br).ids := by simp [T.ids]
          have agree_bl : ∀ j ∈ bl.ids, (rotate s (.node xid) true).heap j = s.heap j := by
            intro j hj
            have hjtb : j ∈ (T.node bid0 bc bl br).ids := by simp [T.ids, hj]
            refine hfr j (Or.inr (Or.inl hjtb)) (fun h => hxtb (h ▸ hjtb))
              (fun h => hytb (h ▸ hjtb)) ?_
            intro bid' hb1' hjb
            rw [hb1'] at hb1
            injection hb1 with he
            subst hjb
            exact hbid_bl (he ▸ hj)
          have agree_br : ∀ j ∈ br.ids, (rotate s (.node xid) true).heap j = s.heap j := by
            intro j hj
            have hjtb : j ∈ (T.node bid0 bc bl br).ids := by simp [T.ids, hj]
            refine hfr j (Or.inr (Or.inl hjtb)) (fun h => hxtb (h ▸ hjtb))
              (fun h => hytb (h ▸ hjtb)) ?_
            intro bid' hb1' hjb
            rw [hb1'] at hb1
            injection hb1 with he
            subst hjb
            exact hbid_br (he ▸ hj)
          have hcb : bc = is_red wd ((rotate s (.node xid) true).heap bid0) := by
            rw [hsb]
            exact hbc
          rw [hcb]
          refine Repr.node (.node xid) bid0 bl br (by rw [hsb]) ?_ ?_
          · rw [show ((rotate s (.node xid) true).heap bid0).link0 = (s.heap bid0).link0 from by rw [hsb]]
            exact Repr_congr_heap wd s _ hbl agree_bl
          · rw [show ((rotate s (.node xid) true).heap bid0).link1 = (s.heap bid0).link1 from by rw [hsb]]
            exact Repr_congr_heap wd s _ hbr agree_br
      · rw [hxl1]
        exact Repr_congr_heap wd s _ hxr agree_tr
  have hctxE : ∀ j, j ∈ ctxIds c → pr ≠ .node j →
      (rotate s (.node xid) true).heap j = s.heap j := by
    intro j hj hprj
    refine hhE j (fun h => hxctx (h ▸ hj)) (fun h => hyctx (h ▸ hj)) ?_ hprj
    intro hbj
    rw [hbj] at hyr
    exact hUC j (humem j (Or.inr (Or.inr (Or.inr (Or.inl (Repr_node_mem hyr)))))) hj
  have hzip : Zip wd (rotate s (.node xid) true) c pr (.node yid) := by
    rcases Zip_pr_shape hz with ⟨hpr0, hc0⟩ | ⟨d, pid, red, sib, c', hpr0, hc0⟩
    · subst hc0
      subst hpr0
      have h0 : Zip wd (rotate s (.node xid) true) [] .leaf
          (rotate s (.node xid) true).root := Zip.top
      rw [hhroot rfl] at h0
      exact h0
    · subst hc0
      obtain ⟨hpr1, hred, hfoc, hz', hpsib⟩ := Zip_cons_inv hz
      obtain ⟨hC2, hpidc, hsibc, hpidsib⟩ := nodup_ctxIds_cons d pid red sib c' hC
      subst hpr1
      obtain ⟨hp0, hp1, hroot2⟩ := hhpid pid rfl
      have hagc : ∀ j ∈ ctxIds c', (rotate s (.node xid) true).heap j = s.heap j := by
        intro j hj
        refine hctxE j ?_ ?_
        · rw [mem_ctxIds_cons]
          exact Or.inr (Or.inr hj)
        · intro h
          injection h with h2
          exact hpidc (h2.symm ▸ hj)
      have hagsib : ∀ j ∈ sib.ids, (rotate s (.node xid) true).heap j = s.heap j := by
        intro j hj
        refine hctxE j ?_ ?_
        · rw [mem_ctxIds_cons]
          exact Or.inr (Or.inl hj)
        · intro h
          injection h with h2
          exact hpidsib (h2.symm ▸ hj)
      have hz2 : Zip wd (rotate s (.node xid) true) c' ((s.heap pid).parent) (.node pid) :=
        Zip_congr_heap wd s (rotate s (.node xid) true) hz' hroot2 hagc
      cases d with
      | false =>
        have hl0x : (s.heap pid).link0 = .node xid := by
          simpa [Node.link] using hfoc.symm
        have hp := hp0 hl0x
        have hcolor : is_red wd ((rotate s (.node xid) true).heap pid)
            = is_red wd (s.heap pid) := by
          rw [hp]
          rfl
        have hz3 := Zip.frame false pid sib c'
          ((s.heap pid).parent) hz2 (by rw [hp])
          (by rw [show ((rotate s (.node xid) true).heap pid).link (!false)
                    = (s.heap pid).link (!false) from by rw [hp]; rfl]
              exact Repr_congr_heap wd s _ hpsib hagsib)
        have hfoc2 : ((rotate s (.node xid) true).heap pid).link false = .node yid := by
          rw [hp]
          simp [Node.link]
        rw [hfoc2, hcolor, ← hred] at hz3
        exact hz3
      | true =>
        have hl0x : (s.heap pid).link0 ≠ .node xid := by
          intro h
          have h2 : (s.heap pid).link (!true) = Ref.node xid := h
          rw [h2] at hpsib
          refine hxctx ?_
          rw [mem_ctxIds_cons]
          exact Or.inr (Or.inl (Repr_node_mem hpsib))
        have hp := hp1 hl0x
        have hcolor : is_red wd ((rotate s (.node xid) true).heap pid)
            = is_red wd (s.heap pid) := by
          rw [hp]
          rfl
        have hz3 := Zip.frame true pid sib c'
          ((s.heap pid).parent) hz2 (by rw [hp])
          (by rw [show ((rotate s (.node xid) true).heap pid).link (!true)
                    = (s.heap pid).link (!true) from by rw [hp]; rfl]
              exact Repr_congr_heap wd s _ hpsib hagsib)
        have hfoc2 : ((rotate s (.node xid) true).heap pid).link true = .node yid := by
          rw [hp]
          simp [Node.link]
        rw [hfoc2, hcolor, ← hred] at hz3
        exact hz3
  exact ⟨hzip, hrepr, hhleaf⟩

/-- right rotation at `x` under a zipper: the heap afterwards represents the
rotated tree in the same context, with `y` in the hole. -/
theorem rotate_false_spec (wd : Nat) (s : State α) (c : List Frame) (pr : Ref)
    (xid yid : Nat) (xc yc : Bool) (tl tb tc : T)
    (hz : Zip wd s c pr (.node xid))
    (hx : Repr wd s pr (.node xid) (.node xid xc tl (.node yid yc tb tc)))
    (hnd : (plug c (T.node xid xc tl (T.node yid yc tb tc))).ids.Nodup) :
    Zip wd (rotate s (.node xid) false) c pr (.node yid) ∧
      Repr wd (rotate s (.node xid) false) pr (.node yid)
        (.node yid yc (.node xid xc tl tb) tc) ∧
      (rotate s (.node xid) false).leafN = s.leafN := by
  obtain ⟨-, hxpar, hxc, hxl, hxr⟩ := Repr_node_inv hx
  obtain ⟨hx1, hypar, hyc, hyl, hyr⟩ := Repr_node_inv hxr
  obtain ⟨hU, hC, hUC⟩ := nodup_plug_parts _ _ hnd
  -- distinctness inside the rotated subtree
  have hU2 : (tl.ids ++ xid :: (tb.ids ++ yid :: tc.ids)).Nodup := by
    simpa [T.ids] using hU
  obtain ⟨htlnd, hrest, hdisj⟩ := List.nodup_append.mp hU2
  obtain ⟨hxnot, hrest2⟩ := List.nodup_cons.mp hrest
  obtain ⟨htbnd, hrest3, hdisj2⟩ := List.nodup_append.mp hrest2
  obtain ⟨hynot, htcnd⟩ := List.nodup_cons.mp hrest3
  have hxy : xid ≠ yid := fun h => hxnot (by simp [h])
  have hxtb : xid ∉ tb.ids := fun h => hxnot (List.mem_append.mpr (Or.inl h))
  have hxtc : xid ∉ tc.ids := fun h => hxnot (by simp [h])
  have hxtl : xid ∉ tl.ids := fun h => hdisj h (by simp)
  have hytl : yid ∉ tl.ids := fun h => hdisj h (by simp)
  have hytb : yid ∉ tb.ids := fun h => hdisj2 h (by simp)
  have hytc : yid ∉ tc.ids := hynot
  have htltb : ∀ j ∈ tb.ids, j ∉ tl.ids := fun j hj hl => hdisj hl (by simp [hj])
  have htbtc : ∀ j ∈ tb.ids, j ∉ tc.ids := fun j hj hc => hdisj2 hj (by simp [hc])
  -- membership of the subtree ids in the whole rotated subtree
  have humem : ∀ j, (j = xid ∨ j = yid ∨ j ∈ tl.ids ∨ j ∈ tb.ids ∨ j ∈ tc.ids) →
      j ∈ (T.node xid xc tl (T.node yid yc tb tc)).ids := by
    intro j hj
    simp only [T.ids, List.mem_append, List.mem_cons]
    tauto
  have hxctx : xid ∉ ctxIds c := hUC xid (humem xid (Or.inl rfl))
  have hyctx : yid ∉ ctxIds c := hUC yid (humem yid (Or.inr (Or.inl rfl)))
  -- the b child reference
  have hbshape := Repr_ref_shape hyl
  have hbx : (s.heap yid).link0 ≠ .node xid := by
    intro h
    rw [h] at hyl
    exact hxtb (Repr_node_mem hyl)
  have hby : (s.heap yid).link0 ≠ .node yid := by
    intro h
    rw [h] at hyl
    exact hytb (Repr_node_mem hyl)
  -- the parent reference
  have hprshape : pr = .leaf ∨ ∃ pid, pr = .node pid := by
    rcases Zip_pr_shape hz with ⟨h1, -⟩ | ⟨d, pid, red, sib, c', h1, -⟩
    · exact Or.inl h1
    · exact Or.inr ⟨pid, h1⟩
  have hprmem : ∀ pid, pr = .node pid → pid ∈ ctxIds c := by
    intro pid hpr
    rcases Zip_pr_shape hz with ⟨h1, -⟩ | ⟨d, pid', red, sib, c', h1, h2⟩
    · rw [h1] at hpr
      cases hpr
    · rw [h1] at hpr
      injection hpr with h3
      subst h3
      rw [h2, mem_ctxIds_cons]
      exact Or.inl rfl
  have hpru : ∀ j, j ∈ (T.node xid xc tl (T.node yid yc tb tc)).ids → pr ≠ .node j := by
    intro j hj hpr
    exact hUC j hj (hprmem j hpr)
  have hprx : pr ≠ .node xid := hpru xid (humem xid (Or.inl rfl))
  have hpry : pr ≠ .node yid := hpru yid (humem yid (Or.inr (Or.inl rfl)))
  have hprb : ∀ bid, (s.heap yid).link0 = .node bid → pr ≠ .node bid := by
    intro bid hb1
    rw [hb1] at hyl
    exact hpru bid (humem bid (Or.inr (Or.inr (Or.inr (Or.inl (Repr_node_mem hyl))))))
  have hbshape' : (s.heap yid).link0 = .leaf ∨ ∃ bid, (s.heap yid).link0 = .node bid := by
    rcases hbshape with h1 | ⟨bid, h1, -⟩
    · exact Or.inl h1
    · exact Or.inr ⟨bid, h1⟩
  obtain ⟨hhx, hhy, hhb, hhE, hhleaf, hhroot, hhpid⟩ :=
    rotate_false_heap s xid yid ((s.heap yid).link0) pr hx1 hxpar rfl hxy
      hbshape' hprshape hbx hby hprx hpry hprb
  -- frame rule specialized to the subtree ids
  have hfr : ∀ j, (j ∈ tl.ids ∨ j ∈ tb.ids ∨ j ∈ tc.ids) → j ≠ xid → j ≠ yid →
      (∀ bid, (s.heap yid).link0 = .node bid → j ≠ bid) →
      (rotate s (.node xid) false).heap j = s.heap j := by
    intro j hj hjx hjy hjb
    refine hhE j hjx hjy ?_ ?_
    · intro hcon
      exact hjb j hcon rfl
    · exact fun hcon => hpru j (humem j (Or.inr (Or.inr hj))) hcon
  have agree_tl : ∀ j ∈ tl.ids, (rotate s (.node xid) false).heap j = s.heap j := by
    intro j hj
    refine hfr j (Or.inl hj) (fun h => hxtl (h ▸ hj)) (fun h => hytl (h ▸ hj)) ?_
    intro bid hb1 hjb
    rw [hb1] at hyl
    exact htltb bid (Repr_node_mem hyl) (hjb ▸ hj)
  have agree_tc : ∀ j ∈ tc.ids, (rotate s (.node xid) false).heap j = s.heap j := by
    intro j hj
    refine hfr j (Or.inr (Or.inr hj)) (fun h => hxtc (h ▸ hj)) (fun h => hytc (h ▸ hj)) ?_
    intro bid hb1 hjb
    rw [hb1] at hyl
    exact htbtc bid (Repr_node_mem hyl) (hjb ▸ hj)
  have hcy : yc = is_red wd ((rotate s (.node xid) false).heap yid) := by
    rw [hhy]
    exact hyc
  have hcx : xc = is_red wd ((rotate s (.node xid) false).heap xid) := by
    rw [hhx]
    exact hxc
  have hrepr : Repr wd (rotate s (.node xid) false) pr (.node yid)
      (.node yid yc (.node xid xc tl tb) tc) := by
    rw [hcy, hcx]
    have hl0 : ((rotate s (.node xid) false).heap yid).link0 = Ref.node xid := by
      rw [hhy]
    have hl1 : ((rotate s (.node xid) false).heap yid).link1 = (s.heap yid).link1 := by
      rw [hhy]
    have hxl0 : ((rotate s (.node xid) false).heap xid).link0 = (s.heap xid).link0 := by
      rw [hhx]
    have hxl1 : ((rotate s (.node xid) false).heap xid).link1 = (s.heap yid).link0 := by
      rw [hhx]
    refine Repr.node pr yid (T.node xid (is_red wd ((rotate s (.node xid) false).heap xid)) tl tb)
      tc (by rw [hhy]) ?_ ?_
    · rw [hl0]
      refine Repr.node (.node yid) xid tl tb (by rw [hhx]) ?_ ?_
      · rw [hxl0]
        exact Repr_congr_heap wd s _ hxl agree_tl
      · rw [hxl1]
        rcases tb with _ | ⟨bid0, bc, bl, br⟩
        · rw [Repr_nil_inv hyl]
          exact Repr.nil _
        · obtain ⟨hb1, hbpar, hbc, hbl, hbr⟩ := Repr_node_inv hyl
          rw [hb1]
          have hsb := hhb bid0 hb1
          obtain ⟨hblnd, hrest4, hdisj4⟩ := List.nodup_append.mp (by simpa [T.ids] using htbnd)
          obtain ⟨hbid_br, hbrnd⟩ := List.nodup_cons.mp hrest4
          have hbid_bl : bid0 ∉ bl.ids := fun h => hdisj4 h (by simp)
          have agree_bl : ∀ j ∈ bl.ids, (rotate s (.node xid) false).heap j = s.heap j := by
            intro j hj
            have hjtb : j ∈ (T.node bid0 bc bl br).ids := by simp [T.ids, hj]
            refine hfr j (Or.inr (Or.inl hjtb)) (fun h => hxtb (h ▸ hjtb))
              (fun h => hytb (h ▸ hjtb)) ?_
            intro bid' hb1' hjb
            rw [hb1'] at hb1
            injection hb1 with he
            subst hjb
            exact hbid_bl (he ▸ hj)
          have agree_br : ∀ j ∈ br.ids, (rotate s (.node xid) false).heap j = s.heap j := by
            intro j hj
            have hjtb : j ∈ (T.node bid0 bc bl br).ids := by simp [T.ids, hj]
            refine hfr j (Or.inr (Or.inl hjtb)) (fun h => hxtb (h ▸ hjtb))
              (fun h => hytb (h ▸ hjtb)) ?_
            intro bid' hb1' hjb
            rw [hb1'] at hb1
            injection hb1 with he
            subst hjb
            exact hbid_br (he ▸ hj)
          have hcb : bc = is_red wd ((rotate s (.node xid) false).heap bid0) := by
            rw [hsb]
            exact hbc
          rw [hcb]
          refine Repr.node (.node xid) bid0 bl br (by rw [hsb]) ?_ ?_
          · rw [show ((rotate s (.node xid) false).heap bid0).link0 = (s.heap bid0).link0 from by rw [hsb]]
            exact Repr_congr_heap wd s _ hbl agree_bl
          · rw [show ((rotate s (.node xid) false).heap bid0).link1 = (s.heap bid0).link1 from by rw [hsb]]
            exact Repr_congr_heap wd s _ hbr agree_br
    · rw [hl1]
      exact Repr_congr_heap wd s _ hyr agree_tc
  have hctxE : ∀ j, j ∈ ctxIds c → pr ≠ .node j →
      (rotate s (.node xid) false).heap j = s.heap j := by
    intro j hj hprj
    refine hhE j (fun h => hxctx (h ▸ hj)) (fun h => hyctx (h ▸ hj)) ?_ hprj
    intro hbj
    rw [hbj] at hyl
    exact hUC j (humem j (Or.inr (Or.inr (Or.inr (Or.inl (Repr_node_mem hyl)))))) hj
  have hzip : Zip wd (rotate s (.node xid) false) c pr (.node yid) := by
    rcases Zip_pr_shape hz with ⟨hpr0, hc0⟩ | ⟨d, pid, red, sib, c', hpr0, hc0⟩
    · subst hc0
      subst hpr0
      have h0 : Zip wd (rotate s (.node xid) false) [] .leaf
          (rotate s (.node xid) false).root := Zip.top
      rw [hhroot rfl] at h0
      exact h0
    · subst hc0
      obtain ⟨hpr1, hred, hfoc, hz', hpsib⟩ := Zip_cons_inv hz
      obtain ⟨hC2, hpidc, hsibc, hpidsib⟩ := nodup_ctxIds_cons d pid red sib c' hC
      subst hpr1
      obtain ⟨hp0, hp1, hroot2⟩ := hhpid pid rfl
      have hagc : ∀ j ∈ ctxIds c', (rotate s (.node xid) false).heap j = s.heap j := by
        intro j hj
        refine hctxE j ?_ ?_
        · rw [mem_ctxIds_cons]
          exact Or.inr (Or.inr hj)
        · intro h
          injection h with h2
          exact hpidc (h2.symm ▸ hj)
      have hagsib : ∀ j ∈ sib.ids, (rotate s (.node xid) false).heap j = s.heap j := by
        intro j hj
        refine hctxE j ?_ ?_
        · rw [mem_ctxIds_cons]
          exact Or.inr (Or.inl hj)
        · intro h
          injection h with h2
          exact hpidsib (h2.symm ▸ hj)
      have hz2 : Zip wd (rotate s (.node xid) false) c' ((s.heap pid).parent) (.node pid) :=
        Zip_congr_heap wd s (rotate s (.node xid) false) hz' hroot2 hagc
      cases d with
      | false =>
        have hl0x : (s.heap pid).link0 = .node xid := by
          simpa [Node.link] using hfoc.symm
        have hp := hp0 hl0x
        have hcolor : is_red wd ((rotate s (.node xid) false).heap pid)
            = is_red wd (s.heap pid) := by
          rw [hp]
          rfl
        have hz3 := Zip.frame false pid sib c'
          ((s.heap pid).parent) hz2 (by rw [hp])
          (by rw [show ((rotate s (.node xid) false).heap pid).link (!false)
                    = (s.heap pid).link (!false) from by rw [hp]; rfl]
              exact Repr_congr_heap wd s _ hpsib hagsib)
        have hfoc2 : ((rotate s (.node xid) false).heap pid).link false = .node yid := by
          rw [hp]
          simp [Node.link]
        rw [hfoc2, hcolor, ← hred] at hz3
        exact hz3
      | true =>
        have hl0x : (s.heap pid).link0 ≠ .node xid := by
          intro h
          have h2 : (s.heap pid).link (!true) = Ref.node xid := h
          rw [h2] at hpsib
          refine hxctx ?_
          rw [mem_ctxIds_cons]
          exact Or.inr (Or.inl (Repr_node_mem hpsib))
        have hp := hp1 hl0x
        have hcolor : is_red wd ((rotate s (.node xid) false).heap pid)
            = is_red wd (s.heap pid) := by
          rw [hp]
          rfl
        have hz3 := Zip.frame true pid sib c'
          ((s.heap pid).parent) hz2 (by rw [hp])
          (by rw [show ((rotate s (.node xid) false).heap pid).link (!true)
                    = (s.heap pid).link (!true) from by rw [hp]; rfl]
              exact Repr_congr_heap wd s _ hpsib hagsib)
        have hfoc2 : ((rotate s (.node xid) false).heap pid).link true = .node yid := by
          rw [hp]
          simp [Node.link]
        rw [hfoc2, hcolor, ← hred] at hz3
        exact hz3
  exact ⟨hzip, hrepr, hhleaf⟩

/-! ## Tree-level red-black bookkeeping -/

/-- the root color forced to black (ptree.c:414 / 467 paint the root or the
replacing child black). -/
def T.blacken : T → T
  | .nil => .nil
  | .node id _ l r => .node id false l r

theorem blacken_ids (t : T) : t.blacken.ids = t.ids := by
  cases t <;> rfl

theorem blacken_isRed (t : T) : t.blacken.isRed = false := by
  cases t <;> rfl

theorem noRR_blacken (t : T) (h : noRR t) : noRR t.blacken := by
  cases t with
  | nil => trivial
  | node id red l r =>
    obtain ⟨-, hl, hr⟩ := h
    show (false = true → T.isRed l = false ∧ T.isRed r = false) ∧ noRR l ∧ noRR r
    exact ⟨(fun hc => nomatch hc), hl, hr⟩

theorem bhOk_blacken (t : T) (n : Nat) (h : bhOk t n) : ∃ m, bhOk t.blacken m := by
  cases t with
  | nil => exact ⟨0, rfl⟩
  | node id red l r =>
    obtain ⟨m, hl, hr, -⟩ := h
    refine ⟨m + 1, ?_⟩
    show bhOk (T.node id false l r) (m + 1)
    exact ⟨m, hl, hr, by simp⟩

theorem bhOk_unique : ∀ (t : T) (m n : Nat), bhOk t m → bhOk t n → m = n := by
  intro t
  induction t with
  | nil => intro m n hm hn; simp [bhOk] at hm hn; omega
  | node id red l r ihl ihr =>
    intro m n hm hn
    obtain ⟨a, hal, har, ha⟩ := hm
    obtain ⟨b, hbl, hbr, hb⟩ := hn
    have := ihl a b hal hbl
    omega

theorem bhOk_nil_iff (n : Nat) : bhOk T.nil n ↔ n = 0 := Iff.rfl

/-- black-height transfer through a context: a subtree of black-height `m`
in the hole gives the whole tree black-height `n`. -/
def bhC : List Frame → Nat → Nat → Prop
  | [], m, n => m = n
  | .F _ _ red sib :: c, m, n =>
    bhOk sib m ∧ bhC c (m + (if red then 0 else 1)) n

theorem bhOk_plugF (d : Bool) (id : Nat) (red : Bool) (sib u : T) (k : Nat) :
    bhOk (plugF (.F d id red sib) u) k ↔
      ∃ m, bhOk u m ∧ bhOk sib m ∧ k = m + (if red then 0 else 1) := by
  cases d with
  | false =>
    constructor
    · rintro ⟨m, hu, hs, hk⟩
      exact ⟨m, hu, hs, hk⟩
    · rintro ⟨m, hu, hs, hk⟩
      exact ⟨m, hu, hs, hk⟩
  | true =>
    constructor
    · rintro ⟨m, hs, hu, hk⟩
      exact ⟨m, hu, hs, hk⟩
    · rintro ⟨m, hu, hs, hk⟩
      exact ⟨m, hs, hu, hk⟩

theorem bhOk_plug : ∀ (c : List Frame) (u : T) (n : Nat),
    bhOk (plug c u) n ↔ ∃ m, bhOk u m ∧ bhC c m n := by
  intro c
  induction c with
  | nil =>
    intro u n
    constructor
    · intro h
      exact ⟨n, h, rfl⟩
    · rintro ⟨m, hm, he⟩
      rwa [← he]
  | cons f c ih =>
    intro u n
    obtain ⟨d, id, red, sib⟩ := f
    rw [show plug (Frame.F d id red sib :: c) u = plug c (plugF (.F d id red sib) u) from rfl,
      ih]
    constructor
    · rintro ⟨k, hk, hc⟩
      obtain ⟨m, hu, hs, he⟩ := (bhOk_plugF d id red sib u k).mp hk
      exact ⟨m, hu, hs, he ▸ hc⟩
    · rintro ⟨m, hu, hs, hc⟩
      exact ⟨m + (if red then 0 else 1),
        (bhOk_plugF d id red sib u _).mpr ⟨m, hu, hs, rfl⟩, hc⟩

theorem noRR_plugF_iff (d : Bool) (id : Nat) (red : Bool) (sib u : T) :
    noRR (plugF (.F d id red sib) u) ↔
      (red = true → u.isRed = false ∧ sib.isRed = false) ∧ noRR u ∧ noRR sib := by
  cases d <;> simp only [plugF, noRR] <;> tauto

theorem noRR_plug_down : ∀ (c : List Frame) (u : T), noRR (plug c u) → noRR u := by
  intro c
  induction c with
  | nil => intro u h; exact h
  | cons f c ih =>
    intro u h
    obtain ⟨d, id, red, sib⟩ := f
    have h2 := ih _ h
    exact ((noRR_plugF_iff d id red sib u).mp h2).2.1

theorem noRR_plug_replace : ∀ (c : List Frame) (u v : T),
    noRR (plug c u) → noRR v → (v.isRed = true → u.isRed = true) →
    noRR (plug c v) := by
  intro c
  induction c with
  | nil => intro u v _ hv _; exact hv
  | cons f c ih =>
    intro u v h hv hred
    obtain ⟨d, id, red, sib⟩ := f
    have h2 := (noRR_plugF_iff d id red sib u).mp (noRR_plug_down c _ h)
    refine ih _ _ h ?_ ?_
    · refine (noRR_plugF_iff d id red sib v).mpr ⟨?_, hv, h2.2.2⟩
      intro hr
      refine ⟨?_, (h2.1 hr).2⟩
      cases hvr : v.isRed with
      | false => rfl
      | true => exact absurd (h2.1 hr).1 (by rw [hred hvr]; simp)
    · intro h3
      cases d <;> exact h3

theorem plug_isRed_congr : ∀ (c : List Frame) (u v : T), c ≠ [] →
    (plug c u).isRed = (plug c v).isRed := by
  intro c
  induction c with
  | nil => intro u v h; exact absurd rfl h
  | cons f c ih =>
    intro u v _
    obtain ⟨d, id, red, sib⟩ := f
    cases c with
    | nil => cases d <;> rfl
    | cons g c2 =>
      exact ih (plugF (.F d id red sib) u) (plugF (.F d id red sib) v) (by simp)

theorem plug_cons_shape : ∀ (c : List Frame) (f : Frame) (u : T),
    ∃ id red l r, plug (f :: c) u = T.node id red l r ∧ id ∈ ctxIds (f :: c) := by
  intro c
  induction c with
  | nil =>
    intro f u
    obtain ⟨d, id, red, sib⟩ := f
    cases d with
    | false => exact ⟨id, red, u, sib, rfl, by simp [ctxIds, leftOf, rightOf, leftF, rightF]⟩
    | true => exact ⟨id, red, sib, u, rfl, by simp [ctxIds, leftOf, rightOf, leftF, rightF]⟩
  | cons g c2 ih =>
    intro f u
    obtain ⟨id, red, l, r, he, hm⟩ := ih g (plugF f u)
    refine ⟨id, red, l, r, he, ?_⟩
    rw [mem_ctxIds_cons] at hm ⊢
    obtain ⟨d, fid, fred, fsib⟩ := f
    exact Or.inr (Or.inr ((mem_ctxIds_cons id _ _ _ _ c2).mpr hm))

/-- a zipper with a non-empty context never sits at the root (the focus id
would have to repeat). -/
theorem Zip_cons_ne_root {wd : Nat} {s : State α} {f : Frame} {c : List Frame}
    {pr : Ref} {xid : Nat} {t : T}
    (hz : Zip wd s (f :: c) pr (.node xid))
    (hx : Repr wd s pr (.node xid) t)
    (hnd : (plug (f :: c) t).ids.Nodup) : s.root ≠ .node xid := by
  intro hroot
  have hP := Zip_plug wd s hz hx
  obtain ⟨id, red, l, r, he, hm⟩ := plug_cons_shape c f t
  rw [he] at hP
  rw [hroot] at hP
  obtain ⟨h1, -, -, -, -⟩ := Repr_node_inv hP
  injection h1 with h2
  obtain ⟨-, -, hUC⟩ := nodup_plug_parts _ _ hnd
  exact hUC xid (Repr_node_mem hx) (h2 ▸ hm)

/-- `Repr` at the absent reference only represents the empty tree. -/
theorem Repr_leaf_inv {wd : Nat} {s : State α} {pr : Ref} {t : T}
    (h : Repr wd s pr .leaf t) : t = .nil := by
  cases h
  rfl

/-! ## Painting a node: heap-level recoloring lemmas -/

/-- painting a node outside the represented subtree leaves it represented. -/
theorem Repr_paint_out (wd : Nat) (s : State α) (id : Nat) (f : Node α → Node α)
    {pr r : Ref} {t : T} (h : Repr wd s pr r t) (hid : id ∉ t.ids) :
    Repr wd (modifyRef s (.node id) f) pr r t := by
  refine Repr_congr_heap wd s _ h ?_
  intro j hj
  rw [heap_modifyRef]
  refine if_neg fun he => ?_
  injection he with h2
  exact hid (h2.symm ▸ hj)

theorem Repr_paint_black_root (wd : Nat) (s : State α) {pr : Ref} {id : Nat}
    {cc : Bool} {l r : T} (h : Repr wd s pr (.node id) (.node id cc l r))
    (hl : id ∉ l.ids) (hr : id ∉ r.ids) :
    Repr wd (modifyRef s (.node id) (paint_black wd)) pr (.node id)
      (.node id false l r) := by
  obtain ⟨-, hpar, -, hlr, hrr⟩ := Repr_node_inv h
  have hheap : (modifyRef s (.node id) (paint_black wd)).heap id
      = paint_black wd (s.heap id) := by
    rw [heap_modifyRef, if_pos rfl]
  have hcol : (false : Bool) = is_red wd ((modifyRef s (.node id) (paint_black wd)).heap id) := by
    rw [hheap, is_red_paint_black]
  rw [hcol]
  refine Repr.node pr id l r ?_ ?_ ?_
  · rw [hheap, paint_black_parent, hpar]
  · rw [hheap, paint_black_link0]
    exact Repr_paint_out wd s id _ hlr hl
  · rw [hheap, paint_black_link1]
    exact Repr_paint_out wd s id _ hrr hr

theorem Repr_paint_red_root (wd : Nat) (s : State α) {pr : Ref} {id : Nat}
    {cc : Bool} {l r : T} (h : Repr wd s pr (.node id) (.node id cc l r))
    (hl : id ∉ l.ids) (hr : id ∉ r.ids) :
    Repr wd (modifyRef s (.node id) (paint_red wd)) pr (.node id)
      (.node id true l r) := by
  obtain ⟨-, hpar, -, hlr, hrr⟩ := Repr_node_inv h
  have hheap : (modifyRef s (.node id) (paint_red wd)).heap id
      = paint_red wd (s.heap id) := by
    rw [heap_modifyRef, if_pos rfl]
  have hcol : (true : Bool) = is_red wd ((modifyRef s (.node id) (paint_red wd)).heap id) := by
    rw [hheap, is_red_paint_red]
  rw [hcol]
  refine Repr.node pr id l r ?_ ?_ ?_
  · rw [hheap, paint_red_parent, hpar]
  · rw [hheap, paint_red_link0]
    exact Repr_paint_out wd s id _ hlr hl
  · rw [hheap, paint_red_link1]
    exact Repr_paint_out wd s id _ hrr hr

/-- painting a node outside the context leaves the zipper intact. -/
theorem Zip_paint_out (wd : Nat) (s : State α) (id : Nat) (f : Node α → Node α)
    {c : List Frame} {pr r : Ref} (h : Zip wd s c pr r) (hid : id ∉ ctxIds c) :
    Zip wd (modifyRef s (.node id) f) c pr r := by
  refine Zip_congr_heap wd s _ h (by simp) ?_
  intro j hj
  rw [heap_modifyRef]
  refine if_neg fun he => ?_
  injection he with h2
  exact hid (h2.symm ▸ hj)

/-! ## The arena half of the invariant, separated -/

/-- everything `Inv` says apart from the tree representation: distinct slot
bodies storing their own position, 32-bit counters, intact sentinel. -/
def ArenaCore (s : State α) : Prop :=
  ((List.range s.allocated_nodes_num).map s.nodes).Nodup ∧
  (∀ i, i < s.allocated_nodes_num →
    get_node_index 32 (s.heap (s.nodes i)) = i ∧
    (s.heap (s.nodes i)).flags < 2 ^ 32 ∧ s.nodes i < s.nextId) ∧
  Arena32 s ∧
  s.leafN.flags = 0 ∧ s.leafN.link0 = .null ∧ s.leafN.link1 = .null

theorem Inv_split (s : State α) (t : T) :
    Inv s t ↔ Repr 32 s .leaf s.root t ∧
      t.ids.Perm ((List.range s.nodes_num).map s.nodes) ∧ ArenaCore s := by
  unfold Inv ArenaCore
  tauto

/-- arena bookkeeping only looks at the slot array, the counters, the flag
words and the sentinel. -/
theorem ArenaCore_congr (s s' : State α)
    (hn : s'.nodes = s.nodes) (h1 : s'.nodes_num = s.nodes_num)
    (h2 : s'.allocated_nodes_num = s.allocated_nodes_num)
    (h3 : s'.arenaLen = s.arenaLen) (h4 : s'.nextId = s.nextId)
    (hfl : ∀ j, (s'.heap j).flags = (s.heap j).flags)
    (hleaf : s'.leafN = s.leafN) (h : ArenaCore s) : ArenaCore s' := by
  obtain ⟨hnd, hsl, ha, hf, hl0, hl1⟩ := h
  refine ⟨by rw [hn, h2]; exact hnd, ?_, ?_, by rw [hleaf]; exact hf,
    by rw [hleaf]; exact hl0, by rw [hleaf]; exact hl1⟩
  · intro i hi
    rw [h2] at hi
    obtain ⟨ha1, ha2, ha3⟩ := hsl i hi
    rw [hn, h4]
    refine ⟨?_, ?_, ha3⟩
    · unfold get_node_index at ha1 ⊢
      rw [hfl]
      exact ha1
    · rw [hfl]
      exact ha2
  · unfold Arena32 at ha ⊢
    rw [h1, h2, h3]
    exact ha

/-- a store that leaves every flags word alone preserves the arena
bookkeeping. -/
theorem ArenaCore_modify_flagskept (s : State α) (id : Nat) (f : Node α → Node α)
    (hf : ∀ n, (f n).flags = n.flags) (h : ArenaCore s) :
    ArenaCore (modifyRef s (.node id) f) := by
  refine ArenaCore_congr s _ (by simp) (by simp) (by simp) (by simp) (by simp) ?_
    (by rw [leafN_modifyRef]; simp) h
  intro j
  rw [heap_modifyRef]
  split
  · rw [hf]
  · rfl

/-- a flags rewrite that keeps the index bits and the 32-bit bound (painting
either color, copying a color) preserves the arena bookkeeping. -/
theorem ArenaCore_modify_idxkept (s : State α) (id : Nat) (f : Node α → Node α)
    (hidx : ∀ n : Node α, get_node_index 32 (f n) = get_node_index 32 n)
    (hbound : ∀ n : Node α, n.flags < 2 ^ 32 → (f n).flags < 2 ^ 32)
    (h : ArenaCore s) : ArenaCore (modifyRef s (.node id) f) := by
  obtain ⟨hnd, hsl, ha, hf0, hl0, hl1⟩ := h
  refine ⟨by simpa using hnd, ?_, by unfold Arena32 at ha ⊢; simpa using ha,
    by rw [leafN_modifyRef]; simpa using hf0,
    by rw [leafN_modifyRef]; simpa using hl0,
    by rw [leafN_modifyRef]; simpa using hl1⟩
  intro i hi
  rw [modifyRef_allocated] at hi
  obtain ⟨ha1, ha2, ha3⟩ := hsl i hi
  rw [modifyRef_nodes, modifyRef_nextId, heap_modifyRef]
  split
  · exact ⟨by rw [hidx]; exact ha1, hbound _ ha2, ha3⟩
  · exact ⟨ha1, ha2, ha3⟩

theorem paint_black_flags_le (wd : Nat) (n : Node α) :
    (paint_black wd n).flags ≤ n.flags := Nat.and_le_left

theorem paint_red_flags_lt (n : Node α) (h : n.flags < 2 ^ 32) :
    (paint_red 32 n).flags < 2 ^ 32 := by
  show n.flags ||| redFlag 32 < 2 ^ 32
  have h2 : redFlag 32 < 2 ^ 32 := by norm_num [redFlag]
  exact Nat.or_lt_two_pow h h2

theorem ArenaCore_paint_black (s : State α) (r : Ref) (h : ArenaCore s) :
    ArenaCore (modifyRef s r (paint_black 32)) := by
  cases r with
  | null => exact h
  | leaf =>
    obtain ⟨hnd, hsl, ha, hf0, hl0, hl1⟩ := h
    have hfl : (modifyRef s .leaf (paint_black 32)).leafN.flags = 0 := by
      rw [leafN_modifyRef, if_pos rfl]
      show s.leafN.flags &&& (redFlag 32 - 1) = 0
      rw [hf0]
      simp
    refine ⟨by simpa using hnd, ?_, by unfold Arena32 at ha ⊢; simpa using ha, hfl, ?_, ?_⟩
    · intro i hi
      simp only [modifyRef] at hi ⊢
      exact hsl i hi
    · rw [leafN_modifyRef, if_pos rfl, paint_black_link0]
      exact hl0
    · rw [leafN_modifyRef, if_pos rfl, paint_black_link1]
      exact hl1
  | node id =>
    refine ArenaCore_modify_idxkept s id _ (get_node_index_paint_black 32) ?_ h
    intro n hn
    exact lt_of_le_of_lt (paint_black_flags_le 32 n) hn

theorem ArenaCore_paint_red (s : State α) (id : Nat) (h : ArenaCore s) :
    ArenaCore (modifyRef s (.node id) (paint_red 32)) := by
  refine ArenaCore_modify_idxkept s id _ (get_node_index_paint_red 32) ?_ h
  intro n hn
  exact paint_red_flags_lt n hn

theorem get_node_index_copy_color (wd : Nat) (dst src : Node α) :
    get_node_index wd (copy_color wd dst src) = get_node_index wd dst := by
  unfold copy_color
  split
  · exact get_node_index_paint_red wd dst
  · exact get_node_index_paint_black wd dst

theorem ArenaCore_copy_color (s : State α) (id : Nat) (src : Node α) (h : ArenaCore s) :
    ArenaCore (modifyRef s (.node id) (fun n => copy_color 32 n src)) := by
  refine ArenaCore_modify_idxkept s id _ (fun n => get_node_index_copy_color 32 n src) ?_ h
  intro n hn
  unfold copy_color
  split
  · exact paint_red_flags_lt n hn
  · exact lt_of_le_of_lt (paint_black_flags_le 32 n) hn

/-- remove writes the sentinel's parent field; the bookkeeping survives. -/
theorem ArenaCore_sentinel_parent (s : State α) (q : Ref) (h : ArenaCore s) :
    ArenaCore (modifyRef s .leaf (fun n => { n with parent := q })) := by
  obtain ⟨hnd, hsl, ha, hf0, hl0, hl1⟩ := h
  refine ⟨by simpa using hnd, ?_, by unfold Arena32 at ha ⊢; simpa using ha, ?_, ?_, ?_⟩
  · intro i hi
    simp only [modifyRef] at hi ⊢
    exact hsl i hi
  · rw [leafN_modifyRef, if_pos rfl]
    exact hf0
  · rw [leafN_modifyRef, if_pos rfl]
    exact hl0
  · rw [leafN_modifyRef, if_pos rfl]
    exact hl1

/-- rotation never changes a flags word or a stored handle. -/
theorem rotate_true_pres (wd : Nat) (s : State α) (c : List Frame) (pr : Ref)
    (xid yid : Nat) (xc yc : Bool) (ta tb tr : T)
    (hz : Zip wd s c pr (.node xid))
    (hx : Repr wd s pr (.node xid) (.node xid xc (.node yid yc ta tb) tr))
    (hnd : (plug c (T.node xid xc (T.node yid yc ta tb) tr)).ids.Nodup) :
    ∀ j, ((rotate s (.node xid) true).heap j).flags = (s.heap j).flags ∧
      ((rotate s (.node xid) true).heap j).ptr = (s.heap j).ptr := by
  obtain ⟨-, hxpar, hxc, hxl, hxr⟩ := Repr_node_inv hx
  obtain ⟨hx0, hypar, hyc, hyl, hyr⟩ := Repr_node_inv hxl
  obtain ⟨hU, hC, hUC⟩ := nodup_plug_parts _ _ hnd
  -- distinctness inside the rotated subtree
  simp only [T.ids, List.nodup_append, List.nodup_cons, List.mem_append,
    List.mem_cons, List.Disjoint] at hU
  obtain ⟨⟨hta, ⟨hytb, htb⟩, hdta⟩, ⟨hxtr, htr⟩, hdA⟩ := hU
  have hxy : xid ≠ yid := fun h => hdA (Or.inr (Or.inl rfl)) (Or.inl h.symm)
  have hytr : yid ∉ tr.ids := fun h => hdA (Or.inr (Or.inl rfl)) (Or.inr h)
  have hxta : xid ∉ ta.ids := fun h => hdA (Or.inl h) (Or.inl rfl)
  have hxtb : xid ∉ tb.ids := fun h => hdA (Or.inr (Or.inr h)) (Or.inl rfl)
  have hyta : yid ∉ ta.ids := fun h => hdta h (Or.inl rfl)
  have htatb : ∀ j ∈ tb.ids, j ∉ ta.ids := fun j hj h => hdta h (Or.inr hj)
  have htbtr : ∀ j ∈ tb.ids, j ∉ tr.ids := fun j hj h => hdA (Or.inr (Or.inr hj)) (Or.inr h)
  -- membership of the subtree ids in the whole rotated subtree
  have humem : ∀ j, (j = xid ∨ j = yid ∨ j ∈ ta.ids ∨ j ∈ tb.ids ∨ j ∈ tr.ids) →
      j ∈ (T.node xid xc (T.node yid yc ta tb) tr).ids := by
    intro j hj
    simp only [T.ids, List.mem_append, List.mem_cons]
    tauto
  have hxctx : xid ∉ ctxIds c := hUC xid (humem xid (Or.inl rfl))
  have hyctx : yid ∉ ctxIds c := hUC yid (humem yid (Or.inr (Or.inl rfl)))
  -- the b child reference
  have hbshape := Repr_ref_shape hyr
  have hbx : (s.heap yid).link1 ≠ .node xid := by
    intro h
    rw [h] at hyr
    exact hxtb (Repr_node_mem hyr)
  have hby : (s.heap yid).link1 ≠ .node yid := by
    intro h
    rw [h] at hyr
    exact hytb (Repr_node_mem hyr)
  -- the parent reference
  have hprshape : pr = .leaf ∨ ∃ pid, pr = .node pid := by
    rcases Zip_pr_shape hz with ⟨h1, -⟩ | ⟨d, pid, red, sib, c', h1, -⟩
    · exact Or.inl h1
    · exact Or.inr ⟨pid, h1⟩
  have hprmem : ∀ pid, pr = .node pid → pid ∈ ctxIds c := by
    intro pid hpr
    rcases Zip_pr_shape hz with ⟨h1, -⟩ | ⟨d, pid', red, sib, c', h1, h2⟩
    · rw [h1] at hpr
      cases hpr
    · rw [h1] at hpr
      injection hpr with h3
      subst h3
      rw [h2, mem_ctxIds_cons]
      exact Or.inl rfl
  have hpru : ∀ j, j ∈ (T.node xid xc (T.node yid yc ta tb) tr).ids → pr ≠ .node j := by
    intro j hj hpr
    exact hUC j hj (hprmem j hpr)
  have hprx : pr ≠ .node xid := hpru xid (humem xid (Or.inl rfl))
  have hpry : pr ≠ .node yid := hpru yid (humem yid (Or.inr (Or.inl rfl)))
  have hprb : ∀ bid, (s.heap yid).link1 = .node bid → pr ≠ .node bid := by
    intro bid hb1
    rw [hb1] at hyr
    exact hpru bid (humem bid (Or.inr (Or.inr (Or.inr (Or.inl (Repr_node_mem hyr))))))
  have hbshape' : (s.heap yid).link1 = .leaf ∨ ∃ bid, (s.heap yid).link1 = .node bid := by
    rcases hbshape with h1 | ⟨bid, h1, -⟩
    · exact Or.inl h1
    · exact Or.inr ⟨bid, h1⟩
  obtain ⟨hhx, hhy, hhb, hhE, hhleaf, hhroot, hhpid⟩ :=
    rotate_true_heap s xid yid ((s.heap yid).link1) pr hx0 hxpar rfl hxy
      hbshape' hprshape hbx hby hprx hpry hprb
  have hbshape2 := hbshape'
  intro j
  by_cases hjx : j = xid
  · subst hjx
    rw [hhx]
    exact ⟨rfl, rfl⟩
  · by_cases hjy : j = yid
    · subst hjy
      rw [hhy]
      exact ⟨rfl, rfl⟩
    · have hbj : (s.heap yid).link1 ≠ Ref.node j ∨
          (rotate s (.node xid) true).heap j = { s.heap j with parent := Ref.node xid } := by
        rcases hbshape2 with hle | ⟨bid, hbe⟩
        · exact Or.inl (by rw [hle]; exact (fun hcon => nomatch hcon))
        · by_cases hjb : j = bid
          · subst hjb
            exact Or.inr (hhb j hbe)
          · exact Or.inl (by rw [hbe]; intro hcon; injection hcon with h2; exact hjb h2.symm)
      rcases hbj with hbj | hbj
      · have hpj : pr ≠ Ref.node j ∨
            ((rotate s (.node xid) true).heap j = { s.heap j with link0 := Ref.node yid } ∨
             (rotate s (.node xid) true).heap j = { s.heap j with link1 := Ref.node yid }) := by
          rcases hprshape with hple | ⟨pid, hpe⟩
          · exact Or.inl (by rw [hple]; exact (fun hcon => nomatch hcon))
          · by_cases hjp : j = pid
            · subst hjp
              obtain ⟨hp0, hp1, -⟩ := hhpid j hpe
              by_cases hl : (s.heap j).link0 = .node xid
              · exact Or.inr (Or.inl (hp0 hl))
              · exact Or.inr (Or.inr (hp1 hl))
            · exact Or.inl (by rw [hpe]; intro hcon; injection hcon with h2; exact hjp h2.symm)
        rcases hpj with hpj | hpj | hpj
        · rw [hhE j hjx hjy hbj hpj]
          exact ⟨rfl, rfl⟩
        · rw [hpj]
          exact ⟨rfl, rfl⟩
        · rw [hpj]
          exact ⟨rfl, rfl⟩
      · rw [hbj]
        exact ⟨rfl, rfl⟩

/-- mirror image of `rotate_true_pres`. -/
theorem rotate_false_pres (wd : Nat) (s : State α) (c : List Frame) (pr : Ref)
    (xid yid : Nat) (xc yc : Bool) (tl tb tc : T)
    (hz : Zip wd s c pr (.node xid))
    (hx : Repr wd s pr (.node xid) (.node xid xc tl (.node yid yc tb tc)))
    (hnd : (plug c (T.node xid xc tl (T.node yid yc tb tc))).ids.Nodup) :
    ∀ j, ((rotate s (.node xid) false).heap j).flags = (s.heap j).flags ∧
      ((rotate s (.node xid) false).heap j).ptr = (s.heap j).ptr := by
  obtain ⟨-, hxpar, hxc, hxl, hxr⟩ := Repr_node_inv hx
  obtain ⟨hx1, hypar, hyc, hyl, hyr⟩ := Repr_node_inv hxr
  obtain ⟨hU, hC, hUC⟩ := nodup_plug_parts _ _ hnd
  -- distinctness inside the rotated subtree
  have hU2 : (tl.ids ++ xid :: (tb.ids ++ yid :: tc.ids)).Nodup := by
    simpa [T.ids] using hU
  obtain ⟨htlnd, hrest, hdisj⟩ := List.nodup_append.mp hU2
  obtain ⟨hxnot, hrest2⟩ := List.nodup_cons.mp hrest
  obtain ⟨htbnd, hrest3, hdisj2⟩ := List.nodup_append.mp hrest2
  obtain ⟨hynot, htcnd⟩ := List.nodup_cons.mp hrest3
  have hxy : xid ≠ yid := fun h => hxnot (by simp [h])
  have hxtb : xid ∉ tb.ids := fun h => hxnot (List.mem_append.mpr (Or.inl h))
  have hxtc : xid ∉ tc.ids := fun h => hxnot (by simp [h])
  have hxtl : xid ∉ tl.ids := fun h => hdisj h (by simp)
  have hytl : yid ∉ tl.ids := fun h => hdisj h (by simp)
  have hytb : yid ∉ tb.ids := fun h => hdisj2 h (by simp)
  have hytc : yid ∉ tc.ids := hynot
  have htltb : ∀ j ∈ tb.ids, j ∉ tl.ids := fun j hj hl => hdisj hl (by simp [hj])
  have htbtc : ∀ j ∈ tb.ids, j ∉ tc.ids := fun j hj hc => hdisj2 hj (by simp [hc])
  -- membership of the subtree ids in the whole rotated subtree
  have humem : ∀ j, (j = xid ∨ j = yid ∨ j ∈ tl.ids ∨ j ∈ tb.ids ∨ j ∈ tc.ids) →
      j ∈ (T.node xid xc tl (T.node yid yc tb tc)).ids := by
    intro j hj
    simp only [T.ids, List.mem_append, List.mem_cons]
    tauto
  have hxctx : xid ∉ ctxIds c := hUC xid (humem xid (Or.inl rfl))
  have hyctx : yid ∉ ctxIds c := hUC yid (humem yid (Or.inr (Or.inl rfl)))
  -- the b child reference
  have hbshape := Repr_ref_shape hyl
  have hbx : (s.heap yid).link0 ≠ .node xid := by
    intro h
    rw [h] at hyl
    exact hxtb (Repr_node_mem hyl)
  have hby : (s.heap yid).link0 ≠ .node yid := by
    intro h
    rw [h] at hyl
    exact hytb (Repr_node_mem hyl)
  -- the parent reference
  have hprshape : pr = .leaf ∨ ∃ pid, pr = .node pid := by
    rcases Zip_pr_shape hz with ⟨h1, -⟩ | ⟨d, pid, red, sib, c', h1, -⟩
    · exact Or.inl h1
    · exact Or.inr ⟨pid, h1⟩
  have hprmem : ∀ pid, pr = .node pid → pid ∈ ctxIds c := by
    intro pid hpr
    rcases Zip_pr_shape hz with ⟨h1, -⟩ | ⟨d, pid', red, sib, c', h1, h2⟩
    · rw [h1] at hpr
      cases hpr
    · rw [h1] at hpr
      injection hpr with h3
      subst h3
      rw [h2, mem_ctxIds_cons]
      exact Or.inl rfl
  have hpru : ∀ j, j ∈ (T.node xid xc tl (T.node yid yc tb tc)).ids → pr ≠ .node j := by
    intro j hj hpr
    exact hUC j hj (hprmem j hpr)
  have hprx : pr ≠ .node xid := hpru xid (humem xid (Or.inl rfl))
  have hpry : pr ≠ .node yid := hpru yid (humem yid (Or.inr (Or.inl rfl)))
  have hprb : ∀ bid, (s.heap yid).link0 = .node bid → pr ≠ .node bid := by
    intro bid hb1
    rw [hb1] at hyl
    exact hpru bid (humem bid (Or.inr (Or.inr (Or.inr (Or.inl (Repr_node_mem hyl))))))
  have hbshape' : (s.heap yid).link0 = .leaf ∨ ∃ bid, (s.heap yid).link0 = .node bid := by
    rcases hbshape with h1 | ⟨bid, h1, -⟩
    · exact Or.inl h1
    · exact Or.inr ⟨bid, h1⟩
  obtain ⟨hhx, hhy, hhb, hhE, hhleaf, hhroot, hhpid⟩ :=
    rotate_false_heap s xid yid ((s.heap yid).link0) pr hx1 hxpar rfl hxy
      hbshape' hprshape hbx hby hprx hpry hprb
  have hbshape2 := hbshape'
  intro j
  by_cases hjx : j = xid
  · subst hjx
    rw [hhx]
    exact ⟨rfl, rfl⟩
  · by_cases hjy : j = yid
    · subst hjy
      rw [hhy]
      exact ⟨rfl, rfl⟩
    · have hbj : (s.heap yid).link0 ≠ Ref.node j ∨
          (rotate s (.node xid) false).heap j = { s.heap j with parent := Ref.node xid } := by
        rcases hbshape2 with hle | ⟨bid, hbe⟩
        · exact Or.inl (by rw [hle]; exact (fun hcon => nomatch hcon))
        · by_cases hjb : j = bid
          · subst hjb
            exact Or.inr (hhb j hbe)
          · exact Or.inl (by rw [hbe]; intro hcon; injection hcon with h2; exact hjb h2.symm)
      rcases hbj with hbj | hbj
      · have hpj : pr ≠ Ref.node j ∨
            ((rotate s (.node xid) false).heap j = { s.heap j with link0 := Ref.node yid } ∨
             (rotate s (.node xid) false).heap j = { s.heap j with link1 := Ref.node yid }) := by
          rcases hprshape with hple | ⟨pid, hpe⟩
          · exact Or.inl (by rw [hple]; exact (fun hcon => nomatch hcon))
          · by_cases hjp : j = pid
            · subst hjp
              obtain ⟨hp0, hp1, -⟩ := hhpid j hpe
              by_cases hl : (s.heap j).link0 = .node xid
              · exact Or.inr (Or.inl (hp0 hl))
              · exact Or.inr (Or.inr (hp1 hl))
            · exact Or.inl (by rw [hpe]; intro hcon; injection hcon with h2; exact hjp h2.symm)
        rcases hpj with hpj | hpj | hpj
        · rw [hhE j hjx hjy hbj hpj]
          exact ⟨rfl, rfl⟩
        · rw [hpj]
          exact ⟨rfl, rfl⟩
        · rw [hpj]
          exact ⟨rfl, rfl⟩
      · rw [hbj]
        exact ⟨rfl, rfl⟩

theorem alloc_loop_root (wd : Nat) :
    ∀ (count : Nat) (s : State α) (i : Nat),
      (alloc_loop wd s i count).root = s.root := by
  intro count
  induction count with
  | zero => intro s i; rfl
  | succ c ih => intro s i; rw [alloc_loop, ih]

theorem alloc_loop_leafN (wd : Nat) :
    ∀ (count : Nat) (s : State α) (i : Nat),
      (alloc_loop wd s i count).leafN = s.leafN := by
  intro count
  induction count with
  | zero => intro s i; rfl
  | succ c ih => intro s i; rw [alloc_loop, ih]

/-- the allocation loop body, fully characterized: old bodies and old slots
are untouched, each new slot `i + k` points at the fresh body
`nextId + k`, zeroed, black, indexed with its position. -/
theorem alloc_loop_effects (wd : Nat) :
    ∀ (count i : Nat) (s : State α),
      (alloc_loop wd s i count).nextId = s.nextId + count ∧
      (∀ j, j < s.nextId → (alloc_loop wd s i count).heap j = s.heap j) ∧
      (∀ p, p < i ∨ i + count ≤ p → (alloc_loop wd s i count).nodes p = s.nodes p) ∧
      (∀ k, k < count → (alloc_loop wd s i count).nodes (i + k) = s.nextId + k ∧
        (alloc_loop wd s i count).heap (s.nextId + k)
          = paint_black wd (set_node_index wd (zeroNode α) (i + k))) := by
  intro count
  induction count with
  | zero =>
    intro i s
    refine ⟨rfl, fun j _ => rfl, fun p _ => rfl, fun k hk => absurd hk (by omega)⟩
  | succ c ih =>
    intro i s
    rw [alloc_loop]
    obtain ⟨ih1, ih2, ih3, ih4⟩ := ih (i + 1)
      { s with
        nodes := upd s.nodes i s.nextId,
        heap := upd s.heap s.nextId (paint_black wd (set_node_index wd (zeroNode α) i)),
        nextId := s.nextId + 1 }
    dsimp only at ih1 ih2 ih3 ih4
    refine ⟨by rw [ih1]; omega, ?_, ?_, ?_⟩
    · intro j hj
      rw [ih2 j (by omega)]
      show upd s.heap s.nextId _ j = s.heap j
      unfold upd
      rw [if_neg (by omega)]
    · intro p hp
      rw [ih3 p (by omega)]
      show upd s.nodes i _ p = s.nodes p
      unfold upd
      rw [if_neg (by omega)]
    · intro k hk
      cases k with
      | zero =>
        constructor
        · refine Eq.trans (ih3 i (by omega)) ?_
          show upd s.nodes i s.nextId i = s.nextId + 0
          unfold upd
          rw [if_pos rfl]
          omega
        · refine Eq.trans (ih2 s.nextId (by omega)) ?_
          show upd s.heap s.nextId _ s.nextId = _
          unfold upd
          rw [if_pos rfl]
          rw [Nat.add_zero]
      | succ k2 =>
        obtain ⟨hn, hh⟩ := ih4 k2 (by omega)
        constructor
        · rw [show i + (k2 + 1) = i + 1 + k2 from by omega, hn]
          omega
        · rw [show s.nextId + (k2 + 1) = s.nextId + 1 + k2 from by omega, hh,
            show i + 1 + k2 = i + (k2 + 1) from by omega]

/-- `ptree_allocate_nodes`, fully characterized when the capacity does not
shrink through the modular truncation. -/
theorem allocate_nodes_effects (wd : Nat) (s : State α) (k : Nat) (s' : State α)
    (h : ptree_allocate_nodes wd s k = some s')
    (hge : s.allocated_nodes_num ≤ (s.allocated_nodes_num + k) % 2 ^ wd) :
    s'.nodes_num = s.nodes_num ∧ s'.root = s.root ∧ s'.leafN = s.leafN ∧
      s'.allocated_nodes_num = (s.allocated_nodes_num + k) % 2 ^ wd ∧
      s'.arenaLen = s'.allocated_nodes_num ∧
      s'.allocated_nodes_num ≤ maxNodes wd ∧
      s'.nextId = s.nextId + (s'.allocated_nodes_num - s.allocated_nodes_num) ∧
      (∀ j, j < s.nextId → s'.heap j = s.heap j) ∧
      (∀ p, p < s.allocated_nodes_num → s'.nodes p = s.nodes p) ∧
      (∀ p, s.allocated_nodes_num ≤ p → p < s'.allocated_nodes_num →
        s'.nodes p = s.nextId + (p - s.allocated_nodes_num) ∧
        s'.heap (s'.nodes p) = paint_black wd (set_node_index wd (zeroNode α) p)) := by
  unfold ptree_allocate_nodes at h
  dsimp only at h
  split at h
  · exact absurd h (by simp)
  · next hle =>
    injection h with h
    subst h
    set A := (s.allocated_nodes_num + k) % 2 ^ wd with hA
    set s1 := { s with arenaLen := A } with hs1
    obtain ⟨e1, e2, e3, e4⟩ :=
      alloc_loop_effects wd (A - s.allocated_nodes_num) s.allocated_nodes_num s1
    refine ⟨by simp [alloc_loop_nodes_num], by simp [alloc_loop_root],
      by simp [alloc_loop_leafN], rfl, by simp [alloc_loop_arenaLen],
      Nat.not_lt.mp (by simpa using hle), ?_, ?_, ?_, ?_⟩
    · show (alloc_loop wd s1 _ _).nextId = _
      rw [e1]
    · intro j hj
      exact e2 j hj
    · intro p hp
      exact e3 p (Or.inl hp)
    · intro p hp1 hp2
      have hp3 : p < A := hp2
      obtain ⟨f1, f2⟩ := e4 (p - s.allocated_nodes_num) (by omega)
      rw [show s.allocated_nodes_num + (p - s.allocated_nodes_num) = p from by omega] at f1 f2
      constructor
      · show (alloc_loop wd s1 _ _).nodes p = _
        rw [f1]
      · show (alloc_loop wd s1 _ _).heap ((alloc_loop wd s1 _ _).nodes p) = _
        rw [f1]
        exact f2

theorem range_map_congr (f g : Nat → Nat) (n : Nat) (h : ∀ i, i < n → f i = g i) :
    (List.range n).map f = (List.range n).map g := by
  induction n with
  | zero => rfl
  | succ m ih =>
    rw [List.range_succ, List.map_append, List.map_append,
      ih (fun i hi => h i (by omega))]
    simp [h m (by omega)]

/-- every id of the represented tree is an active slot. -/
theorem Inv_ids_active (s : State α) (t : T) (hI : Inv s t) (id : Nat)
    (hid : id ∈ t.ids) : ∃ i, i < s.nodes_num ∧ s.nodes i = id := by
  have hp := hI.2.2.2.1
  have := hp.mem_iff.mp hid
  simp only [List.mem_map, List.mem_range] at this
  obtain ⟨i, hi, he⟩ := this
  exact ⟨i, hi, he⟩

theorem Inv_ids_lt_nextId (s : State α) (t : T) (hI : Inv s t) (id : Nat)
    (hid : id ∈ t.ids) : id < s.nextId := by
  obtain ⟨i, hi, he⟩ := Inv_ids_active s t hI id hid
  have h3 := hI.2.2.1 i (lt_of_lt_of_le hi hI.2.2.2.2.1.2.1)
  rw [he] at h3
  exact h3.2.2

/-- the slot map is injective below the capacity. -/
theorem Inv_nodes_inj (s : State α) (t : T) (hI : Inv s t) (i j : Nat)
    (hi : i < s.allocated_nodes_num) (hj : j < s.allocated_nodes_num)
    (he : s.nodes i = s.nodes j) : i = j := by
  have hnd := hI.2.1
  exact List.inj_on_of_nodup_map hnd (List.mem_range.mpr hi) (List.mem_range.mpr hj) he

/-- growing the arena preserves the invariant and touches nothing live. -/
theorem Inv_allocate (s : State α) (t : T) (k : Nat) (s' : State α)
    (hI : Inv s t) (h : ptree_allocate_nodes 32 s k = some s')
    (hb : s.allocated_nodes_num + k < 2 ^ 32) :
    Inv s' t ∧ s'.root = s.root ∧ s'.leafN = s.leafN ∧
      s'.nodes_num = s.nodes_num ∧
      s.allocated_nodes_num ≤ s'.allocated_nodes_num ∧
      (∀ j, j < s.nextId → s'.heap j = s.heap j) ∧ s.nextId ≤ s'.nextId ∧
      (∀ p, p < s.allocated_nodes_num → s'.nodes p = s.nodes p) := by
  have hge : s.allocated_nodes_num ≤ (s.allocated_nodes_num + k) % 2 ^ 32 := by
    rw [Nat.mod_eq_of_lt hb]
    omega
  obtain ⟨e_nn, e_root, e_leaf, e_alloc, e_arena, e_max, e_next, e_hold, e_nold, e_new⟩ :=
    allocate_nodes_effects 32 s k s' h hge
  obtain ⟨hRepr, hnd, hsl, hperm, hA32, hlf, hll0, hll1⟩ := hI
  have halloc_le : s.allocated_nodes_num ≤ s'.allocated_nodes_num := by
    rw [e_alloc]; exact hge
  have hnext_le : s.nextId ≤ s'.nextId := by omega
  have hids_lt : ∀ id ∈ t.ids, id < s.nextId := fun id hid =>
    Inv_ids_lt_nextId s t ⟨hRepr, hnd, hsl, hperm, hA32, hlf, hll0, hll1⟩ id hid
  have hinj : ∀ i j, i < s.allocated_nodes_num → j < s.allocated_nodes_num →
      s.nodes i = s.nodes j → i = j := fun i j hi hj =>
    Inv_nodes_inj s t ⟨hRepr, hnd, hsl, hperm, hA32, hlf, hll0, hll1⟩ i j hi hj
  refine ⟨⟨?_, ?_, ?_, ?_, ?_, ?_, ?_, ?_⟩, e_root, e_leaf, e_nn, halloc_le,
    e_hold, hnext_le, e_nold⟩
  · rw [e_root]
    exact Repr_congr_heap 32 s s' hRepr fun j hj => e_hold j (hids_lt j hj)
  · have hinj2 : ∀ i ∈ List.range s'.allocated_nodes_num,
        ∀ j ∈ List.range s'.allocated_nodes_num, s'.nodes i = s'.nodes j → i = j := by
      intro i hi j hj he
      rw [List.mem_range] at hi hj
      by_cases h1 : i < s.allocated_nodes_num <;> by_cases h2 : j < s.allocated_nodes_num
      · exact hinj i j h1 h2 (by rw [← e_nold i h1, ← e_nold j h2, he])
      · exfalso
        have hv1 : s'.nodes i = s.nodes i := e_nold i h1
        have hv2 := (e_new j (by omega) hj).1
        have hlt : s.nodes i < s.nextId := (hsl i h1).2.2
        omega
      · exfalso
        have hv2 : s'.nodes j = s.nodes j := e_nold j h2
        have hv1 := (e_new i (by omega) hi).1
        have hlt : s.nodes j < s.nextId := (hsl j h2).2.2
        omega
      · have hv1 := (e_new i (by omega) hi).1
        have hv2 := (e_new j (by omega) hj).1
        omega
    exact List.Nodup.map_on hinj2 (List.nodup_range _)
  · intro i hi
    by_cases h1 : i < s.allocated_nodes_num
    · rw [e_nold i h1]
      obtain ⟨ha1, ha2, ha3⟩ := hsl i h1
      rw [e_hold _ ha3]
      exact ⟨ha1, ha2, by omega⟩
    · obtain ⟨hv, hh⟩ := e_new i (by omega) hi
      rw [hh]
      have hidx : get_node_index 32 (paint_black 32 (set_node_index 32 (zeroNode α) i)) = i := by
        rw [get_node_index_paint_black, get_node_index_set]
        show i < redFlag 32
        have : s'.allocated_nodes_num ≤ maxNodes 32 := e_max
        unfold maxNodes at this
        unfold redFlag
        omega
      have hflag : (paint_black 32 (set_node_index 32 (zeroNode α) i)).flags < 2 ^ 32 := by
        have h1 : (paint_black 32 (set_node_index 32 (zeroNode α) i)).flags
            ≤ (set_node_index 32 (zeroNode α) i).flags := Nat.and_le_left
        have h2 : (set_node_index 32 (zeroNode α) i).flags = i ||| 0 := by
          show i ||| ((zeroNode α).flags &&& redFlag 32) = i ||| 0
          norm_num [zeroNode]
        have : s'.allocated_nodes_num ≤ maxNodes 32 := e_max
        unfold maxNodes at this
        simp only [Nat.or_zero] at h2
        omega
      exact ⟨hidx, hflag, by omega⟩
  · rw [e_nn]
    have heq : (List.range s.nodes_num).map s'.nodes = (List.range s.nodes_num).map s.nodes := by
      refine range_map_congr _ _ _ fun i hi => ?_
      exact e_nold i (lt_of_lt_of_le hi hA32.2.1)
    rw [heq]
    exact hperm
  · refine ⟨e_arena, ?_, e_max⟩
    rw [e_nn]
    have h1 := hA32.2.1
    omega
  · rw [e_leaf]; exact hlf
  · rw [e_leaf]; exact hll0
  · rw [e_leaf]; exact hll1

/-- the optional growth step of `add_node` preserves the invariant. -/
theorem add_node_grow_inv (maxAuto : Nat) (s : State α) (t : T) (s' : State α)
    (hI : Inv s t) (h : add_node_grow 32 maxAuto s = some s') :
    Inv s' t ∧ s'.root = s.root ∧ s'.leafN = s.leafN ∧
      s'.nodes_num = s.nodes_num ∧
      s.allocated_nodes_num ≤ s'.allocated_nodes_num ∧
      (∀ j, j < s.nextId → s'.heap j = s.heap j) ∧ s.nextId ≤ s'.nextId ∧
      (∀ p, p < s.allocated_nodes_num → s'.nodes p = s.nodes p) := by
  unfold add_node_grow at h
  split at h
  · have hmax : s.allocated_nodes_num ≤ maxNodes 32 := hI.2.2.2.2.1.2.2
    have hm : maxNodes 32 = 2 ^ 31 - 1 := by norm_num [maxNodes]
    set k := if maxAuto != 0 && s.allocated_nodes_num > maxAuto then maxAuto
      else if s.allocated_nodes_num > 1 then s.allocated_nodes_num else 1 with hk
    have hkb : s.allocated_nodes_num + k < 2 ^ 32 := by
      rw [hk]
      split
      · next hcond =>
        simp only [Bool.and_eq_true, bne_iff_ne, ne_eq, decide_eq_true_eq] at hcond
        omega
      · split <;> omega
    exact Inv_allocate s t k s' hI h hkb
  · injection h with h
    subst h
    exact ⟨hI, rfl, rfl, rfl, le_refl _, fun j _ => rfl, le_refl _, fun p _ => rfl⟩

/-- `add_node` under the invariant: the old tree is untouched, the returned
slot is fresh, red, childless and parentless, and the arena bookkeeping
extends by exactly that slot. -/
theorem add_node_inv (maxAuto : Nat) (s : State α) (t : T) (p : α) (id : Nat)
    (s' : State α) (hI : Inv s t) (h : add_node 32 maxAuto s p = some (id, s')) :
    s'.root = s.root ∧ s'.leafN = s.leafN ∧
      s'.nodes_num = s.nodes_num + 1 ∧
      Repr 32 s' .leaf s'.root t ∧
      (∀ j, j < s.nextId → j ≠ id → s'.heap j = s.heap j) ∧
      id ∉ t.ids ∧
      is_red 32 (s'.heap id) = true ∧ (s'.heap id).link0 = .leaf ∧
      (s'.heap id).link1 = .leaf ∧ (s'.heap id).parent = .leaf ∧
      (s'.heap id).ptr = p ∧
      ArenaCore s' ∧
      (t.ids ++ [id]).Perm ((List.range s'.nodes_num).map s'.nodes) := by
  unfold add_node at h
  rw [optBind_eq_some] at h
  obtain ⟨s1, hgrow, h⟩ := h
  obtain ⟨hI1, g_root, g_leaf, g_nn, g_alloc, g_heap, g_next, g_nodes⟩ :=
    add_node_grow_inv maxAuto s t s1 hI hgrow
  dsimp only at h
  split at h
  · next hlt =>
    injection h with h
    injection h with hid hs'
    obtain ⟨hRepr1, hnd1, hsl1, hperm1, hA1, hlf1, hl01, hl11⟩ := hI1
    have harena : s1.arenaLen = s1.allocated_nodes_num := hA1.1
    have hposlt : s1.nodes_num < s1.allocated_nodes_num := by
      rw [← harena]; exact hlt
    obtain ⟨hidx_id, hflag_id, hid_lt⟩ := hsl1 s1.nodes_num hposlt
    have hfresh : s1.nodes s1.nodes_num ∉ t.ids := by
      intro hmem
      obtain ⟨i, hi, he⟩ := Inv_ids_active s1 t
        ⟨hRepr1, hnd1, hsl1, hperm1, hA1, hlf1, hl01, hl11⟩ _ hmem
      have := Inv_nodes_inj s1 t ⟨hRepr1, hnd1, hsl1, hperm1, hA1, hlf1, hl01, hl11⟩
        i s1.nodes_num (by omega) hposlt he
      omega
    subst hid
    subst hs'
    set idv := s1.nodes s1.nodes_num with hidv
    set s2 := { s1 with nodes_num := s1.nodes_num + 1 } with hs2
    set f : Node α → Node α := fun n =>
      { paint_red 32 (paint_black 32 { n with ptr := p }) with
        parent := .leaf, link0 := .leaf, link1 := .leaf } with hf
    have hheap : ∀ j, (modifyRef s2 (.node idv) f).heap j
        = if j = idv then f (s1.heap j) else s1.heap j := by
      intro j
      rw [heap_modifyRef]
      by_cases hj : j = idv
      · rw [if_pos (by rw [hj]), if_pos hj]
      · rw [if_neg (fun hc => hj (by injection hc with h2; exact h2.symm)), if_neg hj]
    have hfid : ∀ n : Node α, is_red 32 (f n) = true ∧ (f n).link0 = .leaf ∧
        (f n).link1 = .leaf ∧ (f n).parent = .leaf ∧ (f n).ptr = p := by
      intro n
      refine ⟨?_, rfl, rfl, rfl, rfl⟩
      show is_red 32 (paint_red 32 (paint_black 32 { n with ptr := p })) = true
      exact is_red_paint_red 32 _
    refine ⟨by simpa using g_root, by rw [leafN_modifyRef]; simpa using g_leaf,
      by simpa using g_nn, ?_, ?_, hfresh, ?_, ?_, ?_, ?_, ?_, ?_, ?_⟩
    · have hagree : ∀ j ∈ t.ids, (modifyRef s2 (.node idv) f).heap j = s1.heap j := by
        intro j hj
        rw [hheap]
        refine if_neg fun he => ?_
        exact hfresh (he.symm ▸ hj)
      have hcg := Repr_congr_heap 32 s1 (modifyRef s2 (.node idv) f) hRepr1 hagree
      have hrt : (modifyRef s2 (.node idv) f).root = s1.root := by
        rw [modifyRef_root, hs2]
      rw [hrt]
      exact hcg
    · intro j hj hjid
      rw [hheap, if_neg hjid]
      exact g_heap j hj
    · rw [hheap, if_pos rfl]
      exact (hfid _).1
    · rw [hheap, if_pos rfl]
    · rw [hheap, if_pos rfl]
    · rw [hheap, if_pos rfl]
    · rw [hheap, if_pos rfl]
      exact (hfid _).2.2.2.2
    · refine ⟨by simpa using hnd1, ?_, ?_, by rw [leafN_modifyRef]; simpa using hlf1,
        by rw [leafN_modifyRef]; simpa using hl01,
        by rw [leafN_modifyRef]; simpa using hl11⟩
      · intro i hi
        rw [modifyRef_allocated] at hi
        have hi2 : i < s1.allocated_nodes_num := hi
        obtain ⟨ha1, ha2, ha3⟩ := hsl1 i hi2
        rw [modifyRef_nodes, modifyRef_nextId]
        show get_node_index 32 ((modifyRef s2 (.node idv) f).heap (s1.nodes i)) = i ∧ _
        rw [hheap]
        by_cases hcase : s1.nodes i = idv
        · rw [if_pos hcase]
          have hieq : i = s1.nodes_num := by
            refine Inv_nodes_inj s1 t ⟨hRepr1, hnd1, hsl1, hperm1, hA1, hlf1, hl01, hl11⟩
              i s1.nodes_num hi2 hposlt ?_
            rw [hcase]
          refine ⟨?_, ?_, by show s1.nodes i < s1.nextId; omega⟩
          · show get_node_index 32 (f (s1.heap (s1.nodes i))) = i
            rw [hcase, hieq]
            show get_node_index 32
              (paint_red 32 (paint_black 32 { s1.heap idv with ptr := p })) = s1.nodes_num
            rw [get_node_index_paint_red, get_node_index_paint_black]
            exact hidx_id
          · show (f (s1.heap (s1.nodes i))).flags < 2 ^ 32
            rw [hcase]
            show (paint_red 32 (paint_black 32 { s1.heap idv with ptr := p })).flags < 2 ^ 32
            refine paint_red_flags_lt _ (lt_of_le_of_lt (paint_black_flags_le 32 _) ?_)
            show (s1.heap idv).flags < 2 ^ 32
            exact hflag_id
        · rw [if_neg hcase]
          exact ⟨ha1, ha2, by show s1.nodes i < s1.nextId; omega⟩
      · refine ⟨by simpa using harena, ?_, by simpa using hA1.2.2⟩
        show s2.nodes_num ≤ s2.allocated_nodes_num
        rw [hs2]
        dsimp only
        omega
    · show (t.ids ++ [idv]).Perm ((List.range (modifyRef s2 (.node idv) f).nodes_num).map
        (modifyRef s2 (.node idv) f).nodes)
      rw [modifyRef_nodes_num, modifyRef_nodes]
      show (t.ids ++ [idv]).Perm ((List.range (s1.nodes_num + 1)).map s1.nodes)
      rw [List.range_succ, List.map_append]
      exact hperm1.append (by simp [hidv])
  · exact absurd h (by simp)

theorem plugF_isRed (d : Bool) (id : Nat) (red : Bool) (sib u : T) :
    (plugF (.F d id red sib) u).isRed = red := by
  cases d <;> rfl

theorem plugF_blacken (d : Bool) (id : Nat) (red : Bool) (sib u : T) :
    (plugF (.F d id red sib) u).blacken = plugF (.F d id false sib) u := by
  cases d <;> rfl

theorem plugF_ids_congr (d : Bool) (id : Nat) (red red' : Bool) (sib sib' u v : T)
    (hu : u.ids = v.ids) (hs : sib.ids = sib'.ids) :
    (plugF (.F d id red sib) u).ids = (plugF (.F d id red' sib') v).ids := by
  cases d <;> simp [plugF, T.ids, hu, hs]

theorem noRR_plugF_mk (d : Bool) (id : Nat) (red : Bool) (sib u : T)
    (hc : red = true → u.isRed = false ∧ sib.isRed = false)
    (hu : noRR u) (hs : noRR sib) : noRR (plugF (.F d id red sib) u) :=
  (noRR_plugF_iff d id red sib u).mpr ⟨hc, hu, hs⟩

theorem bhOk_plugF_mk (d : Bool) (id : Nat) (red : Bool) (sib u : T) (m : Nat)
    (hu : bhOk u m) (hs : bhOk sib m) :
    bhOk (plugF (.F d id red sib) u) (m + (if red then 0 else 1)) :=
  (bhOk_plugF d id red sib u _).mpr ⟨m, hu, hs, rfl⟩

/-- build a representation through one frame. -/
theorem Repr_plugF (wd : Nat) (s : State α) (pr : Ref) (d : Bool) (id : Nat)
    (red : Bool) (sib u : T)
    (hpar : (s.heap id).parent = pr) (hcol : red = is_red wd (s.heap id))
    (hhole : Repr wd s (.node id) ((s.heap id).link d) u)
    (hsib : Repr wd s (.node id) ((s.heap id).link !d) sib) :
    Repr wd s pr (.node id) (plugF (.F d id red sib) u) := by
  rw [hcol]
  cases d with
  | false =>
    exact Repr.node pr id u sib hpar (by simpa [Node.link] using hhole)
      (by simpa [Node.link] using hsib)
  | true =>
    exact Repr.node pr id sib u hpar (by simpa [Node.link] using hsib)
      (by simpa [Node.link] using hhole)

/-- destructure a representation into one frame and the two children. -/
theorem Repr_plugF_inv (wd : Nat) (s : State α) (pr : Ref) (d : Bool) (id : Nat)
    (red : Bool) (sib u : T)
    (h : Repr wd s pr (.node id) (plugF (.F d id red sib) u)) :
    (s.heap id).parent = pr ∧ red = is_red wd (s.heap id) ∧
      Repr wd s (.node id) ((s.heap id).link d) u ∧
      Repr wd s (.node id) ((s.heap id).link !d) sib := by
  cases d with
  | false =>
    obtain ⟨-, hpar, hcol, hl, hr⟩ := Repr_node_inv h
    exact ⟨hpar, hcol, by simpa [Node.link] using hl, by simpa [Node.link] using hr⟩
  | true =>
    obtain ⟨-, hpar, hcol, hl, hr⟩ := Repr_node_inv h
    exact ⟨hpar, hcol, by simpa [Node.link] using hr, by simpa [Node.link] using hl⟩

theorem plugF_ids_assoc (d : Bool) (id yid : Nat) (c1 c2 c1' c2' : Bool)
    (r2 a b : T) :
    (plugF (.F (!d) id c1 r2) (plugF (.F d yid c2 a) b)).ids
      = (plugF (.F d yid c2' a) (plugF (.F (!d) id c1' r2) b)).ids := by
  cases d <;> simp [plugF, T.ids]

/-- the direction-generic single rotation, in frame form: the subtree
`plugF (.F (!dir) xid xc r2) (plugF (.F dir yid yc a) b)` (x keeping `r2` on
the `dir` side, rising child y keeping `a` away from it, `b` between)
becomes `plugF (.F dir yid yc a) (plugF (.F (!dir) xid xc r2) b)`. -/
theorem rotate_spec (dir : Bool) (wd : Nat) (s : State α) (c : List Frame)
    (pr : Ref) (xid yid : Nat) (xc yc : Bool) (r2 a b : T)
    (hz : Zip wd s c pr (.node xid))
    (hx : Repr wd s pr (.node xid) (plugF (.F (!dir) xid xc r2) (plugF (.F dir yid yc a) b)))
    (hnd : (plug c (plugF (.F (!dir) xid xc r2) (plugF (.F dir yid yc a) b))).ids.Nodup) :
    Zip wd (rotate s (.node xid) dir) c pr (.node yid) ∧
      Repr wd (rotate s (.node xid) dir) pr (.node yid)
        (plugF (.F dir yid yc a) (plugF (.F (!dir) xid xc r2) b)) ∧
      (rotate s (.node xid) dir).leafN = s.leafN ∧
      (∀ j, ((rotate s (.node xid) dir).heap j).flags = (s.heap j).flags ∧
        ((rotate s (.node xid) dir).heap j).ptr = (s.heap j).ptr) := by
  cases dir with
  | true =>
    have hx' : Repr wd s pr (.node xid) (.node xid xc (.node yid yc a b) r2) := hx
    have hnd' : (plug c (T.node xid xc (T.node yid yc a b) r2)).ids.Nodup := hnd
    obtain ⟨z1, z2, z3⟩ := rotate_true_spec wd s c pr xid yid xc yc a b r2 hz hx' hnd'
    exact ⟨z1, z2, z3, rotate_true_pres wd s c pr xid yid xc yc a b r2 hz hx' hnd'⟩
  | false =>
    have hx' : Repr wd s pr (.node xid) (.node xid xc r2 (.node yid yc b a)) := hx
    have hnd' : (plug c (T.node xid xc r2 (.node yid yc b a))).ids.Nodup := hnd
    obtain ⟨z1, z2, z3⟩ := rotate_false_spec wd s c pr xid yid xc yc r2 b a hz hx' hnd'
    exact ⟨z1, z2, z3, rotate_false_pres wd s c pr xid yid xc yc r2 b a hz hx' hnd'⟩

theorem noRR_node_iff (id : Nat) (red : Bool) (l r : T) :
    noRR (T.node id red l r) ↔
      (red = true → l.isRed = false ∧ r.isRed = false) ∧ noRR l ∧ noRR r := Iff.rfl

theorem bhOk_node_iff (id : Nat) (red : Bool) (l r : T) (n : Nat) :
    bhOk (T.node id red l r) n ↔
      ∃ m, bhOk l m ∧ bhOk r m ∧ n = m + (if red then 0 else 1) := Iff.rfl

theorem Repr_parent {wd : Nat} {s : State α} {pr : Ref} {id : Nat} {t : T}
    (h : Repr wd s pr (.node id) t) : (s.heap id).parent = pr := by
  cases h with
  | node pr id tl tr hpar hl hr => exact hpar

theorem is_red_flags_zero (wd : Nat) (n : Node α) (h : n.flags = 0) :
    is_red wd n = false := by
  simp [is_red, h]

theorem plugF_mem (j : Nat) (d : Bool) (id : Nat) (red : Bool) (sib u : T) :
    j ∈ (plugF (.F d id red sib) u).ids ↔ j = id ∨ j ∈ u.ids ∨ j ∈ sib.ids := by
  cases d <;> simp [plugF, T.ids] <;> tauto

theorem plugF_nodup_parts (d : Bool) (id : Nat) (red : Bool) (sib u : T)
    (h : (plugF (.F d id red sib) u).ids.Nodup) :
    u.ids.Nodup ∧ sib.ids.Nodup ∧ id ∉ u.ids ∧ id ∉ sib.ids ∧
      ∀ j ∈ u.ids, j ∉ sib.ids := by
  cases d with
  | false =>
    simp only [plugF, T.ids, List.nodup_append, List.nodup_cons, List.mem_append,
      List.mem_cons, List.Disjoint] at h
    obtain ⟨hu, ⟨hidsib, hsib⟩, hdisj⟩ := h
    refine ⟨hu, hsib, ?_, hidsib, ?_⟩
    · intro hmem
      exact hdisj hmem (Or.inl rfl)
    · intro j hj hjs
      exact hdisj hj (Or.inr hjs)
  | true =>
    simp only [plugF, T.ids, List.nodup_append, List.nodup_cons, List.mem_append,
      List.mem_cons, List.Disjoint] at h
    obtain ⟨hsib, ⟨hidu, hu⟩, hdisj⟩ := h
    refine ⟨hu, hsib, hidu, ?_, ?_⟩
    · intro hmem
      exact hdisj hmem (Or.inl rfl)
    · intro j hj hjs
      exact hdisj hjs (Or.inr hj)

theorem node_as_plugF (d : Bool) (id : Nat) (red : Bool) (l r : T) :
    T.node id red l r
      = plugF (.F d id red (if d then l else r)) (if d then r else l) := by
  cases d <;> rfl

/-- `plug` with one more frame, definitionally. -/
theorem plug_cons (f : Frame) (c : List Frame) (u : T) :
    plug (f :: c) u = plug c (plugF f u) := rfl

theorem heap_modify_node (s : State α) (id : Nat) (f : Node α → Node α) (j : Nat) :
    (modifyRef s (.node id) f).heap j = if j = id then f (s.heap j) else s.heap j := by
  rw [heap_modifyRef]
  by_cases hj : j = id
  · rw [if_pos (by rw [hj]), if_pos hj]
  · rw [if_neg (fun hc => hj (by injection hc with h2; exact h2.symm)), if_neg hj]

theorem paint_red_link (wd : Nat) (n : Node α) (d : Bool) :
    (paint_red wd n).link d = n.link d := by
  cases d <;> rfl

theorem paint_black_link (wd : Nat) (n : Node α) (d : Bool) :
    (paint_black wd n).link d = n.link d := by
  cases d <;> rfl

theorem copy_color_link (wd : Nat) (dst src : Node α) (d : Bool) :
    (copy_color wd dst src).link d = dst.link d := by
  unfold copy_color
  split <;> cases d <;> rfl

@[simp]
theorem rotate_nextId (s : State α) (x : Ref) (d : Bool) :
    (rotate s x d).nextId = s.nextId := by
  unfold rotate
  dsimp only
  split_ifs <;> simp

theorem Repr_plugF_ref (wd : Nat) (s : State α) (pr r : Ref) (d : Bool) (id : Nat)
    (red : Bool) (sib u : T)
    (h : Repr wd s pr r (plugF (.F d id red sib) u)) : r = .node id := by
  cases d
  · exact (Repr_node_inv h).1
  · exact (Repr_node_inv h).1

theorem plugF_flip_ids (d : Bool) (id : Nat) (red red' : Bool) (sib u : T) :
    (plugF (.F (!d) id red sib) u).ids = (plugF (.F d id red' u) sib).ids := by
  cases d <;> rfl

/-- loop invariant of the insert rebalancing: the focus is a red node in a
context whose only possible red-red violation is the edge into the focus,
black-heights are uniform, the root is black unless the focus is the root,
and the ids and arena bookkeeping are intact. -/
def InsFix (s : State α) (xid : Nat) : Prop :=
  ∃ c t pr, Zip 32 s c pr (.node xid) ∧ Repr 32 s pr (.node xid) t ∧
    t.isRed = true ∧ noRR t ∧ noRR (plug c t.blacken) ∧
    (∃ n, bhOk (plug c t) n) ∧
    (c = [] ∨ (plug c t).isRed = false) ∧
    (plug c t).ids.Nodup ∧
    (plug c t).ids.Perm ((List.range s.nodes_num).map s.nodes) ∧
    ArenaCore s

/-- what the loop leaves behind: a representable tree that satisfies all the
red-black conditions once its root is repainted black, over intact
bookkeeping. -/
def PostFix (s : State α) : Prop :=
  ∃ P, Repr 32 s .leaf s.root P ∧ noRR P.blacken ∧ (∃ n, bhOk P n) ∧
    P.ids.Nodup ∧ P.ids.Perm ((List.range s.nodes_num).map s.nodes) ∧
    ArenaCore s

theorem insert_fixup_post :
    ∀ (fuel : Nat) (s : State α) (xid : Nat) (s' : State α),
      insert_fixup 32 s (.node xid) fuel = some s' → InsFix s xid → PostFix s' := by
  intro fuel
  induction fuel with
  | zero =>
    intro s xid s' h _
    exact absurd h (by simp [insert_fixup])
  | succ fuel ih =>
    intro s xid s' h hInv
    obtain ⟨c, t, pr, hz, hx, htred, hnoRR, halmost, hbh, hroot, hnd, hperm, hac⟩ := hInv
    have hpar : (s.heap xid).parent = pr := Repr_parent hx
    rw [insert_fixup] at h
    dsimp only at h
    split at h
    · next hcond =>
      obtain ⟨hne, hpred⟩ := Bool.and_eq_true_iff.mp hcond
      rcases c with _ | ⟨⟨d, p, redp, sibp⟩, c'⟩
      · exfalso
        obtain ⟨-, hfoc0⟩ := Zip_nil_inv hz
        rw [hfoc0] at hne
        simp at hne
      obtain ⟨hpr1, hred, hfoc, hz2, hsibp⟩ := Zip_cons_inv hz
      subst hpr1
      have hpred2 : is_red 32 (s.heap p) = true := by
        rw [show getN s (Ref.node xid) = s.heap xid from rfl, hpar] at hpred
        exact hpred
      have hredp : redp = true := by rw [hred, hpred2]
      have hrootb : (plug (Frame.F d p redp sibp :: c') t).isRed = false := by
        rcases hroot with h0 | h0
        · exact absurd h0 (by simp)
        · exact h0
      rcases c' with _ | ⟨⟨d2, g, redg, sibg⟩, c''⟩
      · exfalso
        have h1 : (plugF (.F d p redp sibp) t).isRed = false := hrootb
        rw [plugF_isRed, hredp] at h1
        exact absurd h1 (by simp)
      obtain ⟨hpr2, hredg_def, hfoc2, hz3, hsibg⟩ := Zip_cons_inv hz2
      -- distinctness bookkeeping
      have hnd2 : (plug c'' (plugF (.F d2 g redg sibg)
          (plugF (.F d p redp sibp) t))).ids.Nodup := hnd
      obtain ⟨hUin2, hCids, hUCc⟩ := nodup_plug_parts _ _ hnd2
      obtain ⟨hIN1nd, hsibgnd, hgIN1, hgsibg, hdisj2⟩ :=
        plugF_nodup_parts d2 g redg sibg _ hUin2
      obtain ⟨htnd, hsibpnd, hpt, hpsibp, hdisj1⟩ :=
        plugF_nodup_parts d p redp sibp t hIN1nd
      have hxid_t : xid ∈ t.ids := Repr_node_mem hx
      have hp_IN1 : p ∈ (plugF (.F d p redp sibp) t).ids :=
        (plugF_mem p d p redp sibp t).mpr (Or.inl rfl)
      have hxid_IN1 : xid ∈ (plugF (.F d p redp sibp) t).ids :=
        (plugF_mem xid d p redp sibp t).mpr (Or.inr (Or.inl hxid_t))
      have hpg : p ≠ g := fun he => hgIN1 (he ▸ hp_IN1)
      have hxg : xid ≠ g := fun he => hgIN1 (he ▸ hxid_IN1)
      have hxp : xid ≠ p := fun he => hpt (he ▸ hxid_t)
      have hpsibg : p ∉ sibg.ids := fun hm => hdisj2 p hp_IN1 hm
      have hxsibg : xid ∉ sibg.ids := fun hm => hdisj2 xid hxid_IN1 hm
      have hxsibp : xid ∉ sibp.ids := fun hm => hdisj1 xid hxid_t hm
      -- the grandparent is black
      have halmost2 : noRR (plug c'' (plugF (.F d2 g redg sibg)
          (plugF (.F d p redp sibp) t.blacken))) := halmost
      have hNin2 := noRR_plug_down c'' _ halmost2
      obtain ⟨hcg, hNin1b, hNsibg⟩ := (noRR_plugF_iff _ _ _ _ _).mp hNin2
      obtain ⟨hcp, hNtb, hNsibp⟩ := (noRR_plugF_iff _ _ _ _ _).mp hNin1b
      have hredg : redg = false := by
        cases hrg : redg
        · rfl
        · exfalso
          have h1 := (hcg (by rw [hrg])).1
          rw [plugF_isRed, hredp] at h1
          exact absurd h1 (by simp)
      have hsibp_black : sibp.isRed = false := (hcp (by rw [hredp])).2
      -- black heights
      obtain ⟨n, hbhn⟩ := hbh
      have hbhn2 : bhOk (plug c'' (plugF (.F d2 g redg sibg)
          (plugF (.F d p redp sibp) t))) n := hbhn
      obtain ⟨m2, hbm2, hbC⟩ := (bhOk_plug c'' _ n).mp hbhn2
      obtain ⟨k1, hbIN1, hbsibg, hm2e⟩ := (bhOk_plugF _ _ _ _ _ _).mp hbm2
      obtain ⟨a, hbt, hbsibp, hk1e⟩ := (bhOk_plugF _ _ _ _ _ _).mp hbIN1
      have hk1a : k1 = a := by rw [hk1e, hredp]; simp
      have hm2a : m2 = a + 1 := by rw [hm2e, hredg, hk1a]; simp
      -- the direction of the parent under the grandparent
      have hlefty : is_child s (Ref.node p) false = !d2 := by
        show ((getN s (getN s (Ref.node p)).parent).link false == Ref.node p) = !d2
        rw [show getN s (Ref.node p) = s.heap p from rfl, hpr2,
          show getN s (Ref.node g) = s.heap g from rfl]
        cases d2 with
        | false =>
          rw [← hfoc2]
          simp
        | true =>
          rcases Repr_ref_shape hsibg with hsh | ⟨w, hsh, hw⟩
          · rw [show (s.heap g).link false = (s.heap g).link !true from rfl, hsh]
            simp
          · rw [show (s.heap g).link false = (s.heap g).link !true from rfl, hsh]
            have hwp : w ≠ p := fun he => hpsibg (he ▸ hw)
            simp [hwp]
      rw [show getN s (Ref.node xid) = s.heap xid from rfl, hpar,
        show getN s (Ref.node p) = s.heap p from rfl, hpr2,
        show getN s (Ref.node g) = s.heap g from rfl, hlefty] at h
      split at h
      · next huncle =>
        -- case 1: the uncle is red — paint parent and uncle black,
        -- grandparent red, and ascend two levels
        rcases sibg with _ | ⟨u, uc, ul, ur⟩
        · exfalso
          rw [Repr_nil_inv hsibg, show getN s Ref.leaf = s.leafN from rfl,
            is_red_flags_zero 32 s.leafN hac.2.2.2.1] at huncle
          exact absurd huncle (by simp)
        obtain ⟨huref, hupar, hucol, hulr, hurr⟩ := Repr_node_inv hsibg
        have hu_sibg : u ∈ (T.node u uc ul ur).ids := by simp [T.ids]
        have hup : u ≠ p := fun he => hpsibg (by rw [← he]; exact hu_sibg)
        have hux : u ≠ xid := fun he => hxsibg (by rw [← he]; exact hu_sibg)
        have hug : u ≠ g := fun he => hgsibg (by rw [← he]; exact hu_sibg)
        have hucol_t : uc = true := by
          rw [huref] at huncle
          rw [hucol]
          exact huncle
        rw [huref] at h
        set s1 := modifyRef s (Ref.node p) (paint_black 32) with hs1
        set s2 := modifyRef s1 (Ref.node u) (paint_black 32) with hs2
        have e3 : getN s2 (Ref.node xid) = s.heap xid := by
          show s2.heap xid = s.heap xid
          rw [hs2, heap_modify_node, if_neg (Ne.symm hux), hs1, heap_modify_node,
            if_neg hxp]
        rw [e3, hpar] at h
        have e4 : getN s2 (Ref.node p) = paint_black 32 (s.heap p) := by
          show s2.heap p = _
          rw [hs2, heap_modify_node, if_neg (Ne.symm hup), hs1, heap_modify_node,
            if_pos rfl]
        rw [e4, paint_black_parent, hpr2] at h
        set s3 := modifyRef s2 (Ref.node g) (paint_red 32) with hs3
        have h3g : s3.heap g = paint_red 32 (s.heap g) := by
          rw [hs3, heap_modify_node, if_pos rfl, hs2, heap_modify_node,
            if_neg (Ne.symm hug), hs1, heap_modify_node, if_neg (Ne.symm hpg)]
        have h3p : s3.heap p = paint_black 32 (s.heap p) := by
          rw [hs3, heap_modify_node, if_neg hpg, hs2, heap_modify_node,
            if_neg (Ne.symm hup), hs1, heap_modify_node, if_pos rfl]
        have h3u : s3.heap u = paint_black 32 (s.heap u) := by
          rw [hs3, heap_modify_node, if_neg hug, hs2, heap_modify_node, if_pos rfl,
            hs1, heap_modify_node, if_neg hup]
        have h3E : ∀ j, j ≠ p → j ≠ u → j ≠ g → s3.heap j = s.heap j := by
          intro j hjp hju hjg
          rw [hs3, heap_modify_node, if_neg hjg, hs2, heap_modify_node, if_neg hju,
            hs1, heap_modify_node, if_neg hjp]
        have hp_IN2 : p ∈ (plugF (.F d2 g redg (T.node u uc ul ur))
            (plugF (.F d p redp sibp) t)).ids :=
          (plugF_mem _ _ _ _ _ _).mpr (Or.inr (Or.inl hp_IN1))
        have hg_IN2 : g ∈ (plugF (.F d2 g redg (T.node u uc ul ur))
            (plugF (.F d p redp sibp) t)).ids :=
          (plugF_mem _ _ _ _ _ _).mpr (Or.inl rfl)
        have hu_IN2 : u ∈ (plugF (.F d2 g redg (T.node u uc ul ur))
            (plugF (.F d p redp sibp) t)).ids :=
          (plugF_mem _ _ _ _ _ _).mpr (Or.inr (Or.inr hu_sibg))
        have hpctx : p ∉ ctxIds c'' := hUCc p hp_IN2
        have hgctx : g ∉ ctxIds c'' := hUCc g hg_IN2
        have huctx : u ∉ ctxIds c'' := hUCc u hu_IN2
        have hzipA := Zip_paint_out 32 s p (paint_black 32) hz3 hpctx
        rw [← hs1] at hzipA
        have hzipB := Zip_paint_out 32 s1 u (paint_black 32) hzipA huctx
        rw [← hs2] at hzipB
        have hzipC := Zip_paint_out 32 s2 g (paint_red 32) hzipB hgctx
        rw [← hs3] at hzipC
        have hag_t : ∀ j ∈ t.ids, s3.heap j = s.heap j := by
          intro j hj
          have hjIN1 : j ∈ (plugF (.F d p redp sibp) t).ids :=
            (plugF_mem _ _ _ _ _ _).mpr (Or.inr (Or.inl hj))
          refine h3E j (fun he => hpt (by rw [← he]; exact hj))
            (fun he => hdisj2 j hjIN1 (by rw [he]; exact hu_sibg))
            (fun he => hgIN1 (by rw [← he]; exact hjIN1))
        have hag_sibp : ∀ j ∈ sibp.ids, s3.heap j = s.heap j := by
          intro j hj
          have hjIN1 : j ∈ (plugF (.F d p redp sibp) t).ids :=
            (plugF_mem _ _ _ _ _ _).mpr (Or.inr (Or.inr hj))
          refine h3E j (fun he => hpsibp (by rw [← he]; exact hj))
            (fun he => hdisj2 j hjIN1 (by rw [he]; exact hu_sibg))
            (fun he => hgIN1 (by rw [← he]; exact hjIN1))
        obtain ⟨hulnd2, hurnd2, hu_ul, hu_ur, hdisj_ul_ur⟩ :=
          plugF_nodup_parts false u uc ur ul hsibgnd
        have hag_ul : ∀ j ∈ ul.ids, s3.heap j = s.heap j := by
          intro j hj
          have hjsibg : j ∈ (T.node u uc ul ur).ids := by simp [T.ids, hj]
          refine h3E j (fun he => hpsibg (by rw [← he]; exact hjsibg))
            (fun he => hu_ul (by rw [← he]; exact hj))
            (fun he => hgsibg (by rw [← he]; exact hjsibg))
        have hag_ur : ∀ j ∈ ur.ids, s3.heap j = s.heap j := by
          intro j hj
          have hjsibg : j ∈ (T.node u uc ul ur).ids := by simp [T.ids, hj]
          refine h3E j (fun he => hpsibg (by rw [← he]; exact hjsibg))
            (fun he => hu_ur (by rw [← he]; exact hj))
            (fun he => hgsibg (by rw [← he]; exact hjsibg))
        have hrepr3 : Repr 32 s3 ((s.heap g).parent) (.node g)
            (plugF (.F d2 g true (T.node u false ul ur)) (plugF (.F d p false sibp) t)) := by
          refine Repr_plugF 32 s3 _ d2 g true _ _ ?_ ?_ ?_ ?_
          · rw [h3g, paint_red_parent]
          · rw [h3g, is_red_paint_red]
          · have hl : (s3.heap g).link d2 = Ref.node p := by
              rw [h3g, paint_red_link, ← hfoc2]
            rw [hl]
            refine Repr_plugF 32 s3 _ d p false sibp t ?_ ?_ ?_ ?_
            · rw [h3p, paint_black_parent, hpr2]
            · rw [h3p, is_red_paint_black]
            · have hl2 : (s3.heap p).link d = Ref.node xid := by
                rw [h3p, paint_black_link, ← hfoc]
              rw [hl2]
              exact Repr_congr_heap 32 s s3 hx hag_t
            · have hl3 : (s3.heap p).link (!d) = (s.heap p).link (!d) := by
                rw [h3p, paint_black_link]
              rw [hl3]
              exact Repr_congr_heap 32 s s3 hsibp hag_sibp
          · have hl4 : (s3.heap g).link (!d2) = Ref.node u := by
              rw [h3g, paint_red_link, huref]
            rw [hl4]
            have hcu : (false : Bool) = is_red 32 (s3.heap u) := by
              rw [h3u, is_red_paint_black]
            rw [hcu]
            refine Repr.node _ u ul ur ?_ ?_ ?_
            · rw [h3u, paint_black_parent, hupar]
            · rw [h3u, paint_black_link0]
              exact Repr_congr_heap 32 s s3 hulr hag_ul
            · rw [h3u, paint_black_link1]
              exact Repr_congr_heap 32 s s3 hurr hag_ur
        have hN_unew : noRR (T.node u false ul ur) := by
          obtain ⟨-, hNul, hNur⟩ := (noRR_node_iff u uc ul ur).mp hNsibg
          exact (noRR_node_iff u false ul ur).mpr
            ⟨(fun hcx => absurd hcx (by simp)), hNul, hNur⟩
        have hN_hole : noRR (plugF (.F d p false sibp) t) :=
          noRR_plugF_mk d p false sibp t (fun hcx => absurd hcx (by simp)) hnoRR hNsibp
        have hN_new : noRR (plugF (.F d2 g true (T.node u false ul ur))
            (plugF (.F d p false sibp) t)) := by
          refine noRR_plugF_mk d2 g true _ _ ?_ hN_hole hN_unew
          intro _
          exact ⟨by rw [plugF_isRed], rfl⟩
        have halmost_new : noRR (plug c'' ((plugF (.F d2 g true (T.node u false ul ur))
            (plugF (.F d p false sibp) t)).blacken)) := by
          rw [plugF_blacken]
          refine noRR_plug_replace c'' _ _ halmost2 ?_ ?_
          · exact noRR_plugF_mk d2 g false _ _ (fun hcx => absurd hcx (by simp))
              hN_hole hN_unew
          · rw [plugF_isRed]
            intro hcx
            exact absurd hcx (by simp)
        obtain ⟨m3, hbul, hbur, hk13⟩ := (bhOk_node_iff u uc ul ur k1).mp hbsibg
        have hm3a : m3 = a := by
          rw [hucol_t] at hk13
          simp at hk13
          omega
        have hb_unew : bhOk (T.node u false ul ur) (a + 1) :=
          (bhOk_node_iff u false ul ur (a + 1)).mpr
            ⟨a, hm3a ▸ hbul, hm3a ▸ hbur, by simp⟩
        have hb_hole : bhOk (plugF (.F d p false sibp) t) (a + 1) := by
          have h2 := bhOk_plugF_mk d p false sibp t a hbt hbsibp
          simpa using h2
        have hb_new : bhOk (plug c'' (plugF (.F d2 g true (T.node u false ul ur))
            (plugF (.F d p false sibp) t))) n := by
          refine (bhOk_plug c'' _ n).mpr ⟨a + 1, ?_, ?_⟩
          · have h2 := bhOk_plugF_mk d2 g true _ _ (a + 1) hb_hole hb_unew
            simpa using h2
          · rw [← hm2a]
            exact hbC
        have hidseq : (plugF (.F d2 g true (T.node u false ul ur))
              (plugF (.F d p false sibp) t)).ids
            = (plugF (.F d2 g redg (T.node u uc ul ur))
              (plugF (.F d p redp sibp) t)).ids := by
          refine plugF_ids_congr d2 g true redg _ _ _ _ ?_ (by simp [T.ids])
          exact plugF_ids_congr d p false redp sibp sibp t t rfl rfl
        have hplugeq : (plug c'' (plugF (.F d2 g true (T.node u false ul ur))
              (plugF (.F d p false sibp) t))).ids
            = (plug c'' (plugF (.F d2 g redg (T.node u uc ul ur))
              (plugF (.F d p redp sibp) t))).ids := plug_ids_congr c'' _ _ hidseq
        have hroot_new : c'' = [] ∨ (plug c'' (plugF (.F d2 g true (T.node u false ul ur))
            (plugF (.F d p false sibp) t))).isRed = false := by
          rcases c'' with _ | ⟨f3, c3⟩
          · exact Or.inl rfl
          · refine Or.inr ?_
            rw [plug_isRed_congr (f3 :: c3) _ (plugF (.F d2 g redg (T.node u uc ul ur))
              (plugF (.F d p redp sibp) t)) (by simp)]
            exact hrootb
        have hnd_new : (plug c'' (plugF (.F d2 g true (T.node u false ul ur))
            (plugF (.F d p false sibp) t))).ids.Nodup := by
          rw [hplugeq]
          exact hnd2
        have hcounters : s3.nodes_num = s.nodes_num ∧ s3.nodes = s.nodes := by
          rw [hs3, hs2, hs1]
          simp
        have hperm_new : (plug c'' (plugF (.F d2 g true (T.node u false ul ur))
            (plugF (.F d p false sibp) t))).ids.Perm
            ((List.range s3.nodes_num).map s3.nodes) := by
          rw [hplugeq, hcounters.1, hcounters.2]
          exact hperm
        have hac_new : ArenaCore s3 := by
          rw [hs3]
          refine ArenaCore_paint_red _ g ?_
          rw [hs2]
          refine ArenaCore_paint_black _ (.node u) ?_
          rw [hs1]
          exact ArenaCore_paint_black _ (.node p) hac
        exact ih s3 g s' h ⟨c'', plugF (.F d2 g true (T.node u false ul ur))
          (plugF (.F d p false sibp) t), (s.heap g).parent, hzipC, hrepr3,
          by rw [plugF_isRed], hN_new, halmost_new, ⟨n, hb_new⟩, hroot_new,
          hnd_new, hperm_new, hac_new⟩
      · next huncle =>
        -- case 2: the uncle is black — rotate (twice when the focus is an
        -- inner child) and recolor; the loop then terminates
        have hsibg_black : sibg.isRed = false := by
          rcases hsg : sibg with _ | ⟨u, uc, ul, ur⟩
          · rfl
          · rw [hsg] at hsibg
            obtain ⟨huref, -, hucol, -, -⟩ := Repr_node_inv hsibg
            rw [huref] at huncle
            show uc = false
            rw [hucol]
            exact Bool.eq_false_iff.mpr huncle
        rcases t with _ | ⟨xid2, xcol, tl, trr⟩
        · exact absurd htred (by simp [T.isRed])
        obtain ⟨hxx, -, hxcol, htlr, htrr2⟩ := Repr_node_inv hx
        injection hxx with hxx2
        subst hxx2
        have hxcol_t : xcol = true := htred
        subst hxcol_t
        have htl_black : tl.isRed = false := (hnoRR.1 rfl).1
        have htr_black : trr.isRed = false := (hnoRR.1 rfl).2
        have hNtl : noRR tl := hnoRR.2.1
        have hNtrr : noRR trr := hnoRR.2.2
        obtain ⟨mB, hbtl, hbtrr, haB⟩ := (bhOk_node_iff xid true tl trr a).mp hbt
        have hmBa : mB = a := by simp at haB; omega
        rw [Bool.not_not] at h
        have hic0 : is_child s (Ref.node xid) (!d2)
            = ((s.heap p).link (!d2) == Ref.node xid) := by
          show ((getN s (getN s (Ref.node xid)).parent).link (!d2) == Ref.node xid) = _
          rw [show getN s (Ref.node xid) = s.heap xid from rfl, hpar,
            show getN s (Ref.node p) = s.heap p from rfl]
        split at h
        · -- inner child: pre-rotate at the parent, then handle as outer
          next hic =>
          rw [hic0] at hic
          have hd : d = !d2 := by
            by_cases hdd : d = !d2
            · exact hdd
            · exfalso
              have hd2 : d = d2 := by
                cases d <;> cases d2 <;> first | rfl | exact absurd (by decide) hdd
              rw [← hd2] at hic
              rcases Repr_ref_shape hsibp with hsh | ⟨w, hsh, hw⟩
              · rw [hsh] at hic
                simp at hic
              · rw [hsh] at hic
                have hwx : w ≠ xid := fun he => hxsibp (by rw [← he]; exact hw)
                simp [hwx] at hic
          subst hd
          dsimp only at h
          set AA := if d2 = true then tl else trr with hAAdef
          set BB := if d2 = true then trr else tl with hBBdef
          have hsplit : T.node xid true tl trr = plugF (.F d2 xid true AA) BB := by
            rw [hAAdef, hBBdef]
            cases d2 <;> rfl
          have hAAblack : AA.isRed = false := by
            rw [hAAdef]
            cases d2 <;> simp [htl_black, htr_black]
          have hBBblack : BB.isRed = false := by
            rw [hBBdef]
            cases d2 <;> simp [htl_black, htr_black]
          have hNAA : noRR AA := by
            rw [hAAdef]
            cases d2 <;> simp [hNtl, hNtrr]
          have hNBB : noRR BB := by
            rw [hBBdef]
            cases d2 <;> simp [hNtl, hNtrr]
          have hbAA : bhOk AA a := by
            rw [hAAdef]
            cases d2 <;> simp <;> [exact hmBa ▸ hbtrr; exact hmBa ▸ hbtl]
          have hbBB : bhOk BB a := by
            rw [hBBdef]
            cases d2 <;> simp <;> [exact hmBa ▸ hbtl; exact hmBa ▸ hbtrr]
          obtain ⟨htlnd, htrrnd, hxtl, hxtrr, hdisjtltr⟩ :=
            plugF_nodup_parts false xid true trr tl htnd
          have hxAA : xid ∉ AA.ids := by
            rw [hAAdef]
            cases d2 <;> simp [hxtl, hxtrr]
          have hxBB : xid ∉ BB.ids := by
            rw [hBBdef]
            cases d2 <;> simp [hxtl, hxtrr]
          have hxarg1 : Repr 32 s ((s.heap p).parent) (.node p)
              (plugF (.F (!d2) p redp sibp) (plugF (.F d2 xid true AA) BB)) := by
            refine Repr_plugF 32 s _ (!d2) p redp _ _ rfl hred ?_ ?_
            · rw [← hfoc, ← hsplit]
              exact hx
            · exact hsibp
          have hnda : (plug (Frame.F d2 g redg sibg :: c'')
              (plugF (.F (!d2) p redp sibp)
                (plugF (.F d2 xid true AA) BB))).ids.Nodup := by
            rw [← hsplit]
            exact hnd
          obtain ⟨hzR1, hreprR1, hleafR1, hpresR1⟩ :=
            rotate_spec d2 32 s (Frame.F d2 g redg sibg :: c'') ((s.heap p).parent)
              p xid redp true sibp AA BB hz2 hxarg1 hnda
          obtain ⟨hxpar1, hxcol1, hholeW, hsibA⟩ :=
            Repr_plugF_inv 32 (rotate s (Ref.node p) d2) _ d2 xid true AA _ hreprR1
          have hrefp : ((rotate s (Ref.node p) d2).heap xid).link d2 = Ref.node p :=
            Repr_plugF_ref 32 (rotate s (Ref.node p) d2) _ _ (!d2) p redp sibp BB hholeW
          rw [hrefp] at hholeW
          obtain ⟨hppar1, hpcol1, hholeB, hsibp1⟩ :=
            Repr_plugF_inv 32 (rotate s (Ref.node p) d2) _ (!d2) p redp sibp BB hholeW
          rw [show (getN (rotate s (Ref.node p) d2) (Ref.node p)).parent = Ref.node xid
            from hppar1] at h
          set sA := modifyRef (rotate s (Ref.node p) d2) (Ref.node xid) (paint_black 32)
            with hsA
          have eA : getN sA (Ref.node p) = (rotate s (Ref.node p) d2).heap p := by
            show sA.heap p = _
            rw [hsA, heap_modify_node, if_neg (Ne.symm hxp)]
          rw [eA, hppar1] at h
          have eB : getN sA (Ref.node xid)
              = paint_black 32 ((rotate s (Ref.node p) d2).heap xid) := by
            show sA.heap xid = _
            rw [hsA, heap_modify_node, if_pos rfl]
          rw [eB, paint_black_parent, hxpar1, hpr2] at h
          set sB := modifyRef sA (Ref.node g) (paint_red 32) with hsB
          have eC : getN sB (Ref.node p) = (rotate s (Ref.node p) d2).heap p := by
            show sB.heap p = _
            rw [hsB, heap_modify_node, if_neg hpg, hsA, heap_modify_node,
              if_neg (Ne.symm hxp)]
          rw [eC, hppar1] at h
          have eD : getN sB (Ref.node xid)
              = paint_black 32 ((rotate s (Ref.node p) d2).heap xid) := by
            show sB.heap xid = _
            rw [hsB, heap_modify_node, if_neg hxg, hsA, heap_modify_node, if_pos rfl]
          rw [eD, paint_black_parent, hxpar1, hpr2] at h
          obtain ⟨hpr1R, hredR, hfocR, hzgR, hsibgR⟩ := Zip_cons_inv hzR1
          have hxctx2 : xid ∉ ctxIds c'' :=
            hUCc xid ((plugF_mem _ _ _ _ _ _).mpr (Or.inr (Or.inl hxid_IN1)))
          have hgctx2 : g ∉ ctxIds c'' :=
            hUCc g ((plugF_mem _ _ _ _ _ _).mpr (Or.inl rfl))
          have hzgA := Zip_paint_out 32 (rotate s (Ref.node p) d2) xid (paint_black 32)
            hzgR hxctx2
          rw [← hsA] at hzgA
          have hzgB := Zip_paint_out 32 sA g (paint_red 32) hzgA hgctx2
          rw [← hsB] at hzgB
          have hBg : sB.heap g = paint_red 32 ((rotate s (Ref.node p) d2).heap g) := by
            rw [hsB, heap_modify_node, if_pos rfl, hsA, heap_modify_node,
              if_neg (Ne.symm hxg)]
          have hBx : sB.heap xid
              = paint_black 32 ((rotate s (Ref.node p) d2).heap xid) := eD
          have hBE : ∀ j, j ≠ xid → j ≠ g →
              sB.heap j = (rotate s (Ref.node p) d2).heap j := by
            intro j hjx hjg
            rw [hsB, heap_modify_node, if_neg hjg, hsA, heap_modify_node, if_neg hjx]
          have hag_AA : ∀ j ∈ AA.ids,
              sB.heap j = (rotate s (Ref.node p) d2).heap j := by
            intro j hj
            have hjt : j ∈ (T.node xid true tl trr).ids := by
              rw [hAAdef] at hj
              revert hj
              cases d2 <;> (intro hj; simp [T.ids]; tauto)
            have hjIN1 : j ∈ (plugF (.F (!d2) p redp sibp) (T.node xid true tl trr)).ids :=
              (plugF_mem _ _ _ _ _ _).mpr (Or.inr (Or.inl hjt))
            exact hBE j (fun he => hxAA (by rw [← he]; exact hj))
              (fun he => hgIN1 (by rw [← he]; exact hjIN1))
          have hag_W1 : ∀ j ∈ (plugF (.F (!d2) p redp sibp) BB).ids,
              sB.heap j = (rotate s (Ref.node p) d2).heap j := by
            intro j hj
            rcases (plugF_mem _ _ _ _ _ _).mp hj with hj1 | hj1 | hj1
            · subst hj1
              exact hBE j (Ne.symm hxp) hpg
            · have hjt : j ∈ (T.node xid true tl trr).ids := by
                rw [hBBdef] at hj1
                revert hj1
                cases d2 <;> (intro hj1; simp [T.ids]; tauto)
              have hjIN1 : j ∈ (plugF (.F (!d2) p redp sibp) (T.node xid true tl trr)).ids :=
                (plugF_mem _ _ _ _ _ _).mpr (Or.inr (Or.inl hjt))
              exact hBE j (fun he => hxBB (by rw [← he]; exact hj1))
                (fun he => hgIN1 (by rw [← he]; exact hjIN1))
            · have hjIN1 : j ∈ (plugF (.F (!d2) p redp sibp) (T.node xid true tl trr)).ids :=
                (plugF_mem _ _ _ _ _ _).mpr (Or.inr (Or.inr hj1))
              exact hBE j (fun he => hxsibp (by rw [← he]; exact hj1))
                (fun he => hgIN1 (by rw [← he]; exact hjIN1))
          have hag_sibg : ∀ j ∈ sibg.ids,
              sB.heap j = (rotate s (Ref.node p) d2).heap j := by
            intro j hj
            exact hBE j (fun he => hxsibg (by rw [← he]; exact hj))
              (fun he => hgsibg (by rw [← he]; exact hj))
          have hxarg2 : Repr 32 sB (((rotate s (Ref.node p) d2).heap g).parent) (.node g)
              (plugF (.F (!(!d2)) g true sibg)
                (plugF (.F (!d2) xid false (plugF (.F (!d2) p redp sibp) BB)) AA)) := by
            simp only [Bool.not_not]
            refine Repr_plugF 32 sB _ d2 g true _ _ ?_ ?_ ?_ ?_
            · rw [hBg, paint_red_parent]
            · rw [hBg, is_red_paint_red]
            · have hl : (sB.heap g).link d2 = Ref.node xid := by
                rw [hBg, paint_red_link, ← hfocR]
              rw [hl]
              refine Repr_plugF 32 sB _ (!d2) xid false _ AA ?_ ?_ ?_ ?_
              · rw [hBx, paint_black_parent, hxpar1, hpr2]
              · rw [hBx, is_red_paint_black]
              · have hl2 : (sB.heap xid).link (!d2)
                    = ((rotate s (Ref.node p) d2).heap xid).link (!d2) := by
                  rw [hBx, paint_black_link]
                rw [hl2]
                exact Repr_congr_heap 32 _ sB hsibA hag_AA
              · have hl3 : (sB.heap xid).link (!(!d2))
                    = ((rotate s (Ref.node p) d2).heap xid).link d2 := by
                  rw [hBx, paint_black_link, Bool.not_not]
                rw [hl3, hrefp]
                exact Repr_congr_heap 32 _ sB hholeW hag_W1
            · have hl4 : (sB.heap g).link (!d2)
                  = ((rotate s (Ref.node p) d2).heap g).link (!d2) := by
                rw [hBg, paint_red_link]
              rw [hl4]
              exact Repr_congr_heap 32 _ sB hsibgR hag_sibg
          have hids_pre2 : (plugF (.F (!(!d2)) g true sibg)
                (plugF (.F (!d2) xid false (plugF (.F (!d2) p redp sibp) BB)) AA)).ids
              = (plugF (.F d2 g redg sibg) (plugF (.F (!d2) p redp sibp)
                (T.node xid true tl trr))).ids := by
            rw [Bool.not_not, hAAdef, hBBdef]
            cases d2 <;> simp [plugF, T.ids]
          have hnd2arg : (plug c'' (plugF (.F (!(!d2)) g true sibg)
              (plugF (.F (!d2) xid false (plugF (.F (!d2) p redp sibp) BB)) AA))).ids.Nodup := by
            rw [plug_ids_congr c'' _ _ hids_pre2]
            exact hnd2
          obtain ⟨hzR2, hreprR2, hleafR2, hpresR2⟩ :=
            rotate_spec (!d2) 32 sB c'' (((rotate s (Ref.node p) d2).heap g).parent)
              g xid true false sibg (plugF (.F (!d2) p redp sibp) BB) AA
              hzgB hxarg2 hnd2arg
          have hU2eq : plugF (.F (!(!d2)) g true sibg) AA
              = plugF (.F d2 g true sibg) AA := by
            rw [Bool.not_not]
          rw [hU2eq] at hreprR2
          obtain ⟨hxpar4, hxcol4, hholeU2, hsibW⟩ :=
            Repr_plugF_inv 32 (rotate sB (Ref.node g) (!d2)) _ (!d2) xid false
              (plugF (.F (!d2) p redp sibp) BB) _ hreprR2
          have htW : Repr 32 (rotate sB (Ref.node g) (!d2)) (.node xid)
              (((rotate sB (Ref.node g) (!d2)).heap xid).link d2)
              (plugF (.F (!d2) p redp sibp) BB) := by
            rw [show ((rotate sB (Ref.node g) (!d2)).heap xid).link d2
              = ((rotate sB (Ref.node g) (!d2)).heap xid).link (!(!d2)) from by
                rw [Bool.not_not]]
            exact hsibW
          have hrefp2 : ((rotate sB (Ref.node g) (!d2)).heap xid).link d2
              = Ref.node p :=
            Repr_plugF_ref 32 (rotate sB (Ref.node g) (!d2)) _ _ (!d2) p redp sibp BB htW
          have hzipNew := Zip.frame
            d2 xid (plugF (.F d2 g true sibg) AA) c''
            (((rotate s (Ref.node p) d2).heap g).parent) hzR2 hxpar4 hholeU2
          rw [← hxcol4, hrefp2] at hzipNew
          have htW' : Repr 32 (rotate sB (Ref.node g) (!d2)) (.node xid) (.node p)
              (plugF (.F (!d2) p redp sibp) BB) := by
            rw [← hrefp2]
            exact htW
          have hNW1 : noRR (plugF (.F (!d2) p redp sibp) BB) :=
            noRR_plugF_mk (!d2) p redp sibp BB
              (fun _ => ⟨hBBblack, hsibp_black⟩) hNBB hNsibp
          have hNU2 : noRR (plugF (.F d2 g true sibg) AA) :=
            noRR_plugF_mk d2 g true sibg AA
              (fun _ => ⟨hAAblack, hsibg_black⟩) hNAA hNsibg
          have halmost_new : noRR (plug c''
              (plugF (.F d2 xid false (plugF (.F d2 g true sibg) AA))
                ((plugF (.F (!d2) p redp sibp) BB).blacken))) := by
            refine noRR_plug_replace c'' _ _ halmost2 ?_ ?_
            · refine noRR_plugF_mk d2 xid false _ _ (fun hcx => absurd hcx (by simp))
                ?_ hNU2
              rw [plugF_blacken]
              exact noRR_plugF_mk (!d2) p false sibp BB
                (fun hcx => absurd hcx (by simp)) hNBB hNsibp
            · rw [plugF_isRed]
              intro hcx
              exact absurd hcx (by simp)
          have hbW1 : bhOk (plugF (.F (!d2) p redp sibp) BB) a := by
            have hval : a + (if redp = true then 0 else 1) = a := by
              rw [hredp]
              simp
            rw [← hval]
            exact bhOk_plugF_mk (!d2) p redp sibp BB a hbBB hbsibp
          have hbU2 : bhOk (plugF (.F d2 g true sibg) AA) a := by
            have h2 := bhOk_plugF_mk d2 g true sibg AA a hbAA (hk1a ▸ hbsibg)
            simpa using h2
          have hb_new : bhOk (plug c''
              (plugF (.F d2 xid false (plugF (.F d2 g true sibg) AA))
                (plugF (.F (!d2) p redp sibp) BB))) n := by
            refine (bhOk_plug c'' _ n).mpr ⟨a + 1, ?_, ?_⟩
            · have h2 := bhOk_plugF_mk d2 xid false _ _ a hbW1 hbU2
              simpa using h2
            · rw [← hm2a]
              exact hbC
          have hidseq3 : (plugF (.F d2 xid false (plugF (.F d2 g true sibg) AA))
                (plugF (.F (!d2) p redp sibp) BB)).ids
              = (plugF (.F d2 g redg sibg) (plugF (.F (!d2) p redp sibp)
                (T.node xid true tl trr))).ids := by
            rw [hAAdef, hBBdef]
            cases d2 <;> simp [plugF, T.ids]
          have hplugeq3 : (plug c''
                (plugF (.F d2 xid false (plugF (.F d2 g true sibg) AA))
                  (plugF (.F (!d2) p redp sibp) BB))).ids
              = (plug c'' (plugF (.F d2 g redg sibg) (plugF (.F (!d2) p redp sibp)
                (T.node xid true tl trr)))).ids := plug_ids_congr c'' _ _ hidseq3
          have hroot_new : (.F d2 xid false (plugF (.F d2 g true sibg) AA)) :: c'' = []
              ∨ (plug ((.F d2 xid false (plugF (.F d2 g true sibg) AA)) :: c'')
                (plugF (.F (!d2) p redp sibp) BB)).isRed = false := by
            refine Or.inr ?_
            show (plug c'' (plugF (.F d2 xid false (plugF (.F d2 g true sibg) AA))
              (plugF (.F (!d2) p redp sibp) BB))).isRed = false
            rcases c'' with _ | ⟨f3, c3⟩
            · rw [show plug [] (plugF (.F d2 xid false (plugF (.F d2 g true sibg) AA))
                (plugF (.F (!d2) p redp sibp) BB))
                  = plugF (.F d2 xid false (plugF (.F d2 g true sibg) AA))
                    (plugF (.F (!d2) p redp sibp) BB) from rfl, plugF_isRed]
            · rw [plug_isRed_congr (f3 :: c3) _ (plugF (.F d2 g redg sibg)
                (plugF (.F (!d2) p redp sibp) (T.node xid true tl trr))) (by simp)]
              exact hrootb
          have hnd_new : (plug c''
              (plugF (.F d2 xid false (plugF (.F d2 g true sibg) AA))
                (plugF (.F (!d2) p redp sibp) BB))).ids.Nodup := by
            rw [hplugeq3]
            exact hnd2
          have hcounters : (rotate sB (Ref.node g) (!d2)).nodes_num = s.nodes_num ∧
              (rotate sB (Ref.node g) (!d2)).nodes = s.nodes := by
            constructor <;> simp [hsB, hsA]
          have hperm_new : (plug c''
              (plugF (.F d2 xid false (plugF (.F d2 g true sibg) AA))
                (plugF (.F (!d2) p redp sibp) BB))).ids.Perm
              ((List.range (rotate sB (Ref.node g) (!d2)).nodes_num).map
                (rotate sB (Ref.node g) (!d2)).nodes) := by
            rw [hplugeq3, hcounters.1, hcounters.2]
            exact hperm
          have hacR1 : ArenaCore (rotate s (Ref.node p) d2) :=
            ArenaCore_congr s _ (by simp) (by simp) (by simp) (by simp) (by simp)
              (fun j => (hpresR1 j).1) hleafR1 hac
          have hacB : ArenaCore sB := by
            rw [hsB]
            refine ArenaCore_paint_red _ g ?_
            rw [hsA]
            exact ArenaCore_paint_black _ (.node xid) hacR1
          have hac_new : ArenaCore (rotate sB (Ref.node g) (!d2)) :=
            ArenaCore_congr sB _ (by simp) (by simp) (by simp) (by simp) (by simp)
              (fun j => (hpresR2 j).1) hleafR2 hacB
          exact ih (rotate sB (Ref.node g) (!d2)) p s' h
            ⟨(.F d2 xid false (plugF (.F d2 g true sibg) AA)) :: c'',
              plugF (.F (!d2) p redp sibp) BB, .node xid, hzipNew, htW',
              by rw [plugF_isRed, hredp], hNW1, halmost_new, ⟨n, hb_new⟩,
              hroot_new, hnd_new, hperm_new, hac_new⟩

        · -- outer child: a single rotation at the grandparent
          next hic =>
          rw [hic0] at hic
          have hd : d = d2 := by
            by_cases hdd : d = d2
            · exact hdd
            · exfalso
              have hd2 : d = !d2 := by
                cases d <;> cases d2 <;> first | rfl | exact absurd (by decide) hdd
              rw [← hd2] at hic
              rw [← hfoc] at hic
              simp at hic
          subst hd
          dsimp only at h
          rw [show getN s (Ref.node xid) = s.heap xid from rfl, hpar] at h
          set s1 := modifyRef s (Ref.node p) (paint_black 32) with hs1
          have e0 : getN s1 (Ref.node xid) = s.heap xid := by
            show s1.heap xid = _
            rw [hs1, heap_modify_node, if_neg hxp]
          rw [e0, hpar] at h
          have e1 : getN s1 (Ref.node p) = paint_black 32 (s.heap p) := by
            show s1.heap p = _
            rw [hs1, heap_modify_node, if_pos rfl]
          rw [e1, paint_black_parent, hpr2] at h
          set s2 := modifyRef s1 (Ref.node g) (paint_red 32) with hs2
          have e2 : getN s2 (Ref.node xid) = s.heap xid := by
            show s2.heap xid = _
            rw [hs2, heap_modify_node, if_neg hxg, hs1, heap_modify_node, if_neg hxp]
          rw [e2, hpar] at h
          have e3 : getN s2 (Ref.node p) = paint_black 32 (s.heap p) := by
            show s2.heap p = _
            rw [hs2, heap_modify_node, if_neg hpg, hs1, heap_modify_node, if_pos rfl]
          rw [e3, paint_black_parent, hpr2] at h
          have h2g : s2.heap g = paint_red 32 (s.heap g) := by
            rw [hs2, heap_modify_node, if_pos rfl, hs1, heap_modify_node,
              if_neg (Ne.symm hpg)]
          have h2p : s2.heap p = paint_black 32 (s.heap p) := e3
          have h2E : ∀ j, j ≠ p → j ≠ g → s2.heap j = s.heap j := by
            intro j hjp hjg
            rw [hs2, heap_modify_node, if_neg hjg, hs1, heap_modify_node, if_neg hjp]
          have hpctx2 : p ∉ ctxIds c'' :=
            hUCc p ((plugF_mem _ _ _ _ _ _).mpr (Or.inr (Or.inl hp_IN1)))
          have hgctx2 : g ∉ ctxIds c'' :=
            hUCc g ((plugF_mem _ _ _ _ _ _).mpr (Or.inl rfl))
          have hzipA := Zip_paint_out 32 s p (paint_black 32) hz3 hpctx2
          rw [← hs1] at hzipA
          have hzipB := Zip_paint_out 32 s1 g (paint_red 32) hzipA hgctx2
          rw [← hs2] at hzipB
          have hag_t2 : ∀ j ∈ (T.node xid true tl trr).ids, s2.heap j = s.heap j := by
            intro j hj
            have hjIN1 : j ∈ (plugF (.F d p redp sibp) (T.node xid true tl trr)).ids :=
              (plugF_mem _ _ _ _ _ _).mpr (Or.inr (Or.inl hj))
            exact h2E j (fun he => hpt (by rw [← he]; exact hj))
              (fun he => hgIN1 (by rw [← he]; exact hjIN1))
          have hag_sibp2 : ∀ j ∈ sibp.ids, s2.heap j = s.heap j := by
            intro j hj
            have hjIN1 : j ∈ (plugF (.F d p redp sibp) (T.node xid true tl trr)).ids :=
              (plugF_mem _ _ _ _ _ _).mpr (Or.inr (Or.inr hj))
            exact h2E j (fun he => hpsibp (by rw [← he]; exact hj))
              (fun he => hgIN1 (by rw [← he]; exact hjIN1))
          have hag_sibg2 : ∀ j ∈ sibg.ids, s2.heap j = s.heap j := by
            intro j hj
            exact h2E j (fun he => hpsibg (by rw [← he]; exact hj))
              (fun he => hgsibg (by rw [← he]; exact hj))
          have hxarg : Repr 32 s2 ((s.heap g).parent) (.node g)
              (plugF (.F (!(!d)) g true sibg)
                (plugF (.F (!d) p false (T.node xid true tl trr)) sibp)) := by
            simp only [Bool.not_not]
            refine Repr_plugF 32 s2 _ d g true _ _ ?_ ?_ ?_ ?_
            · rw [h2g, paint_red_parent]
            · rw [h2g, is_red_paint_red]
            · have hl : (s2.heap g).link d = Ref.node p := by
                rw [h2g, paint_red_link, ← hfoc2]
              rw [hl]
              refine Repr_plugF 32 s2 _ (!d) p false (T.node xid true tl trr) sibp
                ?_ ?_ ?_ ?_
              · rw [h2p, paint_black_parent, hpr2]
              · rw [h2p, is_red_paint_black]
              · have hl2 : (s2.heap p).link (!d) = (s.heap p).link (!d) := by
                  rw [h2p, paint_black_link]
                rw [hl2]
                exact Repr_congr_heap 32 s s2 hsibp hag_sibp2
              · have hl3 : (s2.heap p).link (!(!d)) = Ref.node xid := by
                  rw [h2p, paint_black_link, Bool.not_not, ← hfoc]
                rw [hl3]
                exact Repr_congr_heap 32 s s2 hx hag_t2
            · have hl4 : (s2.heap g).link (!d) = (s.heap g).link (!d) := by
                rw [h2g, paint_red_link]
              rw [hl4]
              exact Repr_congr_heap 32 s s2 hsibg hag_sibg2
          have hids_pre : (plugF (.F (!(!d)) g true sibg)
                (plugF (.F (!d) p false (T.node xid true tl trr)) sibp)).ids
              = (plugF (.F d g redg sibg)
                (plugF (.F d p redp sibp) (T.node xid true tl trr))).ids := by
            rw [Bool.not_not]
            refine plugF_ids_congr d g true redg sibg sibg _ _ ?_ rfl
            exact plugF_flip_ids d p false redp (T.node xid true tl trr) sibp
          have hndarg : (plug c'' (plugF (.F (!(!d)) g true sibg)
              (plugF (.F (!d) p false (T.node xid true tl trr)) sibp))).ids.Nodup := by
            rw [plug_ids_congr c'' _ _ hids_pre]
            exact hnd2
          obtain ⟨hzipR, hreprR, hleafR, hpresR⟩ :=
            rotate_spec (!d) 32 s2 c'' ((s.heap g).parent) g p true false sibg
              (T.node xid true tl trr) sibp hzipB hxarg hndarg
          have hU3eq : plugF (.F (!(!d)) g true sibg) sibp
              = plugF (.F d g true sibg) sibp := by
            rw [Bool.not_not]
          rw [hU3eq] at hreprR
          obtain ⟨hppar3, hpcol3, hhole3, hsib3⟩ :=
            Repr_plugF_inv 32 (rotate s2 (Ref.node g) (!d)) _ (!d) p false
              (T.node xid true tl trr) _ hreprR
          have ht3 : Repr 32 (rotate s2 (Ref.node g) (!d)) (.node p)
              (((rotate s2 (Ref.node g) (!d)).heap p).link d)
              (T.node xid true tl trr) := by
            rw [show ((rotate s2 (Ref.node g) (!d)).heap p).link d
              = ((rotate s2 (Ref.node g) (!d)).heap p).link (!(!d)) from by
                rw [Bool.not_not]]
            exact hsib3
          have hfocus3 : ((rotate s2 (Ref.node g) (!d)).heap p).link d
              = Ref.node xid := (Repr_node_inv ht3).1
          have hzipNew := Zip.frame
            d p (plugF (.F d g true sibg) sibp) c'' ((s.heap g).parent)
            hzipR hppar3 hhole3
          rw [← hpcol3, hfocus3] at hzipNew
          have ht3' : Repr 32 (rotate s2 (Ref.node g) (!d)) (.node p) (.node xid)
              (T.node xid true tl trr) := by
            rw [← hfocus3]
            exact ht3
          have hNU3 : noRR (plugF (.F d g true sibg) sibp) :=
            noRR_plugF_mk d g true sibg sibp (fun _ => ⟨hsibp_black, hsibg_black⟩)
              hNsibp hNsibg
          have halmost_new : noRR (plug c''
              (plugF (.F d p false (plugF (.F d g true sibg) sibp))
                ((T.node xid true tl trr).blacken))) := by
            refine noRR_plug_replace c'' _ _ halmost2 ?_ ?_
            · exact noRR_plugF_mk d p false _ _ (fun hcx => absurd hcx (by simp))
                (noRR_blacken _ hnoRR) hNU3
            · rw [plugF_isRed]
              intro hcx
              exact absurd hcx (by simp)
          have hbU3 : bhOk (plugF (.F d g true sibg) sibp) a := by
            have h2 := bhOk_plugF_mk d g true sibg sibp a hbsibp (hk1a ▸ hbsibg)
            simpa using h2
          have hb_new : bhOk (plug c''
              (plugF (.F d p false (plugF (.F d g true sibg) sibp))
                (T.node xid true tl trr))) n := by
            refine (bhOk_plug c'' _ n).mpr ⟨a + 1, ?_, ?_⟩
            · have h2 := bhOk_plugF_mk d p false _ _ a hbt hbU3
              simpa using h2
            · rw [← hm2a]
              exact hbC
          have hidseq2 : (plugF (.F d p false (plugF (.F d g true sibg) sibp))
                (T.node xid true tl trr)).ids
              = (plugF (.F d g redg sibg)
                (plugF (.F d p redp sibp) (T.node xid true tl trr))).ids := by
            cases d <;> simp [plugF, T.ids]
          have hplugeq2 : (plug c''
                (plugF (.F d p false (plugF (.F d g true sibg) sibp))
                  (T.node xid true tl trr))).ids
              = (plug c'' (plugF (.F d g redg sibg)
                (plugF (.F d p redp sibp) (T.node xid true tl trr)))).ids :=
            plug_ids_congr c'' _ _ hidseq2
          have hroot_new : (.F d p false (plugF (.F d g true sibg) sibp)) :: c'' = []
              ∨ (plug ((.F d p false (plugF (.F d g true sibg) sibp)) :: c'')
                (T.node xid true tl trr)).isRed = false := by
            refine Or.inr ?_
            show (plug c'' (plugF (.F d p false (plugF (.F d g true sibg) sibp))
              (T.node xid true tl trr))).isRed = false
            rcases c'' with _ | ⟨f3, c3⟩
            · rw [show plug [] (plugF (.F d p false (plugF (.F d g true sibg) sibp))
                (T.node xid true tl trr)) = plugF (.F d p false
                  (plugF (.F d g true sibg) sibp)) (T.node xid true tl trr) from rfl,
                plugF_isRed]
            · rw [plug_isRed_congr (f3 :: c3) _ (plugF (.F d g redg sibg)
                (plugF (.F d p redp sibp) (T.node xid true tl trr))) (by simp)]
              exact hrootb
          have hnd_new : (plug c''
              (plugF (.F d p false (plugF (.F d g true sibg) sibp))
                (T.node xid true tl trr))).ids.Nodup := by
            rw [hplugeq2]
            exact hnd2
          have hcounters : (rotate s2 (Ref.node g) (!d)).nodes_num = s.nodes_num ∧
              (rotate s2 (Ref.node g) (!d)).nodes = s.nodes := by
            constructor <;> simp [hs2, hs1]
          have hperm_new : (plug c''
              (plugF (.F d p false (plugF (.F d g true sibg) sibp))
                (T.node xid true tl trr))).ids.Perm
              ((List.range (rotate s2 (Ref.node g) (!d)).nodes_num).map
                (rotate s2 (Ref.node g) (!d)).nodes) := by
            rw [hplugeq2, hcounters.1, hcounters.2]
            exact hperm
          have hacS2 : ArenaCore s2 := by
            rw [hs2]
            refine ArenaCore_paint_red _ g ?_
            rw [hs1]
            exact ArenaCore_paint_black _ (.node p) hac
          have hac_new : ArenaCore (rotate s2 (Ref.node g) (!d)) :=
            ArenaCore_congr s2 _ (by simp) (by simp) (by simp) (by simp) (by simp)
              (fun j => (hpresR j).1) hleafR hacS2
          exact ih (rotate s2 (Ref.node g) (!d)) xid s' h
            ⟨(.F d p false (plugF (.F d g true sibg) sibp)) :: c'',
              T.node xid true tl trr, .node p, hzipNew, ht3', rfl, hnoRR,
              halmost_new, ⟨n, hb_new⟩, hroot_new, hnd_new, hperm_new, hac_new⟩

    · next hcond =>
      injection h with h
      subst h
      rcases c with _ | ⟨⟨d, p, redp, sibp⟩, c'⟩
      · exact ⟨t, Zip_plug 32 s hz hx, noRR_blacken t hnoRR, hbh, hnd, hperm, hac⟩
      · have hcf : (Ref.node xid != s.root &&
            is_red 32 (getN s (getN s (Ref.node xid)).parent)) = false :=
          Bool.eq_false_iff.mpr hcond
        obtain ⟨hpr1, hred, hfoc, hz2, hsibp⟩ := Zip_cons_inv hz
        subst hpr1
        have hrootne : s.root ≠ Ref.node xid := Zip_cons_ne_root hz hx hnd
        have hpblack : is_red 32 (s.heap p) = false := by
          rcases Bool.and_eq_false_iff.mp hcf with h1 | h1
          · exfalso
            rw [bne_eq_false_iff_eq] at h1
            exact hrootne h1.symm
          · rw [show getN s (Ref.node xid) = s.heap xid from rfl, hpar,
              show getN s (Ref.node p) = s.heap p from rfl] at h1
            exact h1
        have hredp0 : redp = false := by rw [hred, hpblack]
        have hNsibp : noRR sibp := by
          have h2 := noRR_plug_down c' _ halmost
          exact ((noRR_plugF_iff _ _ _ _ _).mp h2).2.2
        have hfull : noRR (plug (Frame.F d p redp sibp :: c') t) := by
          refine noRR_plug_replace c' (plugF (.F d p redp sibp) t.blacken)
            (plugF (.F d p redp sibp) t) halmost ?_ ?_
          · refine noRR_plugF_mk d p redp sibp t ?_ hnoRR hNsibp
            rw [hredp0]
            intro hcx
            exact absurd hcx (by simp)
          · rw [plugF_isRed, plugF_isRed]
            exact fun hv => hv
        exact ⟨plug (Frame.F d p redp sibp :: c') t, Zip_plug 32 s hz hx,
          noRR_blacken _ hfull, hbh, hnd, hperm, hac⟩

theorem perm_snoc_middle (L R : List Nat) (a : Nat) :
    (L ++ [a] ++ R).Perm (L ++ R ++ [a]) := by
  have h1 : L ++ [a] ++ R = L ++ (a :: R) := by simp
  rw [h1]
  refine (List.perm_middle).trans ?_
  exact (List.perm_append_singleton a (L ++ R)).symm

/-- the ids of a represented tree are distinct: they are a permutation of a
prefix of the distinct slot array. -/
theorem Inv_tree_nodup (s : State α) (t : T) (hI : Inv s t) : t.ids.Nodup := by
  refine hI.2.2.2.1.symm.nodup ?_
  have hsub : ((List.range s.nodes_num).map s.nodes).Sublist
      ((List.range s.allocated_nodes_num).map s.nodes) :=
    List.Sublist.map s.nodes (List.range_sublist.mpr hI.2.2.2.2.1.2.1)
  exact hsub.nodup hI.2.1

/-- a tree that satisfies the red-black invariant and the structural
invariant stays that way through the insertion descent. -/
theorem insert_walk_good (maxAuto : Nat) (cmp : α → α → Int) (p : α) :
    ∀ (fuel : Nat) (s : State α) (xid : Nat) (c : List Frame) (t : T) (pr : Ref)
      (b : Bool) (s' : State α),
      insert_walk 32 maxAuto cmp s p fuel (.node xid) = some (b, s') →
      Zip 32 s c pr (.node xid) → Repr 32 s pr (.node xid) t →
      Inv s (plug c t) → RBinv (plug c t) → Good s' := by
  intro fuel
  induction fuel with
  | zero =>
    intro s xid c t pr b s' h
    exact absurd h (by simp [insert_walk])
  | succ fuel ih =>
    intro s xid c t pr b s' h hz hx hI hRB
    rw [insert_walk] at h
    dsimp only at h
    split at h
    · -- an equal element is already present: no mutation
      injection h with h
      injection h with hb hs'
      subst hs'
      exact ⟨plug c t, hI, hRB⟩
    · rcases t with _ | ⟨xid2, tcol, tl, trr⟩
      · exact absurd (Repr_nil_inv hx) (by simp)
      obtain ⟨hxx, hpar, hcolx, htlr, htrr⟩ := Repr_node_inv hx
      injection hxx with hxx2
      subst hxx2
      set dir : Bool := decide (cmp p (getN s (Ref.node xid)).ptr > 0) with hdir
      split at h
      · -- descend into the existing child
        next hchild =>
        have hne : (s.heap xid).link dir ≠ .leaf := by
          have : has_child (getN s (Ref.node xid)) dir = true := hchild
          show (s.heap xid).link dir ≠ .leaf
          simpa [has_child, Node.link, getN] using this
        have hsplit : T.node xid tcol tl trr
            = plugF (.F dir xid tcol (if dir = true then tl else trr))
              (if dir = true then trr else tl) := node_as_plugF dir xid tcol tl trr
        have hdirRepr : Repr 32 s (.node xid) ((s.heap xid).link dir)
            (if dir = true then trr else tl) := by
          cases hd : dir
          · simpa [Node.link] using htlr
          · simpa [Node.link] using htrr
        have hsibRepr : Repr 32 s (.node xid) ((s.heap xid).link (!dir))
            (if dir = true then tl else trr) := by
          cases hd : dir
          · simpa [Node.link] using htrr
          · simpa [Node.link] using htlr
        rcases Repr_ref_shape hdirRepr with hsh | ⟨w, hsh, hw⟩
        · exact absurd hsh hne
        have hz2 : Zip 32 s
            (.F dir xid (is_red 32 (s.heap xid)) (if dir = true then tl else trr) :: c)
            (.node xid) ((s.heap xid).link dir) :=
          Zip.frame dir xid _ c pr hz hpar hsibRepr
        rw [hsh] at hz2 hdirRepr
        have heq : plug (.F dir xid (is_red 32 (s.heap xid))
              (if dir = true then tl else trr) :: c) (if dir = true then trr else tl)
            = plug c (T.node xid tcol tl trr) := by
          show plug c _ = _
          refine congrArg (plug c) ?_
          rw [← hcolx]
          exact (node_as_plugF dir xid tcol tl trr).symm
        have hIx : Inv s (plug (.F dir xid (is_red 32 (s.heap xid))
            (if dir = true then tl else trr) :: c) (if dir = true then trr else tl)) := by
          rw [heq]
          exact hI
        have hRBx : RBinv (plug (.F dir xid (is_red 32 (s.heap xid))
            (if dir = true then tl else trr) :: c) (if dir = true then trr else tl)) := by
          rw [heq]
          exact hRB
        rw [show (getN s (Ref.node xid)).link dir = Ref.node w from hsh] at h
        exact ih s w _ _ (.node xid) b s' h hz2 hdirRepr hIx hRBx
      · -- attach a fresh red node at the missing child
        next hchild =>
        have hleafdir : (s.heap xid).link dir = .leaf := by
          have h2 : has_child (getN s (Ref.node xid)) dir = false :=
            Bool.eq_false_iff.mpr hchild
          simpa [has_child, getN, bne_eq_false_iff_eq] using h2
        have hdirRepr : Repr 32 s (.node xid) ((s.heap xid).link dir)
            (if dir = true then trr else tl) := by
          cases hd : dir
          · simpa [Node.link] using htlr
          · simpa [Node.link] using htrr
        have hsibRepr : Repr 32 s (.node xid) ((s.heap xid).link (!dir))
            (if dir = true then tl else trr) := by
          cases hd : dir
          · simpa [Node.link] using htrr
          · simpa [Node.link] using htlr
        have hnilsub : (if dir = true then trr else tl) = T.nil := by
          rw [hleafdir] at hdirRepr
          exact Repr_leaf_inv hdirRepr
        set sib2 := if dir = true then tl else trr with hsib2def
        have hsplit : T.node xid tcol tl trr = plugF (.F dir xid tcol sib2) T.nil := by
          rw [← hnilsub, hsib2def]
          exact node_as_plugF dir xid tcol tl trr
        rw [optBind_eq_some] at h
        obtain ⟨⟨id, s1⟩, hadd, h⟩ := h
        dsimp only at h
        rw [optBind_eq_some] at h
        obtain ⟨s4, hfix, hfin⟩ := h
        obtain ⟨a_root, a_leaf, a_nn, a_repr, a_heap, a_fresh, a_red, a_l0, a_l1,
          a_par, a_ptr, a_ac, a_perm⟩ :=
          add_node_inv maxAuto s (plug c (T.node xid tcol tl trr)) p id s1 hI hadd
        have hPnd : (plug c (T.node xid tcol tl trr)).ids.Nodup :=
          Inv_tree_nodup s _ hI
        obtain ⟨htnd, hctxnd, hUC⟩ := nodup_plug_parts c _ hPnd
        have hxid_t : xid ∈ (T.node xid tcol tl trr).ids := by simp [T.ids]
        have hxid_P : xid ∈ (plug c (T.node xid tcol tl trr)).ids := by
          rw [plug_ids]
          simp [hxid_t]
        have hxid_ne_id : xid ≠ id := fun he => a_fresh (by rw [← he]; exact hxid_P)
        have hids_lt : ∀ j ∈ (plug c (T.node xid tcol tl trr)).ids, j < s.nextId :=
          fun j hj => Inv_ids_lt_nextId s _ hI j hj
        have hmemP : ∀ j ∈ (T.node xid tcol tl trr).ids,
            j ∈ (plug c (T.node xid tcol tl trr)).ids := by
          intro j hj
          rw [plug_ids]
          simp [hj]
        have hmemC : ∀ j ∈ ctxIds c, j ∈ (plug c (T.node xid tcol tl trr)).ids := by
          intro j hj
          rw [plug_ids]
          unfold ctxIds at hj
          rcases List.mem_append.mp hj with hj | hj <;> simp [hj]
        set s2 := modifyRef s1 (Ref.node xid) (fun n => n.setLink dir (Ref.node id))
          with hs2
        set s3 := modifyRef s2 (Ref.node id)
          (fun n => { n with parent := Ref.node xid }) with hs3
        have h3id : s3.heap id = { s1.heap id with parent := Ref.node xid } := by
          rw [hs3, heap_modify_node, if_pos rfl, hs2, heap_modify_node,
            if_neg (Ne.symm hxid_ne_id)]
        have h3xid : s3.heap xid = (s1.heap xid).setLink dir (Ref.node id) := by
          rw [hs3, heap_modify_node, if_neg hxid_ne_id, hs2, heap_modify_node,
            if_pos rfl]
        have h3E : ∀ j, j ≠ id → j ≠ xid → s3.heap j = s1.heap j := by
          intro j hj1 hj2
          rw [hs3, heap_modify_node, if_neg hj1, hs2, heap_modify_node, if_neg hj2]
        have hagP : ∀ j ∈ (plug c (T.node xid tcol tl trr)).ids, j ≠ xid →
            s3.heap j = s.heap j := by
          intro j hj hjx
          have hjne : j ≠ id := fun he => a_fresh (by rw [← he]; exact hj)
          rw [h3E j hjne hjx]
          exact a_heap j (hids_lt j hj) hjne
        have hs1xid : s1.heap xid = s.heap xid :=
          a_heap xid (hids_lt xid hxid_P) hxid_ne_id
        have hzip3 : Zip 32 s3 c pr (.node xid) := by
          refine Zip_congr_heap 32 s s3 hz ?_ ?_
          · rw [hs3, hs2]
            simp [a_root]
          · intro j hj
            refine hagP j (hmemC j hj) ?_
            intro he
            exact hUC xid hxid_t (by rw [← he]; exact hj)
        have hpar3 : (s3.heap xid).parent = pr := by
          rw [h3xid, setLink_parent, hs1xid, hpar]
        have hcol3 : is_red 32 (s3.heap xid) = is_red 32 (s.heap xid) := by
          rw [h3xid]
          unfold is_red
          rw [setLink_flags, hs1xid]
        have hsib3 : Repr 32 s3 (.node xid) ((s3.heap xid).link (!dir)) sib2 := by
          rw [h3xid, setLink_link_other, hs1xid]
          refine Repr_congr_heap 32 s s3 hsibRepr ?_
          intro j hj
          refine hagP j (hmemP j ?_) ?_
          · rw [hsib2def] at hj
            revert hj
            cases dir <;> (intro hj; simp [T.ids]; tauto)
          · intro he
            have hxs : xid ∉ sib2.ids := by
              obtain ⟨h1, h2, h3, h4, h5⟩ := plugF_nodup_parts dir xid tcol sib2 T.nil
                (by rw [← hsplit]; exact htnd)
              exact h4
            exact hxs (by rw [← he]; exact hj)
        have hfoc3 : (s3.heap xid).link dir = Ref.node id := by
          rw [h3xid, setLink_link_same]
        have hzipAtt : Zip 32 s3 (.F dir xid tcol sib2 :: c) (.node xid) (.node id) := by
          have hzf := Zip.frame dir xid sib2 c pr hzip3 hpar3 hsib3
          rw [hfoc3, hcol3, ← hcolx] at hzf
          exact hzf
        have hreprAtt : Repr 32 s3 (.node xid) (.node id)
            (T.node id true T.nil T.nil) := by
          have hc : (true : Bool) = is_red 32 (s3.heap id) := by
            rw [h3id]
            show true = is_red 32 (s1.heap id)
            rw [a_red]
          rw [hc]
          refine Repr.node _ id T.nil T.nil ?_ ?_ ?_
          · rw [h3id]
          · rw [show (s3.heap id).link0 = Ref.leaf from by rw [h3id]; exact a_l0]
            exact Repr.nil _
          · rw [show (s3.heap id).link1 = Ref.leaf from by rw [h3id]; exact a_l1]
            exact Repr.nil _
        have hPamem : (plug (Frame.F dir xid tcol sib2 :: c) T.nil).ids
            = (plug c (T.node xid tcol tl trr)).ids := by
          rw [plug_cons, ← hsplit]
        have hInsFix : InsFix s3 id := by
          refine ⟨.F dir xid tcol sib2 :: c, T.node id true T.nil T.nil, .node xid,
            hzipAtt, hreprAtt, rfl, ?_, ?_, ?_, ?_, ?_, ?_, ?_⟩
          · show (true = true → T.isRed T.nil = false ∧ T.isRed T.nil = false) ∧ _ ∧ _
            exact ⟨fun _ => ⟨rfl, rfl⟩, trivial, trivial⟩
          · show noRR (plug (Frame.F dir xid tcol sib2 :: c)
              (T.node id false T.nil T.nil))
            refine noRR_plug_replace _ T.nil _ ?_ ?_ ?_
            · show noRR (plug (Frame.F dir xid tcol sib2 :: c) T.nil)
              rw [plug_cons, ← hsplit]
              exact hRB.2.1
            · exact ⟨(fun hcx => absurd hcx (by simp)), trivial, trivial⟩
            · intro hcx
              exact absurd hcx (by simp [T.isRed])
          · obtain ⟨n, hbn⟩ := hRB.2.2
            have hbn2 : bhOk (plug (Frame.F dir xid tcol sib2 :: c) T.nil) n := by
              rw [plug_cons, ← hsplit]
              exact hbn
            obtain ⟨m, hm, hbC⟩ := (bhOk_plug _ _ _).mp hbn2
            have hm0 : m = 0 := hm
            refine ⟨n, (bhOk_plug _ _ _).mpr ⟨0, ?_, hm0 ▸ hbC⟩⟩
            show ∃ k, bhOk T.nil k ∧ bhOk T.nil k ∧ 0 = k + (if true then 0 else 1)
            exact ⟨0, rfl, rfl, by simp⟩
          · refine Or.inr ?_
            rw [plug_isRed_congr _ _ T.nil (by simp)]
            have : (plug (Frame.F dir xid tcol sib2 :: c) T.nil).isRed
                = (plug c (T.node xid tcol tl trr)).isRed := by
              rw [plug_cons, ← hsplit]
            rw [this]
            exact hRB.1
          · rw [plug_ids]
            have hshape : (T.node id true T.nil T.nil).ids = [id] := rfl
            rw [hshape]
            have hold : (leftOf (Frame.F dir xid tcol sib2 :: c)
                ++ rightOf (Frame.F dir xid tcol sib2 :: c)).Nodup ∧
                id ∉ leftOf (Frame.F dir xid tcol sib2 :: c)
                  ++ rightOf (Frame.F dir xid tcol sib2 :: c) := by
              have h1 : (plug (Frame.F dir xid tcol sib2 :: c) T.nil).ids
                  = leftOf (Frame.F dir xid tcol sib2 :: c)
                    ++ rightOf (Frame.F dir xid tcol sib2 :: c) := by
                rw [plug_ids]
                simp [T.ids]
              constructor
              · rw [← h1, hPamem]
                exact hPnd
              · rw [← h1, hPamem]
                exact a_fresh
            rw [show leftOf (Frame.F dir xid tcol sib2 :: c) ++ [id]
                ++ rightOf (Frame.F dir xid tcol sib2 :: c)
              = leftOf (Frame.F dir xid tcol sib2 :: c)
                ++ id :: rightOf (Frame.F dir xid tcol sib2 :: c) from by simp]
            rw [List.nodup_middle]
            exact List.nodup_cons.mpr ⟨hold.2, hold.1⟩
          · have hids : (plug (Frame.F dir xid tcol sib2 :: c)
                (T.node id true T.nil T.nil)).ids.Perm
                ((plug c (T.node xid tcol tl trr)).ids ++ [id]) := by
              rw [plug_ids, ← hPamem, plug_ids]
              have hshape : (T.node id true T.nil T.nil).ids = [id] := rfl
              have hnilids : (T.nil : T).ids = ([] : List Nat) := rfl
              rw [hshape, hnilids]
              simpa using perm_snoc_middle
                (leftOf (Frame.F dir xid tcol sib2 :: c))
                (rightOf (Frame.F dir xid tcol sib2 :: c)) id
            have hcount : s3.nodes_num = s1.nodes_num ∧ s3.nodes = s1.nodes := by
              rw [hs3, hs2]
              exact ⟨by simp, by simp⟩
            rw [hcount.1, hcount.2]
            exact hids.trans a_perm
          · rw [hs3]
            refine ArenaCore_modify_flagskept _ id _ (fun n => rfl) ?_
            rw [hs2]
            exact ArenaCore_modify_flagskept _ xid _ (fun n => setLink_flags n dir _) a_ac
        obtain ⟨P4, hP4repr, hP4noRR, hP4bh, hP4nd, hP4perm, hP4ac⟩ :=
          insert_fixup_post fuel s3 id s4 hfix hInsFix
        injection hfin with hfin2
        injection hfin2 with hb hs'
        subst hs'
        rcases P4 with _ | ⟨rid, rc, rl, rr⟩
        · have hroot4 : s4.root = .leaf := Repr_nil_inv hP4repr
          rw [hroot4]
          refine ⟨T.nil, (Inv_split _ _).mpr ⟨?_, ?_, ?_⟩, rfl, trivial, 0, rfl⟩
          · rw [show (modifyRef s4 Ref.leaf (paint_black 32)).root = s4.root from by simp,
              hroot4]
            exact Repr.nil _
          · simpa using hP4perm
          · exact ArenaCore_paint_black s4 .leaf hP4ac
        · have hroot4 : s4.root = .node rid := (Repr_node_inv hP4repr).1
          rw [hroot4]
          rw [hroot4] at hP4repr
          obtain ⟨hrlnd, hrrnd, hrid_rl, hrid_rr, -⟩ :=
            plugF_nodup_parts false rid rc rr rl hP4nd
          have hrepr5 := Repr_paint_black_root 32 s4 hP4repr hrid_rl hrid_rr
          refine ⟨T.node rid false rl rr, (Inv_split _ _).mpr ⟨?_, ?_, ?_⟩, rfl, ?_, ?_⟩
          · rw [show (modifyRef s4 (Ref.node rid) (paint_black 32)).root = s4.root
              from by simp, hroot4]
            exact hrepr5
          · have : (T.node rid false rl rr).ids = (T.node rid rc rl rr).ids := rfl
            rw [this]
            simpa using hP4perm
          · exact ArenaCore_paint_black s4 (.node rid) hP4ac
          · exact hP4noRR
          · obtain ⟨n4, hbn4⟩ := hP4bh
            exact bhOk_blacken _ n4 hbn4


/-- the public insertion entry point preserves the structural and
red-black invariants. -/
theorem ptree_insert_good (maxAuto : Nat) (cmp : α → α → Int) (s : State α)
    (p : α) (fuel : Nat) (b : Bool) (s' : State α)
    (hG : Good s) (h : ptree_insert 32 maxAuto cmp s p fuel = some (b, s')) :
    Good s' := by
  obtain ⟨t, hI, hRB⟩ := hG
  unfold ptree_insert at h
  split at h
  · next hroot =>
    have hrootE : s.root = Ref.leaf := by
      have := of_decide_eq_true hroot
      simpa using this
    have htnil : t = T.nil := by
      have hr := ((Inv_split s t).mp hI).1
      rw [hrootE] at hr
      exact Repr_leaf_inv hr
    subst htnil
    rw [optBind_eq_some] at h
    obtain ⟨⟨id, s1⟩, hadd, h⟩ := h
    dsimp only at h
    obtain ⟨a_root, a_leaf, a_nn, a_repr, a_heap, a_fresh, a_red, a_l0, a_l1,
      a_par, a_ptr, a_ac, a_perm⟩ := add_node_inv maxAuto s T.nil p id s1 hI hadd
    injection h with h2
    injection h2 with hb hs'
    subst hs'
    set s2 : State α := { s1 with root := Ref.node id } with hs2
    have hrepr2 : Repr 32 s2 Ref.leaf (Ref.node id)
        (T.node id true T.nil T.nil) := by
      have hc : (true : Bool) = is_red 32 (s2.heap id) := by
        rw [show s2.heap = s1.heap from rfl, a_red]
      rw [hc]
      refine Repr.node _ id T.nil T.nil ?_ ?_ ?_
      · show (s1.heap id).parent = Ref.leaf
        exact a_par
      · rw [show (s2.heap id).link0 = Ref.leaf from a_l0]
        exact Repr.nil _
      · rw [show (s2.heap id).link1 = Ref.leaf from a_l1]
        exact Repr.nil _
    have hrepr3 := Repr_paint_black_root 32 s2 hrepr2
      (by simp [T.ids]) (by simp [T.ids])
    refine ⟨T.node id false T.nil T.nil, (Inv_split _ _).mpr ⟨?_, ?_, ?_⟩,
      rfl, ?_, ?_⟩
    · rw [show (modifyRef s2 s2.root (paint_black 32)).root = s2.root from by simp]
      rw [show s2.root = Ref.node id from rfl]
      exact hrepr3
    · have hids : (T.node id false T.nil T.nil).ids = [id] := rfl
      rw [hids]
      have hnn : (modifyRef s2 s2.root (paint_black 32)).nodes_num
          = s1.nodes_num := by simp [hs2]
      have hnd : (modifyRef s2 s2.root (paint_black 32)).nodes = s1.nodes := by
        simp [hs2]
      rw [hnn, hnd]
      have hp := a_perm
      have hn0 : (T.nil : T).ids = ([] : List Nat) := rfl
      rw [hn0, List.nil_append] at hp
      exact hp
    · refine ArenaCore_paint_black s2 s2.root ?_
      refine ArenaCore_congr s1 s2 rfl rfl rfl rfl rfl (fun j => rfl) rfl a_ac
    · show ((false : Bool) = true → T.isRed T.nil = false ∧ T.isRed T.nil = false)
        ∧ noRR T.nil ∧ noRR T.nil
      exact ⟨(fun hcx => nomatch hcx), trivial, trivial⟩
    · refine ⟨1, ?_⟩
      show ∃ m, bhOk T.nil m ∧ bhOk T.nil m ∧ 1 = m + (if false then 0 else 1)
      exact ⟨0, rfl, rfl, rfl⟩
  · next hroot =>
    cases t with
    | nil =>
      have hr := ((Inv_split s T.nil).mp hI).1
      have : s.root = Ref.leaf := Repr_nil_inv hr
      exact absurd (by rw [this]; rfl) hroot
    | node xid tc tl trr =>
      have hr := ((Inv_split s _).mp hI).1
      obtain ⟨hre, -, -, -, -⟩ := Repr_node_inv hr
      rw [hre] at h
      have hz : Zip 32 s [] Ref.leaf (Ref.node xid) := by
        rw [← hre]; exact Zip.top
      have hx : Repr 32 s Ref.leaf (Ref.node xid) (T.node xid tc tl trr) := by
        rw [← hre]; exact hr
      exact insert_walk_good maxAuto cmp p fuel s xid [] _ Ref.leaf b s' h hz hx hI hRB

/-! ## Removal: helper lemmas -/

theorem Repr_congr_fields (wd : Nat) (s s' : State α) {pr r : Ref} {t : T}
    (h : Repr wd s pr r t)
    (hag : ∀ id ∈ t.ids, (s'.heap id).parent = (s.heap id).parent ∧
      (s'.heap id).link0 = (s.heap id).link0 ∧
      (s'.heap id).link1 = (s.heap id).link1 ∧
      is_red wd (s'.heap id) = is_red wd (s.heap id)) :
    Repr wd s' pr r t := by
  induction h with
  | nil pr => exact .nil pr
  | node pr id tl tr hpar hl hr ihl ihr =>
    obtain ⟨hp, h0, h1, hf⟩ := hag id (by simp [T.ids])
    have hl' := ihl fun j hj => hag j (by simp [T.ids, hj])
    have hr' := ihr fun j hj => hag j (by simp [T.ids, hj])
    have hpar2 : (s'.heap id).parent = pr := by rw [hp, hpar]
    have hl2 : Repr wd s' (.node id) ((s'.heap id).link0) tl := by
      rw [h0]; exact hl'
    have hr2 : Repr wd s' (.node id) ((s'.heap id).link1) tr := by
      rw [h1]; exact hr'
    have hres := Repr.node pr id tl tr hpar2 hl2 hr2
    have hres2 : T.node id (is_red wd (s'.heap id)) tl tr
        = T.node id (is_red wd (s.heap id)) tl tr := by rw [hf]
    rwa [hres2] at hres

theorem Zip_congr_fields (wd : Nat) (s s' : State α) {c : List Frame} {pr r : Ref}
    (h : Zip wd s c pr r) (hroot : s'.root = s.root)
    (hag : ∀ id ∈ ctxIds c, (s'.heap id).parent = (s.heap id).parent ∧
      (s'.heap id).link0 = (s.heap id).link0 ∧
      (s'.heap id).link1 = (s.heap id).link1 ∧
      is_red wd (s'.heap id) = is_red wd (s.heap id)) :
    Zip wd s' c pr r := by
  induction h with
  | top => rw [← hroot]; exact .top
  | frame d id sib c pr hz hpar hsib ih =>
    have hidm : id ∈ ctxIds (Frame.F d id (is_red wd (s.heap id)) sib :: c) := by
      simp only [ctxIds, List.mem_append]
      cases d <;> simp [leftOf, rightOf, leftF, rightF]
    have hsub : ∀ j ∈ ctxIds c,
        j ∈ ctxIds (Frame.F d id (is_red wd (s.heap id)) sib :: c) := by
      intro j hj
      simp only [ctxIds, List.mem_append] at hj ⊢
      cases d <;> rcases hj with hj | hj <;>
        simp [leftOf, rightOf, leftF, rightF, hj]
    have hsibm : ∀ j ∈ sib.ids,
        j ∈ ctxIds (Frame.F d id (is_red wd (s.heap id)) sib :: c) := by
      intro j hj
      simp only [ctxIds, List.mem_append]
      cases d <;> simp [leftOf, rightOf, leftF, rightF, hj]
    obtain ⟨hp, h0, h1, hf⟩ := hag id hidm
    have hz' := ih (fun j hj => hag j (hsub j hj))
    have hlinkn : (s'.heap id).link (!d) = (s.heap id).link (!d) := by
      cases d
      · exact h1
      · exact h0
    have hsib' : Repr wd s' (.node id) ((s'.heap id).link (!d)) sib := by
      rw [hlinkn]
      exact Repr_congr_fields wd s s' hsib (fun j hj => hag j (hsibm j hj))
    have hpar2 : (s'.heap id).parent = pr := by rw [hp, hpar]
    have hres := Zip.frame d id sib c pr hz' hpar2 hsib'
    rw [hf] at hres
    have hlink : (s'.heap id).link d = (s.heap id).link d := by
      cases d
      · exact h0
      · exact h1
    rwa [hlink] at hres

theorem blacken_eq_self_of_black (t : T) (h : t.isRed = false) : t.blacken = t := by
  cases t with
  | nil => rfl
  | node id red l r =>
    have : red = false := h
    rw [T.blacken, this]


end Ptree
